import Mathlib

/-!
DHCP packet construction and option encoding (pkg/util/dhcp).

A shallow embedding of `packet6.go` and `helpers.go`.

Conventions of the embedding:

* a Go `[]byte` is a `List Nat` (each element stands for one byte);
  `uint16`/`uint32` values are `Nat`, reduced explicitly where Go converts
  or stores them in a fixed width;
* a `List Nat` stands for a slice without spare capacity (`cap = len`), as
  every slice made by `make` is: a slice expression `p[a:b]` is in range
  exactly when `a ≤ b ≤ len(p)`, and an index expression `p[i]` exactly when
  `i < len(p)`; a packet cut from a larger buffer is the pair of that buffer
  and its length, and the definitions whose name ends in `Cap` read it the
  way Go does, a slice expression being bounded by the capacity;
* a run-time panic (index or slice bounds out of range) is the result
  `Except.error Err.Panic`; the two error kinds of `yunion.io/x/pkg/errors`
  that the package returns are `Err.InvalidFormat` and `Err.NotSupported`
  (wrapping with `errors.Wrapf` keeps the kind);
* loops whose bound is not structural take a fuel argument; the entry points
  pass a fuel that is provably enough, and `Err.OutOfFuel` marks exhaustion.
-/

namespace Dhcp

/-- Outcomes other than a normal return. -/
inductive Err where
  | InvalidFormat
  | NotSupported
  | Panic
  | OutOfFuel
  deriving DecidableEq, Repr

deriving instance DecidableEq for Except

/-- Go `[]byte`. -/
abbrev Bytes := List Nat

/-- `type Packet []byte`. -/
abbrev Packet := List Nat

/-- `type MessageType byte`. -/
abbrev MessageType := Nat

/-- `type OptionCode6 uint16`. A code is a `Nat`; the statements keep it
below 65536 (`ValidOptions`) or take it from the options read off the wire
with `GetOption6s`. -/
abbrev OptionCode6 := Nat

/-! ## DHCPv6 message types and option codes (packet6.go, lines 63-118) -/

def DHCPV6_SOLICIT : MessageType := 1
def DHCPV6_ADVERTISE : MessageType := 2
def DHCPV6_REQUEST : MessageType := 3
def DHCPV6_CONFIRM : MessageType := 4
def DHCPV6_RENEW : MessageType := 5
def DHCPV6_REBIND : MessageType := 6
def DHCPV6_REPLY : MessageType := 7
def DHCPV6_RELEASE : MessageType := 8
def DHCPV6_DECLINE : MessageType := 9
def DHCPV6_RECONFIGURE : MessageType := 10
def DHCPV6_INFORMATION_REQUEST : MessageType := 11
def DHCPV6_RELAY_FORW : MessageType := 12
def DHCPV6_RELAY_REPL : MessageType := 13

def DHCPV6_OPTION_CLIENTID : OptionCode6 := 1
def DHCPV6_OPTION_SERVERID : OptionCode6 := 2
def DHCPV6_OPTION_IA_NA : OptionCode6 := 3
def DHCPV6_OPTION_IAADDR : OptionCode6 := 5
def DHCPV6_OPTION_ORO : OptionCode6 := 6
def DHCPV6_OPTION_RELAY_MSG : OptionCode6 := 9
def DHCPV6_OPTION_STATUS_CODE : OptionCode6 := 13
def DHCPV6_OPTION_RAPID_COMMIT : OptionCode6 := 14
def OPTION_DNS_SERVERS : OptionCode6 := 23
def OPTION_SNTP_SERVERS : OptionCode6 := 31

/-! ## Byte-level helpers (Go built-ins and `encoding/binary`) -/

/-- The slice expression `p[a:b]` on a slice whose capacity is its length:
panics unless `a ≤ b ≤ cap(p) = len(p)`. -/
def slice (p : Bytes) (a b : Nat) : Except Err Bytes :=
  if a ≤ b ∧ b ≤ p.length then .ok ((p.drop a).take (b - a)) else .error .Panic

/-- The index expression `p[i]`: panics unless `i < len(p)`. -/
def index (p : Bytes) (i : Nat) : Except Err Nat :=
  match p.get? i with
  | some b => .ok b
  | none => .error .Panic

/-- `binary.BigEndian.Uint16(b)` on a slice of two bytes. -/
def beUint16 (b : Bytes) : Nat :=
  b.getD 0 0 * 256 + b.getD 1 0

/-- `binary.BigEndian.Uint32(b)` on a slice of four bytes. -/
def beUint32 (b : Bytes) : Nat :=
  b.getD 0 0 * 16777216 + b.getD 1 0 * 65536 + b.getD 2 0 * 256 + b.getD 3 0

/-- The two bytes `binary.BigEndian.PutUint16` stores for `uint16(v)`. -/
def putUint16 (v : Nat) : Bytes :=
  [v / 256 % 256, v % 256]

/-- The four bytes `binary.BigEndian.PutUint32` stores for `uint32(v)`. -/
def putUint32 (v : Nat) : Bytes :=
  [v / 16777216 % 256, v / 65536 % 256, v / 256 % 256, v % 256]

/-! ## Packet model (v6) -/

/-- `func (p Packet) Type6() MessageType { return MessageType(p[0]) }`. -/
def Type6 (p : Packet) : Except Err MessageType :=
  index p 0

/-- `IsRelayMsg`: the type is RELAY-FORW or RELAY-REPL. -/
def IsRelayMsg (p : Packet) : Except Err Bool := do
  let t ← Type6 p
  pure (t == DHCPV6_RELAY_FORW || t == DHCPV6_RELAY_REPL)

/-- `SetType6`: `(*p)[0] = byte(hType)`. Its callers pass a freshly made
packet of 4 or 34 bytes, so the store is in range. -/
def SetType6 (p : Packet) (hType : MessageType) : Packet :=
  p.set 0 hType

/-- `SetTID`: bytes 1..3 become bytes 1..3 of the big-endian 32-bit form of
`tid`. Its caller passes a freshly made packet of 4 bytes. -/
def SetTID (p : Packet) (tid : Nat) : Packet :=
  let tidBytes := putUint32 tid
  ((p.set 1 (tidBytes.getD 1 0)).set 2 (tidBytes.getD 2 0)).set 3 (tidBytes.getD 3 0)

/-- `NewPacket6(opCode, tid)`: a fresh 4-byte packet with type and TID set. -/
def NewPacket6 (opCode : MessageType) (tid : Nat) : Packet :=
  SetTID (SetType6 (List.replicate 4 0) opCode) tid

/-- `NewRelayPacket6()`: 34 zero bytes with byte 0 set to RELAY-FORW. -/
def NewRelayPacket6 : Packet :=
  SetType6 (List.replicate 34 0) DHCPV6_RELAY_FORW

/-- `type Option6 struct { Code OptionCode6; Value []byte }`. -/
structure Option6 where
  Code : OptionCode6
  Value : Bytes
  deriving DecidableEq, Repr

/-- `optionToBytes`: code and length as big-endian 16-bit values, then the
value. -/
def optionToBytes (o : Option6) : Bytes :=
  putUint16 o.Code ++ putUint16 o.Value.length ++ o.Value

/-- `optionsToBytes`: the encodings appended in list order. -/
def optionsToBytes (opts : List Option6) : Bytes :=
  opts.foldl (fun buf o => buf ++ optionToBytes o) []

/-- The `for i < len(p)` loop of `GetOption6s`, from index `i` with the
options collected so far, on a packet without spare capacity (see
`getOption6sLoopCap` for a packet cut from a larger buffer). -/
def getOption6sLoop (p : Packet) : Nat → Nat → List Option6 → Except Err (List Option6)
  | 0, _, _ => .error .OutOfFuel
  | fuel + 1, i, options =>
    if i < p.length then do
      let c ← slice p i (i + 2)
      let code := beUint16 c
      let l ← slice p (i + 2) (i + 4)
      let length := beUint16 l
      let src ← slice p (i + 4) (i + 4 + length)
      let value := src
      getOption6sLoop p fuel (i + 4 + length) (options ++ [⟨code, value⟩])
    else .ok options

/-- `GetOption6s`: the options of a packet, read from offset 4, or from
offset 34 for a relay message. -/
def GetOption6s (p : Packet) : Except Err (List Option6) := do
  let relay ← IsRelayMsg p
  let offset := if relay then 16 * 2 + 2 else 4
  getOption6sLoop p (p.length + 1) offset []

/-- `TID6` with an explicit bound on the relay nesting it follows. -/
def TID6Aux : Nat → Packet → Except Err Nat
  | 0, _ => .error .OutOfFuel
  | fuel + 1, p => do
    let relay ← IsRelayMsg p
    if !relay then
      if p.length < 4 then .error .InvalidFormat
      else .ok (beUint32 [0, p.getD 1 0, p.getD 2 0, p.getD 3 0])
    else
      let options ← GetOption6s p
      match options.find? (fun o => o.Code == DHCPV6_OPTION_RELAY_MSG) with
      | some o => TID6Aux fuel o.Value
      | none => .error .InvalidFormat

/-- `TID6`: the transaction id; a relay message is followed into its first
RELAY_MSG option. Every nested packet is shorter than the one holding it, so
`len(p) + 1` levels are enough. -/
def TID6 (p : Packet) : Except Err Nat :=
  TID6Aux (p.length + 1) p

/-- `ClientID` with an explicit bound on the relay nesting it follows. -/
def ClientIDAux : Nat → Packet → Except Err Bytes
  | 0, _ => .error .OutOfFuel
  | fuel + 1, p => do
    let relay ← IsRelayMsg p
    if !relay then
      let options ← GetOption6s p
      match options.find? (fun o => o.Code == DHCPV6_OPTION_CLIENTID) with
      | some o => .ok o.Value
      | none => .error .InvalidFormat
    else
      let options ← GetOption6s p
      match options.find? (fun o => o.Code == DHCPV6_OPTION_RELAY_MSG) with
      | some o => ClientIDAux fuel o.Value
      | none => .error .InvalidFormat

/-- `ClientID`: the value of the first CLIENTID option of the innermost
message. -/
def ClientID (p : Packet) : Except Err Bytes :=
  ClientIDAux (p.length + 1) p

/-! ## Addresses (`net.IP` of the Go standard library) -/

/-- `net.IP`: `none` is the nil address, `some b` a non-nil byte slice. -/
abbrev IP := Option Bytes

/-- `len(ip)`. -/
def IP.len (ip : IP) : Nat := (ip.getD []).length

/-- `[]byte(ip)`. -/
def IP.bytes (ip : IP) : Bytes := ip.getD []

/-- The 12 bytes `v4InV6Prefix` of package `net`. -/
def v4InV6Prefix : Bytes := [0, 0, 0, 0, 0, 0, 0, 0, 0, 0, 255, 255]

/-- `net.IP.To4`: a 4-byte address is returned as it is, a 16-byte
IPv4-mapped address gives its last 4 bytes, anything else gives nil. -/
def To4 (ip : IP) : IP :=
  if ip.len = 4 then ip
  else if ip.len = 16 ∧ ip.bytes.take 10 = List.replicate 10 0
      ∧ ip.bytes.getD 10 0 = 255 ∧ ip.bytes.getD 11 0 = 255 then
    some ((ip.bytes.drop 12).take 4)
  else none

/-- `net.IP.To16`: a 4-byte address gives its 16-byte IPv4-mapped form, a
16-byte address is returned as it is, anything else gives nil. -/
def To16 (ip : IP) : IP :=
  if ip.len = 4 then some (v4InV6Prefix ++ ip.bytes)
  else if ip.len = 16 then ip
  else none

/-- `net.IP.Equal`: equal as addresses, an IPv4 address and its 16-byte
IPv4-mapped form being equal. -/
def IP.Equal (ip x : IP) : Bool :=
  if ip.len = x.len then ip.bytes == x.bytes
  else if ip.len = 4 ∧ x.len = 16 then
    x.bytes.take 12 == v4InV6Prefix && ip.bytes == x.bytes.drop 12
  else if ip.len = 16 ∧ x.len = 4 then
    ip.bytes.take 12 == v4InV6Prefix && ip.bytes.drop 12 == x.bytes
  else false

/-- The built-in `copy(dst, src)`: the new contents of `dst`. -/
def copyInto (dst src : Bytes) : Bytes :=
  src.take dst.length ++ dst.drop src.length

/-! ## Response configuration (helpers.go, lines 37-72) -/

/-- A Go `string`, as its bytes. -/
abbrev GoString := List Nat

/-- `netutils2.SRouteInfo`; its declaration is not in the sources at hand, the
fields are those the code reads: `{Prefix: IP, PrefixLen: uint8, Gateway: IP}`. -/
structure SRouteInfo where
  Prefix : IP
  PrefixLen : Nat
  Gateway : IP
  deriving DecidableEq, Repr

/-- `type ResponseConfig struct`. Durations are `time.Duration` values, that
is, a count of nanoseconds. -/
structure ResponseConfig where
  InterfaceMac : Bytes
  VlanId : Nat
  OsName : GoString
  ServerIP : IP
  ClientIP : IP
  Gateway : IP
  Domain : GoString
  LeaseTime : Int
  RenewalTime : Int
  BroadcastAddr : IP
  Hostname : GoString
  SubnetMask : IP
  DNSServers : List IP
  Routes : Option (List SRouteInfo)
  NTPServers : List IP
  MTU : Nat
  ClientIP6 : IP
  Gateway6 : IP
  PrefixLen6 : Nat
  DNSServers6 : List IP
  NTPServers6 : List IP
  Routes6 : Option (List SRouteInfo)
  IsDefaultGW : Bool
  RelayInfo : Option Bytes
  BootServer : GoString
  BootFile : GoString
  BootBlock : Nat
  deriving DecidableEq, Repr

/-! ## Reply builder (v6) -/

def DUID_TYPE_LINK_LAYER_ADDRESS : Nat := 3
def DUID_HARDWARE_TYPE_ETHERNET : Nat := 1

/-- `makeServerId`: DUID-LL, the two 16-bit tags followed by `serverMac[:6]`. -/
def makeServerId (serverMac : Bytes) : Except Err Bytes := do
  let buf := putUint16 DUID_TYPE_LINK_LAYER_ADDRESS ++ putUint16 DUID_HARDWARE_TYPE_ETHERNET
  let mac ← slice serverMac 0 6
  pure (buf ++ mac)

/-- `makeIAAddr`: 16 address bytes (zero when `ip.To16()` is nil), the two
lifetimes as big-endian 32-bit values, then the nested options. -/
def makeIAAddr (ip : IP) (preferLT validLT : Nat) (opts : List Option6) : Bytes :=
  copyInto (List.replicate 16 0) (To16 ip).bytes ++ putUint32 preferLT ++ putUint32 validLT
    ++ optionsToBytes opts

/-- `responseIANA`: the client's IA_NA value padded with zeros or cut to 12
bytes, then the nested options. -/
def responseIANA (buf : Bytes) (opts : List Option6) : Bytes :=
  let buf :=
    if buf.length < 12 then buf ++ List.replicate (12 - buf.length) 0
    else if buf.length > 12 then buf.take 12
    else buf
  buf ++ optionsToBytes opts

/-- `makeIPv6s`: the 16-byte forms appended in list order; an address whose
`To16()` is nil is skipped. -/
def makeIPv6s (ips : List IP) : Bytes :=
  ips.foldl (fun buf ip =>
    match To16 ip with
    | none => buf
    | some ip6 => buf ++ ip6) []

/-- `decodeRequestOptions`: the value read two bytes at a time with
`value[i:i+2]`; on a value of odd length the last slice is out of range. -/
def decodeRequestOptions : Bytes → Except Err (List OptionCode6)
  | [] => .ok []
  | [_] => .error .Panic
  | a :: b :: rest => do
    let optCodes ← decodeRequestOptions rest
    pure (beUint16 [a, b] :: optCodes)

/-- The closure `getOption` of `makeDHCPReplyPacket6`: the first option with
the given code. -/
def getOption (opts : List Option6) (code : OptionCode6) : Option Option6 :=
  opts.find? (fun o => o.Code == code)

/-- `uint32(d.Seconds())` for a `time.Duration` `d`. `Seconds` returns a
`float64`; for a whole number `L` of seconds with `0 ≤ L < 2^32` that float is
`L` exactly and the conversion gives `L`. For a value that does not fit in 32
bits Go leaves the result of the conversion to the implementation: the
definition takes the low 32 bits of the whole seconds, as on amd64. The
rounding of `float64` on a duration with a fraction of a second is not
modelled; the statements about lifetimes take a whole number of seconds. -/
def secondsUint32 (d : Int) : Nat :=
  (Int.tdiv d 1000000000 % 4294967296).toNat

/-- Lines 441-449 of `makeDHCPReplyPacket6`: the codes of a non-empty ORO
option are decoded for the debug log; nothing of it reaches the reply. -/
def logRequestOptions (originOpts : List Option6) : Except Err Unit :=
  match getOption originOpts DHCPV6_OPTION_ORO with
  | some reqInfo =>
    if reqInfo.Value.length > 0 then do
      let _ ← decodeRequestOptions reqInfo.Value
      pure ()
    else pure ()
  | none => pure ()

/-- Lines 472-489 of `makeDHCPReplyPacket6`: the IA_NA option of the reply,
from the value of the request's IA_NA option. -/
def ianaOption (conf : ResponseConfig) (ianaValue : Bytes) : Option6 :=
  let validLifetime := secondsUint32 conf.LeaseTime
  let preferredLifetime := validLifetime / 2
  ⟨DHCPV6_OPTION_IA_NA,
    responseIANA ianaValue [⟨DHCPV6_OPTION_IAADDR,
      makeIAAddr conf.ClientIP6 preferredLifetime validLifetime
        [⟨DHCPV6_OPTION_STATUS_CODE, [0, 0, 83, 117, 99, 99, 101, 115, 115]⟩]⟩]⟩

/-- Lines 491-503 of `makeDHCPReplyPacket6`: the DNS and SNTP server options,
each present when its list is not empty. -/
def serverOptions6 (conf : ResponseConfig) : List Option6 :=
  (if conf.DNSServers6.length > 0 then
      [⟨OPTION_DNS_SERVERS, makeIPv6s conf.DNSServers6⟩] else [])
  ++ (if conf.NTPServers6.length > 0 then
      [⟨OPTION_SNTP_SERVERS, makeIPv6s conf.NTPServers6⟩] else [])

/-- The option list `makeDHCPReplyPacket6` assembles (lines 431-515),
together with the message type it ends up with. -/
def replyOptions6 (pkt : Packet) (conf : ResponseConfig) (msgType : MessageType) :
    Except Err (MessageType × List Option6) := do
  let originOpts ← GetOption6s pkt
  logRequestOptions originOpts
  match getOption originOpts DHCPV6_OPTION_CLIENTID with
  | none => .error .InvalidFormat
  | some reqCliID =>
    let serverId ← makeServerId conf.InterfaceMac
    match getOption originOpts DHCPV6_OPTION_IA_NA with
    | none => .error .InvalidFormat
    | some ianaOpt =>
      let options : List Option6 :=
        [⟨DHCPV6_OPTION_CLIENTID, reqCliID.Value⟩, ⟨DHCPV6_OPTION_SERVERID, serverId⟩,
          ianaOption conf ianaOpt.Value] ++ serverOptions6 conf
      let t ← Type6 pkt
      if t = DHCPV6_SOLICIT then
        match getOption originOpts DHCPV6_OPTION_RAPID_COMMIT with
        | some _ => pure (DHCPV6_REPLY, options ++ [⟨DHCPV6_OPTION_RAPID_COMMIT, []⟩])
        | none => pure (msgType, options)
      else pure (msgType, options)

/-- `makeDHCPReplyPacket6`: the reply header with the request's transaction
id, followed by the encoded options. -/
def makeDHCPReplyPacket6 (pkt : Packet) (conf : ResponseConfig) (msgType : MessageType) :
    Except Err Packet := do
  let tid ← TID6 pkt
  let (msgType, options) ← replyOptions6 pkt conf msgType
  let resp := NewPacket6 msgType tid
  pure (resp ++ optionsToBytes options)

/-- `MakeDHCP6Reply`: the reply type is chosen from the request type, any
other request type is not supported. -/
def MakeDHCP6Reply (pkt : Packet) (conf : ResponseConfig) : Except Err Packet := do
  let pktType ← Type6 pkt
  if pktType = DHCPV6_SOLICIT then makeDHCPReplyPacket6 pkt conf DHCPV6_ADVERTISE
  else if pktType = DHCPV6_REQUEST then makeDHCPReplyPacket6 pkt conf DHCPV6_REPLY
  else if pktType = DHCPV6_CONFIRM then makeDHCPReplyPacket6 pkt conf DHCPV6_REPLY
  else if pktType = DHCPV6_RENEW then makeDHCPReplyPacket6 pkt conf DHCPV6_REPLY
  else if pktType = DHCPV6_REBIND then makeDHCPReplyPacket6 pkt conf DHCPV6_REPLY
  else if pktType = DHCPV6_INFORMATION_REQUEST then makeDHCPReplyPacket6 pkt conf DHCPV6_REPLY
  else .error .NotSupported

/-! ## Relay encapsulation (v6) -/

/-- `EncapDHCP6RelayMsg`: a RELAY-FORW header followed by one RELAY_MSG
option holding the packet. -/
def EncapDHCP6RelayMsg (pkt : Packet) : Packet :=
  let relayMsg := NewRelayPacket6
  let relayOpt : Option6 := ⟨DHCPV6_OPTION_RELAY_MSG, pkt⟩
  relayMsg ++ optionsToBytes [relayOpt]

/-- `DecapDHCP6RelayMsg`: the value of the first RELAY_MSG option. -/
def DecapDHCP6RelayMsg (pkt : Packet) : Except Err Packet := do
  let options ← GetOption6s pkt
  match options.find? (fun o => o.Code == DHCPV6_OPTION_RELAY_MSG) with
  | some o => .ok o.Value
  | none => .error .InvalidFormat

/-! ## Option codec (v4), helpers.go -/

/-- `type OptionCode byte`. -/
abbrev OptionCode := Nat

/-- `type Option struct { Code OptionCode; Value []byte }`. -/
structure Option4 where
  Code : OptionCode
  Value : Bytes
  deriving DecidableEq, Repr

/-! Modelled from the spec: the DHCPv4 option codes and message types. They
are declared in files of the package that are not among the sources; the
values are those of section 6 of the specification (RFC 2132). -/

def OptionSubnetMask : OptionCode := 1
def OptionRouter : OptionCode := 3
def OptionDomainNameServer : OptionCode := 6
def OptionHostName : OptionCode := 12
def OptionBootFileSize : OptionCode := 13
def OptionDomainName : OptionCode := 15
def OptionInterfaceMTU : OptionCode := 26
def OptionBroadcastAddress : OptionCode := 28
def OptionNetworkTimeProtocolServers : OptionCode := 42
def OptionRequestedIPAddress : OptionCode := 50
def OptionRenewalTimeValue : OptionCode := 58
def OptionVendorClassIdentifier : OptionCode := 60
def OptionTFTPServerName : OptionCode := 66
def OptionBootFileName : OptionCode := 67
def OptionRelayAgentInformation : OptionCode := 82
def OptionIPv6Only : OptionCode := 108
def OptionClasslessRouteFormat : OptionCode := 121

def Discover : MessageType := 1
def Offer : MessageType := 2
def Request : MessageType := 3
def Decline : MessageType := 4
def ACK : MessageType := 5
def NAK : MessageType := 6
def Release : MessageType := 7
def Inform : MessageType := 8

/-- `OptClasslessRouteLin`, helpers.go line 32. -/
def OptClasslessRouteLin : OptionCode := OptionClasslessRouteFormat

/-- `OptClasslessRouteWin`, helpers.go line 33. -/
def OptClasslessRouteWin : OptionCode := 249

/-- `GetOptUint16`. -/
def GetOptUint16 (val : Nat) : Bytes := putUint16 val

/-- `GetOptUint32`. -/
def GetOptUint32 (val : Nat) : Bytes := putUint32 val

/-- `GetOptIP`: `[]byte(ip.To4())`. -/
def GetOptIP (ip : IP) : Bytes := (To4 ip).bytes

/-- `GetOptIPs`: the 4-byte forms appended in list order. -/
def GetOptIPs (ips : List IP) : Bytes :=
  ips.foldl (fun buf ip => buf ++ (To4 ip).bytes) []

/-- `GetOptTime`: `uint32(d / time.Second)`, big-endian. The division is the
truncating division of `int64`, the conversion keeps the low 32 bits. -/
def GetOptTime (d : Int) : Bytes :=
  putUint32 (Int.tdiv d 1000000000 % 4294967296).toNat

/-- `getClasslessRoutePack`: mask length, significant bytes of the network
address, gateway. `netlen` is a `uint8`. -/
def getClasslessRoutePack (route : SRouteInfo) : Except Err Bytes := do
  let netaddr := route.Prefix
  let netaddr := if netaddr ≠ none then To4 netaddr else netaddr
  let masklen := route.PrefixLen
  let netlen := masklen / 8
  let netlen := if masklen % 8 > 0 then (netlen + 1) % 256 else netlen
  let netaddr ← if netlen < 4 then slice netaddr.bytes 0 netlen else pure netaddr.bytes
  let gwaddr := route.Gateway
  let gwaddr := if gwaddr ≠ none then To4 gwaddr else gwaddr
  let res := [masklen]
  let res := res ++ netaddr
  pure (res ++ gwaddr.bytes)

/-! ## Reply builder (v4), helpers.go -/

/-- Modelled from the spec: the DHCPv4 request as the reply builder reads it,
through `Type()` (field `Type4`: the message type, derived from option 53) and
`ParseOptions()` (the map from option code to value). `packet.go` is not
among the sources. -/
structure Packet4 where
  Type4 : MessageType
  ParseOptions : OptionCode → Option Bytes

/-- Modelled from the spec: `Options.IP(code)` of the parsed option map
(`options.go` is not among the sources): the value of the option read as an
address, nil when the option is absent. -/
def OptionsIP (opts : OptionCode → Option Bytes) (code : OptionCode) : IP :=
  opts code

/-- Modelled from the spec: the reply that `ReplyPacket(req, msgType, serverIP,
clientIP, leaseTime, opts)` builds ("the base reply envelope: message type,
server id, lease time, client/server/your IP", then the options handed to it),
kept as the arguments it was built from, together with the later effects of
`SetSIAddr` and `AddOption` on it. `packet.go` is not among the sources. -/
structure Reply4 where
  Req : Packet4
  MsgType : MessageType
  ServerIP : IP
  ClientIP : IP
  LeaseTime : Int
  Opts : List Option4
  SIAddr : Option GoString
  Added : List Option4

/-- Modelled from the spec: `ReplyPacket`, see `Reply4`. -/
def ReplyPacket (req : Packet4) (msgType : MessageType) (serverIP clientIP : IP)
    (leaseTime : Int) (opts : List Option4) : Reply4 :=
  { Req := req, MsgType := msgType, ServerIP := serverIP, ClientIP := clientIP,
    LeaseTime := leaseTime, Opts := opts, SIAddr := none, Added := [] }

/-- Modelled from the spec: `AddOption(code, value)` "appends before the
terminating End option"; the options added are kept in call order. -/
def AddOption (resp : Reply4) (code : OptionCode) (value : Bytes) : Reply4 :=
  { resp with Added := resp.Added ++ [⟨code, value⟩] }

/-- Modelled from the spec: `SetSIAddr(net.ParseIP(s))`; the string whose
parsed address is stored is kept. -/
def SetSIAddr (resp : Reply4) (s : GoString) : Reply4 :=
  { resp with SIAddr := some s }

/-- `strings.HasPrefix(s, pre)`. -/
def HasPrefix (s pre : GoString) : Bool :=
  pre.length ≤ s.length && s.take pre.length == pre

/-- `strings.ToLower(s)` on the bytes of `s`: an ASCII capital letter becomes
its small letter; other bytes are kept. This is `strings.ToLower` on ASCII
strings; a rune outside ASCII is not mapped here, while the library maps it
(U+0130 to `i`), so the statements that use `ToLower` put their condition on
this byte-wise form, which implies the same prefix for the library. -/
def ToLower (s : GoString) : GoString :=
  s.map (fun b => if 65 ≤ b ∧ b ≤ 90 then b + 32 else b)

/-- The string `"MSFT "`. -/
def strMSFT : GoString := [77, 83, 70, 84, 32]

/-- The string `"win"`. -/
def strWin : GoString := [119, 105, 110]

/-- `getPacketVendorClassId`: `string(pkt.ParseOptions()[60])`. -/
def getPacketVendorClassId (pkt : Packet4) : GoString :=
  (pkt.ParseOptions OptionVendorClassIdentifier).getD []

/-- `net.ParseIP("0.0.0.0")`: the 16-byte form of the IPv4 address 0.0.0.0. -/
def parseIPZero : IP := some (v4InV6Prefix ++ [0, 0, 0, 0])

/-- Lines 152-156 of `makeDHCPReplyPacket`: with an empty `OsName`, a vendor
class identifier that starts with `"MSFT "` sets `conf.OsName` to `"win"`.
The configuration is passed by pointer, so the assignment is kept. -/
def setOsName (req : Packet4) (conf : ResponseConfig) : ResponseConfig :=
  if conf.OsName = [] then
    let vendorClsId := getPacketVendorClassId req
    if vendorClsId ≠ [] ∧ HasPrefix vendorClsId strMSFT then { conf with OsName := strWin }
    else conf
  else conf

/-- Lines 158-193 of `makeDHCPReplyPacket`: the option list handed to
`ReplyPacket`. Each `if` of the source appends one option to `opts` or
leaves it as it is. -/
def replyOptions4 (conf : ResponseConfig) : List Option4 :=
  (if conf.SubnetMask ≠ none then [⟨OptionSubnetMask, GetOptIP conf.SubnetMask⟩] else [])
  ++ (if conf.Gateway ≠ none then [⟨OptionRouter, GetOptIP conf.Gateway⟩] else [])
  ++ (if conf.Domain ≠ [] then [⟨OptionDomainName, conf.Domain⟩] else [])
  ++ (if conf.BroadcastAddr ≠ none then
        [⟨OptionBroadcastAddress, GetOptIP conf.BroadcastAddr⟩] else [])
  ++ (if conf.Hostname ≠ [] then [⟨OptionHostName, conf.Hostname⟩] else [])
  ++ (if conf.DNSServers.length > 0 then
        [⟨OptionDomainNameServer, GetOptIPs conf.DNSServers⟩] else [])
  ++ (if conf.NTPServers.length > 0 then
        [⟨OptionNetworkTimeProtocolServers, GetOptIPs conf.NTPServers⟩] else [])
  ++ (if conf.MTU > 0 then [⟨OptionInterfaceMTU, GetOptUint16 conf.MTU⟩] else [])
  ++ (match conf.RelayInfo with
      | some relayInfo => [⟨OptionRelayAgentInformation, relayInfo⟩]
      | none => [])
  ++ (if conf.ClientIP ≠ none then [] else [⟨OptionIPv6Only, GetOptUint32 60⟩])

/-- Lines 187-193 of `makeDHCPReplyPacket`: the client address of the reply. -/
def replyClientIP (conf : ResponseConfig) : IP :=
  if conf.ClientIP ≠ none then conf.ClientIP else parseIPZero

/-- Lines 194-211 of `makeDHCPReplyPacket`: the reply before the routes are
added. -/
def replyBeforeRoutes (req : Packet4) (conf : ResponseConfig) (msgType : MessageType) :
    Reply4 :=
  let resp := ReplyPacket req msgType conf.ServerIP (replyClientIP conf) conf.LeaseTime
    (replyOptions4 conf)
  let resp := if conf.BootServer ≠ [] then
    AddOption (SetSIAddr resp conf.BootServer) OptionTFTPServerName (conf.BootServer ++ [0])
    else resp
  let resp := if conf.BootFile ≠ [] then
    AddOption (AddOption resp OptionBootFileName (conf.BootFile ++ [0]))
      OptionBootFileSize (putUint16 conf.BootBlock)
    else resp
  if conf.RenewalTime > 0 then
    AddOption resp OptionRenewalTimeValue (GetOptTime conf.RenewalTime) else resp

/-- The option code of lines 213-216: 249 when the lower-cased `OsName`
starts with `"win"`, otherwise `OptionClasslessRouteFormat`. -/
def routeOptCode (conf : ResponseConfig) : OptionCode :=
  if HasPrefix (ToLower conf.OsName) strWin then OptClasslessRouteWin
  else OptClasslessRouteLin

/-- Lines 212-221 of `makeDHCPReplyPacket`: one option per route, in list
order. -/
def addRoutes (conf : ResponseConfig) (resp : Reply4) : Except Err Reply4 :=
  match conf.Routes with
  | none => pure resp
  | some routes =>
    let optCode := routeOptCode conf
    routes.foldlM (fun resp route => do
      let routeBytes ← getClasslessRoutePack route
      pure (AddOption resp optCode routeBytes)) resp

/-- `makeDHCPReplyPacket`: the reply, and the configuration as the call
leaves it. -/
def makeDHCPReplyPacket (req : Packet4) (conf : ResponseConfig) (msgType : MessageType) :
    Except Err (Reply4 × ResponseConfig) := do
  let conf := setOsName req conf
  let resp ← addRoutes conf (replyBeforeRoutes req conf msgType)
  pure (resp, conf)

/-- The message type `MakeReplyPacket` picks (helpers.go, lines 133-141). -/
def replyMsgType (pkt : Packet4) (conf : ResponseConfig) : MessageType :=
  if pkt.Type4 = Request then
    let reqAddr := OptionsIP pkt.ParseOptions OptionRequestedIPAddress
    if reqAddr ≠ none ∧ ¬ conf.ClientIP.Equal reqAddr then NAK else ACK
  else Offer

/-- `MakeReplyPacket`: the reply built with the picked message type; the
error it returns is always nil. -/
def MakeReplyPacket (pkt : Packet4) (conf : ResponseConfig) :
    Except Err (Reply4 × ResponseConfig) :=
  makeDHCPReplyPacket pkt conf (replyMsgType pkt conf)

/-! ## Packets cut from a larger buffer

The packet is `p = buf[:n]`: its length is `n`, its capacity is `len(buf)`.
An index expression `p[i]` is bounded by the length, a slice expression
`p[a:b]` by the capacity. Every option value is made by `make([]byte, length)`
and has no spare capacity, so the nested calls are those of `TID6` and
`ClientID` above. -/

/-- The index expression `p[i]` for `p = buf[:n]`: panics unless `i < n`. -/
def indexLen (buf : Bytes) (n i : Nat) : Except Err Nat :=
  if i < n then index buf i else .error .Panic

/-- `Type6` of `buf[:n]`. -/
def Type6Cap (buf : Bytes) (n : Nat) : Except Err MessageType :=
  indexLen buf n 0

/-- `IsRelayMsg` of `buf[:n]`. -/
def IsRelayMsgCap (buf : Bytes) (n : Nat) : Except Err Bool := do
  let t ← Type6Cap buf n
  pure (t == DHCPV6_RELAY_FORW || t == DHCPV6_RELAY_REPL)

/-- The `for i < len(p)` loop of `GetOption6s` for `p = buf[:n]`: the loop
test is on the length `n`, the three slice expressions are bounded by the
capacity. -/
def getOption6sLoopCap (buf : Bytes) (n : Nat) :
    Nat → Nat → List Option6 → Except Err (List Option6)
  | 0, _, _ => .error .OutOfFuel
  | fuel + 1, i, options =>
    if i < n then do
      let c ← slice buf i (i + 2)
      let code := beUint16 c
      let l ← slice buf (i + 2) (i + 4)
      let length := beUint16 l
      let src ← slice buf (i + 4) (i + 4 + length)
      let value := src
      getOption6sLoopCap buf n fuel (i + 4 + length) (options ++ [⟨code, value⟩])
    else .ok options

/-- `GetOption6s` of `buf[:n]`. -/
def GetOption6sCap (buf : Bytes) (n : Nat) : Except Err (List Option6) := do
  let relay ← IsRelayMsgCap buf n
  let offset := if relay then 16 * 2 + 2 else 4
  getOption6sLoopCap buf n (n + 1) offset []

/-- `TID6` of `buf[:n]`; the nested packet is an option value. -/
def TID6Cap (buf : Bytes) (n : Nat) : Except Err Nat := do
  let relay ← IsRelayMsgCap buf n
  if !relay then
    if n < 4 then .error .InvalidFormat
    else do
      let b1 ← indexLen buf n 1
      let b2 ← indexLen buf n 2
      let b3 ← indexLen buf n 3
      pure (beUint32 [0, b1, b2, b3])
  else
    let options ← GetOption6sCap buf n
    match options.find? (fun o => o.Code == DHCPV6_OPTION_RELAY_MSG) with
    | some o => TID6 o.Value
    | none => .error .InvalidFormat

/-- `ClientID` of `buf[:n]`; the nested packet is an option value. -/
def ClientIDCap (buf : Bytes) (n : Nat) : Except Err Bytes := do
  let relay ← IsRelayMsgCap buf n
  if !relay then
    let options ← GetOption6sCap buf n
    match options.find? (fun o => o.Code == DHCPV6_OPTION_CLIENTID) with
    | some o => .ok o.Value
    | none => .error .InvalidFormat
  else
    let options ← GetOption6sCap buf n
    match options.find? (fun o => o.Code == DHCPV6_OPTION_RELAY_MSG) with
    | some o => ClientID o.Value
    | none => .error .InvalidFormat

/-! ## Values used in the examples -/

/-- The zero value `ResponseConfig{}`. -/
def zeroConf : ResponseConfig :=
  { InterfaceMac := [], VlanId := 0, OsName := [], ServerIP := none, ClientIP := none,
    Gateway := none, Domain := [], LeaseTime := 0, RenewalTime := 0, BroadcastAddr := none,
    Hostname := [], SubnetMask := none, DNSServers := [], Routes := none, NTPServers := [],
    MTU := 0, ClientIP6 := none, Gateway6 := none, PrefixLen6 := 0, DNSServers6 := [],
    NTPServers6 := [], Routes6 := none, IsDefaultGW := false, RelayInfo := none,
    BootServer := [], BootFile := [], BootBlock := 0 }

/-- A DHCPv4 request of the given type carrying the listed options. -/
def request4 (t : MessageType) (opts : List (OptionCode × Bytes)) : Packet4 :=
  { Type4 := t, ParseOptions := fun code => (opts.find? (fun o => o.1 == code)).map (fun o => o.2) }

/-! ## Predicates used in the statements -/

/-- An option list the wire format can hold: codes fit 16 bits and values
are at most 65535 bytes long. -/
def ValidOptions (opts : List Option6) : Prop :=
  ∀ o ∈ opts, o.Code < 65536 ∧ o.Value.length ≤ 65535

instance (opts : List Option6) : Decidable (ValidOptions opts) := by
  unfold ValidOptions
  infer_instance

/-! # Theorems -/

/-! ## Lemmas: byte-level helpers -/

theorem beUint16_putUint16 (v : Nat) (h : v < 65536) : beUint16 (putUint16 v) = v := by
  simp only [beUint16, putUint16, List.getD_cons_zero, List.getD_cons_succ]
  omega

theorem beUint32_putUint32 (v : Nat) (h : v < 4294967296) : beUint32 (putUint32 v) = v := by
  simp only [beUint32, putUint32, List.getD_cons_zero, List.getD_cons_succ]
  omega

theorem putUint16_length (v : Nat) : (putUint16 v).length = 2 := rfl

theorem putUint32_length (v : Nat) : (putUint32 v).length = 4 := rfl

/-- A slice that covers exactly the middle of three appended parts. -/
theorem slice_mid (a x b : Bytes) (i j : Nat) (hi : i = a.length)
    (hj : j = a.length + x.length) : slice (a ++ (x ++ b)) i j = .ok x := by
  subst hi hj
  have h1 : a.length ≤ a.length + x.length ∧
      a.length + x.length ≤ (a ++ (x ++ b)).length := by
    simp only [List.length_append]
    omega
  simp only [slice, h1, and_self, if_true, List.drop_left, Nat.add_sub_cancel_left,
    List.take_left]

/-! ## Lemmas: option encoding -/

theorem optionsToBytes_foldl (opts : List Option6) (buf : Bytes) :
    opts.foldl (fun buf o => buf ++ optionToBytes o) buf = buf ++ optionsToBytes opts := by
  induction opts generalizing buf with
  | nil => simp [optionsToBytes]
  | cons o os ih =>
    simp only [optionsToBytes, List.foldl_cons, List.nil_append]
    rw [ih, ih (optionToBytes o), List.append_assoc]

theorem optionsToBytes_nil : optionsToBytes [] = [] := rfl

theorem optionsToBytes_cons (o : Option6) (os : List Option6) :
    optionsToBytes (o :: os) = optionToBytes o ++ optionsToBytes os := by
  simp only [optionsToBytes, List.foldl_cons, List.nil_append]
  exact optionsToBytes_foldl os (optionToBytes o)

theorem optionToBytes_length (o : Option6) : (optionToBytes o).length = 4 + o.Value.length := by
  simp only [optionToBytes, List.length_append, putUint16_length]

/-- One turn of the parsing loop on a packet that holds, at index `i`, the
encoding of an option. -/
theorem getOption6sLoop_step (pre rest : Bytes) (o : Option6) (fuel : Nat)
    (acc : List Option6) (hc : o.Code < 65536) (hl : o.Value.length ≤ 65535) :
    getOption6sLoop (pre ++ (optionToBytes o ++ rest)) (fuel + 1) pre.length acc
      = getOption6sLoop (pre ++ (optionToBytes o ++ rest)) fuel
          (pre.length + 4 + o.Value.length) (acc ++ [o]) := by
  have hlt : pre.length < (pre ++ (optionToBytes o ++ rest)).length := by
    simp only [List.length_append, optionToBytes_length]
    omega
  have e1 : pre ++ (optionToBytes o ++ rest)
      = pre ++ (putUint16 o.Code ++ (putUint16 o.Value.length ++ o.Value ++ rest)) := by
    simp only [optionToBytes, List.append_assoc]
  have e2 : pre ++ (optionToBytes o ++ rest)
      = (pre ++ putUint16 o.Code) ++ (putUint16 o.Value.length ++ (o.Value ++ rest)) := by
    simp only [optionToBytes, List.append_assoc]
  have e3 : pre ++ (optionToBytes o ++ rest)
      = (pre ++ putUint16 o.Code ++ putUint16 o.Value.length) ++ (o.Value ++ rest) := by
    simp only [optionToBytes, List.append_assoc]
  have s1 : slice (pre ++ (optionToBytes o ++ rest)) pre.length (pre.length + 2)
      = .ok (putUint16 o.Code) := by
    rw [e1]
    exact slice_mid _ _ _ _ _ rfl (by rw [putUint16_length])
  have s2 : slice (pre ++ (optionToBytes o ++ rest)) (pre.length + 2) (pre.length + 4)
      = .ok (putUint16 o.Value.length) := by
    rw [e2]
    exact slice_mid _ _ _ _ _ (by simp [putUint16_length])
      (by simp [putUint16_length])
  have s3 : slice (pre ++ (optionToBytes o ++ rest)) (pre.length + 4)
      (pre.length + 4 + o.Value.length) = .ok o.Value := by
    rw [e3]
    exact slice_mid _ _ _ _ _ (by simp [putUint16_length])
      (by simp [putUint16_length])
  rw [getOption6sLoop, if_pos hlt, s1]
  simp only [bind, Except.bind, s2, beUint16_putUint16 _ hc,
    beUint16_putUint16 _ (Nat.lt_succ_of_le hl), s3]

/-- The parsing loop, started right at the encoding of `opts`, returns the
options collected so far followed by `opts`. -/
theorem getOption6sLoop_encoded (opts : List Option6) (pre : Bytes) (acc : List Option6)
    (fuel : Nat) (hv : ValidOptions opts) (hf : opts.length < fuel) :
    getOption6sLoop (pre ++ optionsToBytes opts) fuel pre.length acc = .ok (acc ++ opts) := by
  induction opts generalizing pre acc fuel with
  | nil =>
    obtain ⟨f, rfl⟩ : ∃ f, fuel = f + 1 := ⟨fuel - 1, by simp at hf; omega⟩
    simp [getOption6sLoop, optionsToBytes_nil]
  | cons o os ih =>
    obtain ⟨f, rfl⟩ : ∃ f, fuel = f + 1 := ⟨fuel - 1, by simp at hf; omega⟩
    have ho := hv o (List.mem_cons_self o os)
    have hos : ValidOptions os := fun x hx => hv x (List.mem_cons_of_mem o hx)
    rw [optionsToBytes_cons, getOption6sLoop_step pre _ o f acc ho.1 ho.2]
    have e : pre ++ (optionToBytes o ++ optionsToBytes os)
        = (pre ++ optionToBytes o) ++ optionsToBytes os := by
      rw [List.append_assoc]
    have el : pre.length + 4 + o.Value.length = (pre ++ optionToBytes o).length := by
      rw [List.length_append, optionToBytes_length]
      omega
    rw [e, el, ih (pre ++ optionToBytes o) (acc ++ [o]) f hos
      (by simp only [List.length_cons] at hf; omega)]
    simp

theorem optionsToBytes_length_ge (opts : List Option6) :
    4 * opts.length ≤ (optionsToBytes opts).length := by
  induction opts with
  | nil => simp [optionsToBytes_nil]
  | cons o os ih =>
    rw [optionsToBytes_cons, List.length_append, optionToBytes_length, List.length_cons]
    omega

/-- `GetOption6s` on a header of the right size followed by encoded options:
4 bytes when the first byte is not a relay type, 34 bytes when it is. -/
theorem GetOption6s_header (t : Nat) (h : Bytes) (opts : List Option6)
    (hlen : (t :: h).length = if t = DHCPV6_RELAY_FORW ∨ t = DHCPV6_RELAY_REPL then 34 else 4)
    (hv : ValidOptions opts) :
    GetOption6s (t :: h ++ optionsToBytes opts) = .ok opts := by
  have hfuel : opts.length < (t :: h ++ optionsToBytes opts).length + 1 := by
    have := optionsToBytes_length_ge opts
    simp only [List.length_append]
    omega
  have key := getOption6sLoop_encoded opts (t :: h) [] _ hv hfuel
  simp only [GetOption6s, IsRelayMsg, Type6, index, List.cons_append, List.get?_cons_zero,
    bind, Except.bind, pure, Except.pure]
  by_cases hr : t = DHCPV6_RELAY_FORW ∨ t = DHCPV6_RELAY_REPL
  · rw [if_pos hr] at hlen
    have hb : (t == DHCPV6_RELAY_FORW || t == DHCPV6_RELAY_REPL) = true := by
      simpa using hr
    rw [hb, if_pos rfl]
    rw [hlen] at key
    simpa using key
  · rw [if_neg hr] at hlen
    have hb : (t == DHCPV6_RELAY_FORW || t == DHCPV6_RELAY_REPL) = false := by
      simpa using hr
    rw [hb]
    rw [hlen] at key
    simpa using key

theorem NewRelayPacket6_eq : NewRelayPacket6 = DHCPV6_RELAY_FORW :: List.replicate 33 0 := by
  decide

theorem optionsToBytes_replicate_zero (n : Nat) :
    optionsToBytes (List.replicate n ⟨0, []⟩) = List.replicate (4 * n) 0 := by
  induction n with
  | zero => rfl
  | succ n ih =>
    rw [List.replicate_succ, optionsToBytes_cons, ih, Nat.mul_succ, Nat.add_comm (4 * n) 4,
      List.replicate_add]
    rfl

/-- With a value of exactly 65536 bytes the length field of the RELAY_MSG
option is written as 0, and the option list read back starts with an empty
RELAY_MSG option. -/
theorem GetOption6s_Encap_zeros (n : Nat) (p : Packet) (hp : p = List.replicate (4 * n) 0)
    (hn : 4 * n = 65536) :
    GetOption6s (EncapDHCP6RelayMsg p)
      = .ok (⟨DHCPV6_OPTION_RELAY_MSG, []⟩ :: List.replicate n ⟨0, []⟩) := by
  have hlen : p.length = 65536 := by rw [hp, List.length_replicate, hn]
  have e : EncapDHCP6RelayMsg p = DHCPV6_RELAY_FORW :: List.replicate 33 0
      ++ optionsToBytes (⟨DHCPV6_OPTION_RELAY_MSG, []⟩ :: List.replicate n ⟨0, []⟩) := by
    rw [optionsToBytes_cons, optionsToBytes_replicate_zero, ← hp]
    simp only [EncapDHCP6RelayMsg, NewRelayPacket6_eq, optionsToBytes_cons, optionsToBytes_nil,
      optionToBytes, hlen, List.append_nil]
    rfl
  rw [e]
  apply GetOption6s_header
  · decide
  · intro o ho
    rcases List.mem_cons.mp ho with h | h
    · subst h
      decide
    · rw [List.eq_of_mem_replicate h]
      decide

theorem Decap_Encap_zeros (n : Nat) (p : Packet) (hp : p = List.replicate (4 * n) 0)
    (hn : 4 * n = 65536) : DecapDHCP6RelayMsg (EncapDHCP6RelayMsg p) = .ok [] := by
  simp only [DecapDHCP6RelayMsg, GetOption6s_Encap_zeros n p hp hn, bind, Except.bind,
    List.find?_cons, beq_self_eq_true]

/-- C1 (amended): for every option list whose codes fit 16 bits and whose
values are at most 65535 bytes long, and every 4-byte message header whose
type byte is neither RELAY-FORW nor RELAY-REPL, `GetOption6s` applied to the
header followed by `optionsToBytes(opts)` returns exactly `opts`: same codes,
same values, same order. -/
theorem C1_GetOption6s_roundtrip (t a b c : Nat) (opts : List Option6)
    (ht : t ≠ DHCPV6_RELAY_FORW ∧ t ≠ DHCPV6_RELAY_REPL) (hv : ValidOptions opts) :
    GetOption6s ([t, a, b, c] ++ optionsToBytes opts) = .ok opts := by
  apply GetOption6s_header t [a, b, c] opts _ hv
  rw [if_neg (by simp only [not_or]; exact ht)]
  rfl

theorem C1_GetOption6s_roundtrip_witness :
    GetOption6s ([1, 0, 0, 7] ++ optionsToBytes [⟨1, [5, 6]⟩, ⟨3, [1, 2, 3]⟩])
      = .ok [⟨1, [5, 6]⟩, ⟨3, [1, 2, 3]⟩] :=
  C1_GetOption6s_roundtrip 1 0 0 7 [⟨1, [5, 6]⟩, ⟨3, [1, 2, 3]⟩] (by decide) (by decide)

/-- C1 as stated fails: `GetOption6s` is a packet method and skips a 4-byte
header, so applied to the bare encoding of two options it drops the first. -/
theorem C1_GetOption6s_roundtrip_counterexample :
    ValidOptions [⟨1, []⟩, ⟨2, [7]⟩] ∧
    optionsToBytes [⟨1, []⟩, ⟨2, [7]⟩] = [0, 1, 0, 0, 0, 2, 0, 1, 7] ∧
    GetOption6s (optionsToBytes [⟨1, []⟩, ⟨2, [7]⟩]) = .ok [⟨2, [7]⟩] ∧
    GetOption6s (optionsToBytes [⟨1, []⟩, ⟨2, [7]⟩]) ≠ .ok [⟨1, []⟩, ⟨2, [7]⟩] := by
  decide

/-- C2 (amended): for every packet of at most 65535 bytes,
`DecapDHCP6RelayMsg(EncapDHCP6RelayMsg(p))` succeeds and returns `p`. -/
theorem C2_relay_roundtrip (p : Packet) (hp : p.length ≤ 65535) :
    DecapDHCP6RelayMsg (EncapDHCP6RelayMsg p) = .ok p := by
  have hv : ValidOptions [⟨DHCPV6_OPTION_RELAY_MSG, p⟩] := by
    intro o ho
    rw [List.mem_singleton] at ho
    subst ho
    exact ⟨(by decide : (9 : Nat) < 65536), hp⟩
  have e : EncapDHCP6RelayMsg p = DHCPV6_RELAY_FORW :: List.replicate 33 0
      ++ optionsToBytes [⟨DHCPV6_OPTION_RELAY_MSG, p⟩] := by
    simp only [EncapDHCP6RelayMsg, NewRelayPacket6_eq]
  have hg := GetOption6s_header DHCPV6_RELAY_FORW (List.replicate 33 0) _ (by decide) hv
  simp only [DecapDHCP6RelayMsg, e, hg, bind, Except.bind, List.find?_cons, beq_self_eq_true]

theorem C2_relay_roundtrip_witness :
    DecapDHCP6RelayMsg (EncapDHCP6RelayMsg [1, 0, 0, 7, 0, 14, 0, 0])
      = .ok [1, 0, 0, 7, 0, 14, 0, 0] :=
  C2_relay_roundtrip [1, 0, 0, 7, 0, 14, 0, 0] (by decide)

/-- C2 as stated fails on a packet of 65536 bytes: the 16-bit length of the
RELAY_MSG option is written as 0, and decapsulation returns the empty packet. -/
theorem C2_relay_roundtrip_counterexample :
    DecapDHCP6RelayMsg (EncapDHCP6RelayMsg (List.replicate 65536 0)) = .ok [] ∧
    DecapDHCP6RelayMsg (EncapDHCP6RelayMsg (List.replicate 65536 0))
      ≠ .ok (List.replicate 65536 0) := by
  have h1 := Decap_Encap_zeros 16384 (List.replicate 65536 0)
    (congrArg (fun k => List.replicate k 0) (by decide : 65536 = 4 * 16384)) (by decide)
  refine ⟨h1, ?_⟩
  rw [h1]
  intro h
  have h2 : ([] : List Nat).length = (List.replicate 65536 0).length :=
    congrArg List.length (Except.ok.inj h)
  rw [List.length_replicate] at h2
  exact absurd h2 (by decide)

/-! ## Classless routes -/

theorem To4_none : To4 none = none := by decide

theorem To4_length (ip : IP) (b : Bytes) (h : To4 ip = some b) : b.length = 4 := by
  unfold To4 at h
  split at h
  · next h4 =>
    subst h
    simpa [IP.len] using h4
  · split at h
    · next h16 =>
      have hb := Option.some.inj h
      subst hb
      have : ip.bytes.length = 16 := h16.1
      simp only [List.length_take, List.length_drop, this]
      decide
    · exact absurd h (by simp)

theorem slice_zero (p : Bytes) (n : Nat) (h : n ≤ p.length) : slice p 0 n = .ok (p.take n) := by
  simp [slice, h]

/-- C3: for a route with an IPv4 prefix, a mask length `m ≤ 32` and an IPv4
gateway, `getClasslessRoutePack` returns the byte `m`, then the first
`ceil(m/8)` bytes of the 4-byte prefix, then the 4 gateway bytes, in total
`1 + ceil(m/8) + 4` bytes; 10.0.0.0/24 via 192.168.1.1 gives
`[24, 10, 0, 0, 192, 168, 1, 1]`. -/
theorem C3_getClasslessRoutePack (route : SRouteInfo) (net gw : Bytes)
    (hnet : To4 route.Prefix = some net) (hm : route.PrefixLen ≤ 32)
    (hgw : To4 route.Gateway = some gw) :
    getClasslessRoutePack route
        = .ok ([route.PrefixLen] ++ net.take ((route.PrefixLen + 7) / 8) ++ gw)
      ∧ ([route.PrefixLen] ++ net.take ((route.PrefixLen + 7) / 8) ++ gw).length
        = 1 + (route.PrefixLen + 7) / 8 + 4
      ∧ getClasslessRoutePack ⟨some [10, 0, 0, 0], 24, some [192, 168, 1, 1]⟩
        = .ok [24, 10, 0, 0, 192, 168, 1, 1] := by
  have hnl := To4_length _ _ hnet
  have hgl := To4_length _ _ hgw
  have hp : route.Prefix ≠ none := by
    intro h
    rw [h, To4_none] at hnet
    exact absurd hnet (by simp)
  have hg : route.Gateway ≠ none := by
    intro h
    rw [h, To4_none] at hgw
    exact absurd hgw (by simp)
  refine ⟨?_, ?_, by decide⟩
  · have hnetlen : (if route.PrefixLen % 8 > 0 then (route.PrefixLen / 8 + 1) % 256
        else route.PrefixLen / 8) = (route.PrefixLen + 7) / 8 := by
      split <;> omega
    simp only [getClasslessRoutePack, hp, hg, hnet, hgw, ne_eq, not_false_eq_true, if_true,
      hnetlen, IP.bytes, Option.getD_some, bind, Except.bind, pure, Except.pure]
    by_cases h4 : (route.PrefixLen + 7) / 8 < 4
    · rw [if_pos h4, slice_zero _ _ (by omega)]
    · rw [if_neg h4]
      have e : (route.PrefixLen + 7) / 8 = 4 := by omega
      rw [e, List.take_of_length_le (by omega)]
  · simp only [List.length_append, List.length_cons, List.length_nil, List.length_take, hnl,
      hgl]
    omega

theorem C3_getClasslessRoutePack_witness :
    getClasslessRoutePack ⟨some (v4InV6Prefix ++ [10, 1, 2, 3]), 17, some [192, 168, 1, 1]⟩
      = .ok [17, 10, 1, 2, 192, 168, 1, 1] :=
  (C3_getClasslessRoutePack ⟨some (v4InV6Prefix ++ [10, 1, 2, 3]), 17, some [192, 168, 1, 1]⟩
    [10, 1, 2, 3] [192, 168, 1, 1] (by decide) (by decide) (by decide)).1

/-- C4: for a route with mask length 0 and an IPv4 gateway, whatever its
prefix (an absent one included), `getClasslessRoutePack` returns exactly 5
bytes: the byte 0 followed by the 4 gateway bytes, with no network bytes. -/
theorem C4_getClasslessRoutePack_default (route : SRouteInfo) (gw : Bytes)
    (hm : route.PrefixLen = 0) (hgw : To4 route.Gateway = some gw) :
    getClasslessRoutePack route = .ok (0 :: gw) ∧ (0 :: gw).length = 5 := by
  have hgl := To4_length _ _ hgw
  have hg : route.Gateway ≠ none := by
    intro h
    rw [h, To4_none] at hgw
    exact absurd hgw (by simp)
  refine ⟨?_, by simp [hgl]⟩
  simp only [getClasslessRoutePack, hm, hg, hgw, ne_eq, not_false_eq_true, if_true,
    IP.bytes, Option.getD_some, bind, Except.bind, pure, Except.pure]
  simp [slice]

theorem C4_getClasslessRoutePack_default_witness :
    getClasslessRoutePack ⟨none, 0, some [192, 168, 1, 1]⟩ = .ok [0, 192, 168, 1, 1] :=
  (C4_getClasslessRoutePack_default ⟨none, 0, some [192, 168, 1, 1]⟩ [192, 168, 1, 1]
    (by decide) (by decide)).1

/-! ## Reply builder (v4) -/

theorem AddOption_MsgType (resp : Reply4) (code : OptionCode) (value : Bytes) :
    (AddOption resp code value).MsgType = resp.MsgType := rfl

theorem AddOption_Opts (resp : Reply4) (code : OptionCode) (value : Bytes) :
    (AddOption resp code value).Opts = resp.Opts := rfl

theorem AddOption_Added (resp : Reply4) (code : OptionCode) (value : Bytes) :
    (AddOption resp code value).Added = resp.Added ++ [⟨code, value⟩] := rfl

/-- The loop over the routes: it returns a reply exactly when every route
packs, and then it has added one option per route, in order, under the given
code, and changed nothing else. -/
theorem foldlM_routes (code : OptionCode) (routes : List SRouteInfo) (resp : Reply4) :
    (∀ r, routes.foldlM (fun resp route => do
          let routeBytes ← getClasslessRoutePack route
          pure (AddOption resp code routeBytes)) resp = .ok r →
        ∃ packs, List.Forall₂ (fun rt b => getClasslessRoutePack rt = .ok b) routes packs ∧
          r = { resp with Added := resp.Added ++ packs.map (fun b => ⟨code, b⟩) }) ∧
    ((∀ rt ∈ routes, ∃ b, getClasslessRoutePack rt = .ok b) →
        ∃ r, routes.foldlM (fun resp route => do
          let routeBytes ← getClasslessRoutePack route
          pure (AddOption resp code routeBytes)) resp = .ok r) := by
  induction routes generalizing resp with
  | nil =>
    refine ⟨fun r h => ⟨[], List.Forall₂.nil, ?_⟩, fun _ => ⟨resp, rfl⟩⟩
    simp only [List.foldlM, pure, Except.pure] at h
    rw [← Except.ok.inj h]
    simp
  | cons rt rts ih =>
    constructor
    · intro r h
      rw [List.foldlM_cons] at h
      cases hp : getClasslessRoutePack rt with
      | error e =>
        simp [hp, bind, Except.bind] at h
      | ok b =>
        simp only [hp, bind, Except.bind, pure, Except.pure] at h
        obtain ⟨packs, hf, hr⟩ := (ih (AddOption resp code b)).1 r h
        refine ⟨b :: packs, List.Forall₂.cons hp hf, ?_⟩
        rw [hr]
        simp [AddOption]
    · intro hall
      obtain ⟨b, hb⟩ := hall rt (List.mem_cons_self rt rts)
      obtain ⟨r, hr⟩ := (ih (AddOption resp code b)).2
        (fun x hx => hall x (List.mem_cons_of_mem rt hx))
      refine ⟨r, ?_⟩
      rw [List.foldlM_cons]
      simpa only [hb, bind, Except.bind, pure, Except.pure] using hr

theorem replyBeforeRoutes_MsgType (req : Packet4) (conf : ResponseConfig) (m : MessageType) :
    (replyBeforeRoutes req conf m).MsgType = m := by
  unfold replyBeforeRoutes
  simp only []
  split <;> split <;> split <;> rfl

/-- What `makeDHCPReplyPacket` returns: the configuration after the `OsName`
assignment, and the reply built before the routes with one option per route
added, in order. It returns exactly when every route packs. -/
theorem makeDHCPReplyPacket_ok (req : Packet4) (conf : ResponseConfig) (m : MessageType) :
    (∀ r c, makeDHCPReplyPacket req conf m = .ok (r, c) →
        c = setOsName req conf ∧
        ∃ packs, List.Forall₂ (fun rt b => getClasslessRoutePack rt = .ok b)
            (c.Routes.getD []) packs ∧
          r = { replyBeforeRoutes req c m with
                Added := (replyBeforeRoutes req c m).Added
                  ++ packs.map (fun b => ⟨routeOptCode c, b⟩) }) ∧
    ((∀ rt ∈ conf.Routes.getD [], ∃ b, getClasslessRoutePack rt = .ok b) →
        ∃ r, makeDHCPReplyPacket req conf m = .ok (r, setOsName req conf)) := by
  have hroutes : (setOsName req conf).Routes = conf.Routes := by
    unfold setOsName
    split
    · simp only []
      split <;> rfl
    · rfl
  constructor
  · intro r c h
    simp only [makeDHCPReplyPacket, bind, Except.bind, pure, Except.pure] at h
    cases ha : addRoutes (setOsName req conf) (replyBeforeRoutes req (setOsName req conf) m) with
    | error e => simp [ha] at h
    | ok r' =>
      simp only [ha, Except.ok.injEq, Prod.mk.injEq] at h
      obtain ⟨h1, h2⟩ := h
      subst h1 h2
      refine ⟨rfl, ?_⟩
      unfold addRoutes at ha
      cases hr : (setOsName req conf).Routes with
      | none =>
        simp only [hr, pure, Except.pure, Except.ok.injEq] at ha
        refine ⟨[], by simp, ?_⟩
        rw [← ha]
        simp
      | some routes =>
        simp only [hr] at ha
        simpa using (foldlM_routes _ routes _).1 r' ha
  · intro hall
    simp only [makeDHCPReplyPacket, bind, Except.bind, pure, Except.pure]
    unfold addRoutes
    cases hr : (setOsName req conf).Routes with
    | none => exact ⟨_, rfl⟩
    | some routes =>
      rw [← hroutes, hr] at hall
      obtain ⟨r, h⟩ := (foldlM_routes (routeOptCode (setOsName req conf)) routes
        (replyBeforeRoutes req (setOsName req conf) m)).2 (by simpa using hall)
      refine ⟨r, ?_⟩
      simp only [h]

theorem replyOptions4_codes (conf : ResponseConfig) (o : Option4)
    (ho : o ∈ replyOptions4 conf) :
    o.Code ≠ OptClasslessRouteWin ∧ o.Code ≠ OptClasslessRouteLin := by
  unfold replyOptions4 at ho
  simp only [List.mem_append] at ho
  rcases ho with ((((((((h | h) | h) | h) | h) | h) | h) | h) | h) | h
  all_goals first
    | (split at h
       · first
         | (rw [List.mem_singleton] at h; subst h; dsimp only; decide)
         | exact absurd h (List.not_mem_nil _)
       · first
         | (rw [List.mem_singleton] at h; subst h; dsimp only; decide)
         | exact absurd h (List.not_mem_nil _))

theorem replyBeforeRoutes_Opts (req : Packet4) (conf : ResponseConfig) (m : MessageType) :
    (replyBeforeRoutes req conf m).Opts = replyOptions4 conf := by
  unfold replyBeforeRoutes
  simp only []
  split <;> split <;> split <;> rfl

theorem replyBeforeRoutes_Added_codes (req : Packet4) (conf : ResponseConfig)
    (m : MessageType) (o : Option4) (ho : o ∈ (replyBeforeRoutes req conf m).Added) :
    o.Code ≠ OptClasslessRouteWin ∧ o.Code ≠ OptClasslessRouteLin := by
  unfold replyBeforeRoutes at ho
  simp only [] at ho
  split at ho <;> split at ho <;> split at ho <;>
    simp only [AddOption, SetSIAddr, ReplyPacket, List.nil_append, List.cons_append,
      List.mem_cons, List.mem_singleton, List.not_mem_nil, or_false] at ho
  all_goals first
    | exact absurd ho id
    | (rcases ho with h | h | h | h <;> subst h <;> dsimp only <;> decide)
    | (rcases ho with h | h | h <;> subst h <;> dsimp only <;> decide)
    | (rcases ho with h | h <;> subst h <;> dsimp only <;> decide)
    | (subst ho; dsimp only; decide)

theorem ToLower_nil_not_win : HasPrefix (ToLower []) strWin = false := by decide

theorem routeOptCode_win (pkt : Packet4) (conf : ResponseConfig)
    (hv : HasPrefix (getPacketVendorClassId pkt) strMSFT = true)
    (hos : conf.OsName = [] ∨ HasPrefix (ToLower conf.OsName) strWin = true) :
    routeOptCode (setOsName pkt conf) = OptClasslessRouteWin := by
  have hne : getPacketVendorClassId pkt ≠ [] := by
    intro h
    rw [h] at hv
    exact absurd hv (by decide)
  by_cases h0 : conf.OsName = []
  · have e : setOsName pkt conf = { conf with OsName := strWin } := by
      unfold setOsName
      rw [if_pos h0]
      simp only []
      rw [if_pos ⟨hne, hv⟩]
    rw [e]
    unfold routeOptCode
    dsimp only
    rw [if_pos (by decide)]
  · have e : setOsName pkt conf = conf := by
      unfold setOsName
      rw [if_neg h0]
    rw [e]
    unfold routeOptCode
    rcases hos with h | h
    · exact absurd h h0
    · rw [if_pos h]

/-- C5: `MakeReplyPacket` picks the reply message type from the request type
and option 50: NAK for a Request whose option 50 holds an address that is not
equal to `conf.ClientIP`, ACK for a Request whose option 50 is absent or
equal to `conf.ClientIP`, Offer for every other request type. The builder is
called with the picked type, every reply it returns carries it, and a reply
is returned whenever every configured route packs. -/
theorem C5_MakeReplyPacket_msgType (pkt : Packet4) (conf : ResponseConfig) :
    (pkt.Type4 = Request →
      (∃ a, OptionsIP pkt.ParseOptions OptionRequestedIPAddress = some a ∧
        conf.ClientIP.Equal (some a) = false) →
      replyMsgType pkt conf = NAK) ∧
    (pkt.Type4 = Request →
      (OptionsIP pkt.ParseOptions OptionRequestedIPAddress = none ∨
        conf.ClientIP.Equal (OptionsIP pkt.ParseOptions OptionRequestedIPAddress) = true) →
      replyMsgType pkt conf = ACK) ∧
    (pkt.Type4 ≠ Request → replyMsgType pkt conf = Offer) ∧
    MakeReplyPacket pkt conf = makeDHCPReplyPacket pkt conf (replyMsgType pkt conf) ∧
    (∀ r c, MakeReplyPacket pkt conf = .ok (r, c) → r.MsgType = replyMsgType pkt conf) ∧
    ((∀ rt ∈ conf.Routes.getD [], ∃ b, getClasslessRoutePack rt = .ok b) →
      ∃ r c, MakeReplyPacket pkt conf = .ok (r, c)) := by
  refine ⟨?_, ?_, ?_, rfl, ?_, ?_⟩
  · rintro ht ⟨a, ha, hne⟩
    unfold replyMsgType
    rw [if_pos ht]
    dsimp only
    rw [ha, if_pos]
    exact ⟨by simp, by simp [hne]⟩
  · intro ht h
    unfold replyMsgType
    rw [if_pos ht]
    dsimp only
    rw [if_neg]
    rintro ⟨h1, h2⟩
    rcases h with h | h
    · exact h1 h
    · exact h2 h
  · intro ht
    unfold replyMsgType
    rw [if_neg ht]
  · intro r c h
    obtain ⟨_, packs, _, hr⟩ := (makeDHCPReplyPacket_ok pkt conf _).1 r c h
    rw [hr]
    exact replyBeforeRoutes_MsgType pkt c _
  · intro hall
    obtain ⟨r, hr⟩ := (makeDHCPReplyPacket_ok pkt conf (replyMsgType pkt conf)).2 hall
    exact ⟨r, _, hr⟩

/-- The NAK scenario: option 50 = 10.0.0.5 and `ClientIP` = 10.0.0.6. -/
theorem C5_MakeReplyPacket_msgType_witness :
    replyMsgType (request4 Request [(OptionRequestedIPAddress, [10, 0, 0, 5])])
        { zeroConf with ClientIP := some [10, 0, 0, 6] } = NAK ∧
    ∃ r c, MakeReplyPacket (request4 Request [(OptionRequestedIPAddress, [10, 0, 0, 5])])
        { zeroConf with ClientIP := some [10, 0, 0, 6] } = .ok (r, c) ∧ r.MsgType = NAK := by
  have h := C5_MakeReplyPacket_msgType
    (request4 Request [(OptionRequestedIPAddress, [10, 0, 0, 5])])
    { zeroConf with ClientIP := some [10, 0, 0, 6] }
  have hnak := h.1 rfl ⟨[10, 0, 0, 5], by decide, by decide⟩
  obtain ⟨r, c, hrc⟩ := h.2.2.2.2.2 (by
    intro rt hrt
    exact absurd hrt (List.not_mem_nil rt))
  exact ⟨hnak, r, c, hrc, (h.2.2.2.2.1 r c hrc).trans hnak⟩

/-- C9 (amended): for every request whose Vendor Class Identifier starts with
`"MSFT "` and every config whose `OsName` is empty or starts, in lower case,
with `"win"`, every reply `MakeReplyPacket` returns holds one classless-route
option per configured route, in order, each under code 249, and no option
under code 121; a reply is returned whenever every route packs. -/
theorem C9_windows_route_code (pkt : Packet4) (conf : ResponseConfig)
    (hv : HasPrefix (getPacketVendorClassId pkt) strMSFT = true)
    (hos : conf.OsName = [] ∨ HasPrefix (ToLower conf.OsName) strWin = true) :
    (∀ r c, MakeReplyPacket pkt conf = .ok (r, c) →
      ∃ base packs,
        List.Forall₂ (fun rt b => getClasslessRoutePack rt = .ok b)
          (conf.Routes.getD []) packs ∧
        r.Added = base ++ packs.map (fun b => ⟨OptClasslessRouteWin, b⟩) ∧
        (∀ o ∈ r.Opts ++ base,
          o.Code ≠ OptClasslessRouteWin ∧ o.Code ≠ OptClasslessRouteLin) ∧
        (∀ o ∈ r.Opts ++ r.Added, o.Code ≠ OptClasslessRouteLin)) ∧
    ((∀ rt ∈ conf.Routes.getD [], ∃ b, getClasslessRoutePack rt = .ok b) →
      ∃ r c, MakeReplyPacket pkt conf = .ok (r, c)) := by
  have hroutes : (setOsName pkt conf).Routes = conf.Routes := by
    unfold setOsName
    split
    · dsimp only
      split <;> rfl
    · rfl
  constructor
  · intro r c h
    obtain ⟨hc, packs, hf, hr⟩ := (makeDHCPReplyPacket_ok pkt conf _).1 r c h
    subst hc
    rw [hroutes] at hf
    rw [routeOptCode_win pkt conf hv hos] at hr
    have hbase : ∀ o ∈ r.Opts ++ (replyBeforeRoutes pkt (setOsName pkt conf)
        (replyMsgType pkt conf)).Added,
        o.Code ≠ OptClasslessRouteWin ∧ o.Code ≠ OptClasslessRouteLin := by
      intro o ho
      rw [hr] at ho
      rcases List.mem_append.mp ho with h1 | h1
      · exact replyOptions4_codes _ o (by rwa [← replyBeforeRoutes_Opts pkt _ _])
      · exact replyBeforeRoutes_Added_codes _ _ _ o h1
    refine ⟨_, packs, hf, by rw [hr], hbase, ?_⟩
    intro o ho
    rcases List.mem_append.mp ho with h1 | h1
    · exact (hbase o (List.mem_append_left _ h1)).2
    · rw [hr] at h1
      rcases List.mem_append.mp h1 with h2 | h2
      · exact (hbase o (List.mem_append_right _ h2)).2
      · obtain ⟨b, _, hb⟩ := List.mem_map.mp h2
        rw [← hb]
        dsimp only
        decide
  · intro hall
    obtain ⟨r, hr⟩ := (makeDHCPReplyPacket_ok pkt conf (replyMsgType pkt conf)).2 hall
    exact ⟨r, _, hr⟩

theorem C9_windows_route_code_witness :
    ∃ r c, MakeReplyPacket (request4 Discover [(OptionVendorClassIdentifier,
          [77, 83, 70, 84, 32, 53, 46, 48])])
        { zeroConf with
          Routes := some [⟨some [10, 0, 0, 0], 24, some [192, 168, 1, 1]⟩] } = .ok (r, c) ∧
      ∀ o ∈ r.Opts ++ r.Added, o.Code ≠ OptClasslessRouteLin := by
  have h := C9_windows_route_code
    (request4 Discover [(OptionVendorClassIdentifier, [77, 83, 70, 84, 32, 53, 46, 48])])
    { zeroConf with Routes := some [⟨some [10, 0, 0, 0], 24, some [192, 168, 1, 1]⟩] }
    (by decide) (Or.inl rfl)
  obtain ⟨r, c, hrc⟩ := h.2 (by
    intro rt hrt
    have e : rt = ⟨some [10, 0, 0, 0], 24, some [192, 168, 1, 1]⟩ := by simpa using hrt
    exact ⟨[24, 10, 0, 0, 192, 168, 1, 1], by rw [e]; decide⟩)
  obtain ⟨_, _, _, _, _, h4⟩ := h.1 r c hrc
  exact ⟨r, c, hrc, h4⟩

/-- C9 as stated fails when the config names another operating system: with
`OsName = "linux"` the vendor class of the request is not looked at and the
route is emitted under code 121. -/
theorem C9_windows_route_code_counterexample :
    HasPrefix (getPacketVendorClassId (request4 Discover [(OptionVendorClassIdentifier,
      [77, 83, 70, 84, 32, 53, 46, 48])])) strMSFT = true ∧
    (MakeReplyPacket (request4 Discover [(OptionVendorClassIdentifier,
          [77, 83, 70, 84, 32, 53, 46, 48])])
        { zeroConf with
          OsName := [108, 105, 110, 117, 120],
          Routes := some [⟨some [10, 0, 0, 0], 24, some [192, 168, 1, 1]⟩] }).map
      (fun x => x.1.Added) = .ok [⟨121, [24, 10, 0, 0, 192, 168, 1, 1]⟩] := by
  decide

/-! ## Reply builder (v6) -/

theorem Type6_ok (p : Packet) (t : MessageType) (h : Type6 p = .ok t) :
    ∃ rest, p = t :: rest := by
  cases p with
  | nil => simp [Type6, index] at h
  | cons b rest =>
    simp only [Type6, index, List.get?_cons_zero, Except.ok.injEq] at h
    exact ⟨rest, by rw [h]⟩

theorem makeServerId_ok (mac : Bytes) (h : 6 ≤ mac.length) :
    makeServerId mac = .ok ([0, 3, 0, 1] ++ mac.take 6) := by
  simp only [makeServerId, slice_zero mac 6 h, bind, Except.bind, pure, Except.pure]
  rfl

theorem makeServerId_short (mac : Bytes) (h : mac.length < 6) :
    makeServerId mac = .error .Panic := by
  have : ¬ (0 ≤ 6 ∧ 6 ≤ mac.length) := by omega
  simp only [makeServerId, slice, this, if_false, bind, Except.bind]

theorem decodeRequestOptions_even (n : Nat) (value : Bytes) (hn : value.length = 2 * n) :
    ∃ codes, decodeRequestOptions value = .ok codes := by
  induction n generalizing value with
  | zero =>
    have : value = [] := List.length_eq_zero.mp (by omega)
    subst this
    exact ⟨[], rfl⟩
  | succ n ih =>
    match value, hn with
    | a :: b :: rest, hn =>
      obtain ⟨codes, hc⟩ := ih rest (by simp only [List.length_cons] at hn; omega)
      exact ⟨beUint16 [a, b] :: codes, by
        simp only [decodeRequestOptions, hc, bind, Except.bind, pure, Except.pure]⟩
    | [_], hn => simp only [List.length_cons, List.length_nil] at hn; omega
    | [], hn => simp only [List.length_nil] at hn; omega

theorem logRequestOptions_ok (opts : List Option6)
    (horo : ∀ o, getOption opts DHCPV6_OPTION_ORO = some o → o.Value.length % 2 = 0) :
    logRequestOptions opts = .ok () := by
  unfold logRequestOptions
  cases h : getOption opts DHCPV6_OPTION_ORO with
  | none => rfl
  | some o =>
    dsimp only
    split
    · obtain ⟨codes, hc⟩ := decodeRequestOptions_even (o.Value.length / 2) o.Value
        (by have := horo o h; omega)
      simp only [hc, bind, Except.bind, pure, Except.pure]
    · rfl

theorem getOption6sLoop_nonempty (p : Packet) (fuel i : Nat) (opts : List Option6)
    (h : getOption6sLoop p fuel i [] = .ok opts) (hne : opts ≠ []) : i < p.length := by
  cases fuel with
  | zero => simp [getOption6sLoop] at h
  | succ f =>
    by_contra hlt
    rw [getOption6sLoop, if_neg hlt] at h
    exact hne (Except.ok.inj h).symm

theorem TID6_leaf (t a b c : Nat) (rest : Bytes)
    (ht : t ≠ DHCPV6_RELAY_FORW ∧ t ≠ DHCPV6_RELAY_REPL) :
    TID6 (t :: a :: b :: c :: rest) = .ok (beUint32 [0, a, b, c]) := by
  have hb : (t == DHCPV6_RELAY_FORW || t == DHCPV6_RELAY_REPL) = false := by
    simpa using ht
  simp only [TID6, List.length_cons, TID6Aux, IsRelayMsg, Type6, index, List.get?_cons_zero,
    bind, Except.bind, pure, Except.pure, hb]
  simp

/-- A non-relay packet with at least one option has a transaction id. -/
theorem TID6_of_options (pkt : Packet) (t : MessageType) (opts : List Option6)
    (ht : Type6 pkt = .ok t) (hnr : t ≠ DHCPV6_RELAY_FORW ∧ t ≠ DHCPV6_RELAY_REPL)
    (hopts : GetOption6s pkt = .ok opts) (hne : opts ≠ []) :
    ∃ tid, TID6 pkt = .ok tid := by
  obtain ⟨rest, rfl⟩ := Type6_ok pkt t ht
  have hb : (t == DHCPV6_RELAY_FORW || t == DHCPV6_RELAY_REPL) = false := by
    simpa using hnr
  simp only [GetOption6s, IsRelayMsg, Type6, index, List.get?_cons_zero, bind, Except.bind,
    pure, Except.pure, hb] at hopts
  have hlen := getOption6sLoop_nonempty _ _ _ _ hopts hne
  match rest, hlen with
  | a :: b :: c :: rest', _ => exact ⟨_, TID6_leaf t a b c rest' hnr⟩
  | [a, b], hlen => simp at hlen
  | [a], hlen => simp at hlen
  | [], hlen => simp at hlen

/-- What `replyOptions6` returns once the request has been read: the echoed
CLIENTID, the SERVERID, the IA_NA option and the server options, with
RAPID_COMMIT appended and the type set to REPLY for a SOLICIT that carries
RAPID_COMMIT. -/
theorem replyOptions6_ok (pkt : Packet) (conf : ResponseConfig) (m t : MessageType)
    (opts : List Option6) (cli iana : Option6) (sid : Bytes)
    (ht : Type6 pkt = .ok t) (hopts : GetOption6s pkt = .ok opts)
    (hlog : logRequestOptions opts = .ok ())
    (hcli : getOption opts DHCPV6_OPTION_CLIENTID = some cli)
    (hsid : makeServerId conf.InterfaceMac = .ok sid)
    (hiana : getOption opts DHCPV6_OPTION_IA_NA = some iana) :
    replyOptions6 pkt conf m = .ok
      (if t = DHCPV6_SOLICIT ∧ getOption opts DHCPV6_OPTION_RAPID_COMMIT ≠ none then
        (DHCPV6_REPLY,
          [⟨DHCPV6_OPTION_CLIENTID, cli.Value⟩, ⟨DHCPV6_OPTION_SERVERID, sid⟩,
            ianaOption conf iana.Value] ++ serverOptions6 conf
            ++ [⟨DHCPV6_OPTION_RAPID_COMMIT, []⟩])
      else
        (m, [⟨DHCPV6_OPTION_CLIENTID, cli.Value⟩, ⟨DHCPV6_OPTION_SERVERID, sid⟩,
            ianaOption conf iana.Value] ++ serverOptions6 conf)) := by
  simp only [replyOptions6, hopts, hlog, hcli, hsid, hiana, ht, bind, Except.bind, pure,
    Except.pure]
  by_cases h1 : t = DHCPV6_SOLICIT
  · rw [if_pos h1]
    cases hr : getOption opts DHCPV6_OPTION_RAPID_COMMIT with
    | none => simp
    | some o => simp [h1]
  · rw [if_neg h1, if_neg (fun h => h1 h.1)]

/-- Every return of `replyOptions6` comes from a request that could be read,
whose ORO option could be decoded, that carries CLIENTID and IA_NA, and from
a server MAC of at least 6 bytes. -/
theorem replyOptions6_inv (pkt : Packet) (conf : ResponseConfig) (m : MessageType)
    (res : MessageType × List Option6) (h : replyOptions6 pkt conf m = .ok res) :
    ∃ t opts cli iana sid,
      Type6 pkt = .ok t ∧ GetOption6s pkt = .ok opts ∧ logRequestOptions opts = .ok () ∧
      getOption opts DHCPV6_OPTION_CLIENTID = some cli ∧
      makeServerId conf.InterfaceMac = .ok sid ∧
      getOption opts DHCPV6_OPTION_IA_NA = some iana := by
  simp only [replyOptions6, bind, Except.bind] at h
  cases hopts : GetOption6s pkt with
  | error e => simp [hopts] at h
  | ok opts =>
    simp only [hopts] at h
    cases hlog : logRequestOptions opts with
    | error e => simp [hlog] at h
    | ok u =>
      simp only [hlog] at h
      cases hcli : getOption opts DHCPV6_OPTION_CLIENTID with
      | none => simp [hcli] at h
      | some cli =>
        simp only [hcli] at h
        cases hsid : makeServerId conf.InterfaceMac with
        | error e => simp [hsid] at h
        | ok sid =>
          simp only [hsid] at h
          cases hiana : getOption opts DHCPV6_OPTION_IA_NA with
          | none => simp [hiana] at h
          | some iana =>
            simp only [hiana] at h
            cases ht : Type6 pkt with
            | error e => simp [ht] at h
            | ok t => exact ⟨t, opts, cli, iana, sid, rfl, rfl, hlog, hcli, rfl, hiana⟩

/-- The message types `MakeDHCP6Reply` answers, with the reply type its
switch assigns. -/
theorem MakeDHCP6Reply_supported (pkt : Packet) (conf : ResponseConfig) (t : MessageType)
    (ht : Type6 pkt = .ok t) :
    (t = DHCPV6_SOLICIT →
      MakeDHCP6Reply pkt conf = makeDHCPReplyPacket6 pkt conf DHCPV6_ADVERTISE) ∧
    (t = DHCPV6_REQUEST ∨ t = DHCPV6_CONFIRM ∨ t = DHCPV6_RENEW ∨ t = DHCPV6_REBIND ∨
        t = DHCPV6_INFORMATION_REQUEST →
      MakeDHCP6Reply pkt conf = makeDHCPReplyPacket6 pkt conf DHCPV6_REPLY) ∧
    (t ≠ DHCPV6_SOLICIT ∧ t ≠ DHCPV6_REQUEST ∧ t ≠ DHCPV6_CONFIRM ∧ t ≠ DHCPV6_RENEW ∧
        t ≠ DHCPV6_REBIND ∧ t ≠ DHCPV6_INFORMATION_REQUEST →
      MakeDHCP6Reply pkt conf = .error .NotSupported) := by
  simp only [MakeDHCP6Reply, ht, bind, Except.bind]
  refine ⟨?_, ?_, ?_⟩
  · intro h
    rw [if_pos h]
  · intro h
    rcases h with h | h | h | h | h <;> subst h <;> rfl
  · rintro ⟨h1, h2, h3, h4, h5, h6⟩
    rw [if_neg h1, if_neg h2, if_neg h3, if_neg h4, if_neg h5, if_neg h6]

theorem NewPacket6_eq (m tid : Nat) :
    NewPacket6 m tid = [m, tid / 65536 % 256, tid / 256 % 256, tid % 256] := rfl

theorem Type6_NewPacket6_append (m tid : Nat) (rest : Bytes) :
    Type6 (NewPacket6 m tid ++ rest) = .ok m := rfl

theorem getOption_some_ne_nil (opts : List Option6) (code : OptionCode6) (o : Option6)
    (h : getOption opts code = some o) : opts ≠ [] := by
  intro hn
  rw [hn] at h
  exact absurd h (by simp [getOption])

theorem serverOptions6_codes (conf : ResponseConfig) (o : Option6)
    (ho : o ∈ serverOptions6 conf) :
    o.Code = OPTION_DNS_SERVERS ∨ o.Code = OPTION_SNTP_SERVERS := by
  unfold serverOptions6 at ho
  rcases List.mem_append.mp ho with h | h
  · split at h
    · rw [List.mem_singleton] at h
      exact Or.inl (by rw [h])
    · exact absurd h (List.not_mem_nil _)
  · split at h
    · rw [List.mem_singleton] at h
      exact Or.inr (by rw [h])
    · exact absurd h (List.not_mem_nil _)

/-- The reply `makeDHCPReplyPacket6` builds for a request of a non-relay type
that carries CLIENTID and IA_NA, whose ORO option (if any) has an even
length, under a config whose server MAC has at least 6 bytes. -/
theorem makeDHCPReplyPacket6_ok (pkt : Packet) (conf : ResponseConfig) (m t : MessageType)
    (opts : List Option6) (cli iana : Option6)
    (ht : Type6 pkt = .ok t) (hnr : t ≠ DHCPV6_RELAY_FORW ∧ t ≠ DHCPV6_RELAY_REPL)
    (hopts : GetOption6s pkt = .ok opts)
    (hcli : getOption opts DHCPV6_OPTION_CLIENTID = some cli)
    (hiana : getOption opts DHCPV6_OPTION_IA_NA = some iana)
    (horo : ∀ o, getOption opts DHCPV6_OPTION_ORO = some o → o.Value.length % 2 = 0)
    (hmac : 6 ≤ conf.InterfaceMac.length) :
    ∃ tid, TID6 pkt = .ok tid ∧
      makeDHCPReplyPacket6 pkt conf m = .ok
        (if t = DHCPV6_SOLICIT ∧ getOption opts DHCPV6_OPTION_RAPID_COMMIT ≠ none then
          NewPacket6 DHCPV6_REPLY tid ++ optionsToBytes
            ([⟨DHCPV6_OPTION_CLIENTID, cli.Value⟩,
              ⟨DHCPV6_OPTION_SERVERID, [0, 3, 0, 1] ++ conf.InterfaceMac.take 6⟩,
              ianaOption conf iana.Value] ++ serverOptions6 conf
              ++ [⟨DHCPV6_OPTION_RAPID_COMMIT, []⟩])
        else
          NewPacket6 m tid ++ optionsToBytes
            ([⟨DHCPV6_OPTION_CLIENTID, cli.Value⟩,
              ⟨DHCPV6_OPTION_SERVERID, [0, 3, 0, 1] ++ conf.InterfaceMac.take 6⟩,
              ianaOption conf iana.Value] ++ serverOptions6 conf)) := by
  obtain ⟨tid, htid⟩ := TID6_of_options pkt t opts ht hnr hopts
    (getOption_some_ne_nil opts _ cli hcli)
  refine ⟨tid, htid, ?_⟩
  have hro := replyOptions6_ok pkt conf m t opts cli iana _ ht hopts
    (logRequestOptions_ok opts horo) hcli (makeServerId_ok _ hmac) hiana
  simp only [makeDHCPReplyPacket6, htid, hro, bind, Except.bind, pure, Except.pure]
  split <;> rfl

/-- C6 as stated fails under a config without a server MAC: the request
carries CLIENTID, IA_NA and RAPID_COMMIT, and `makeServerId` slices
`serverMac[:6]` out of range. -/
theorem C6_rapid_commit_counterexample :
    GetOption6s ([1, 0, 0, 7] ++ optionsToBytes [⟨1, [5, 6]⟩, ⟨3, [1, 2, 3]⟩, ⟨14, []⟩])
      = .ok [⟨1, [5, 6]⟩, ⟨3, [1, 2, 3]⟩, ⟨14, []⟩] ∧
    MakeDHCP6Reply ([1, 0, 0, 7] ++ optionsToBytes [⟨1, [5, 6]⟩, ⟨3, [1, 2, 3]⟩, ⟨14, []⟩])
      zeroConf = .error .Panic := by
  decide

theorem secondsUint32_whole (L : Nat) (hL : L < 4294967296) :
    secondsUint32 ((L : Int) * 1000000000) = L := by
  unfold secondsUint32
  rw [Int.mul_tdiv_cancel _ (by decide)]
  omega

theorem copyInto_length (dst src : Bytes) : (copyInto dst src).length = dst.length := by
  simp only [copyInto, List.length_append, List.length_take, List.length_drop]
  omega

/-- The two lifetime fields of an IAADDR value, at offsets 16 and 20. -/
theorem makeIAAddr_lifetimes (ip : IP) (p v : Nat) (opts : List Option6)
    (hp : p < 4294967296) (hv : v < 4294967296) :
    beUint32 (((makeIAAddr ip p v opts).drop 16).take 4) = p ∧
    beUint32 (((makeIAAddr ip p v opts).drop 20).take 4) = v := by
  have h16 : (copyInto (List.replicate 16 0) (To16 ip).bytes).length = 16 := by
    rw [copyInto_length, List.length_replicate]
  have e1 : makeIAAddr ip p v opts = copyInto (List.replicate 16 0) (To16 ip).bytes
      ++ (putUint32 p ++ (putUint32 v ++ optionsToBytes opts)) := by
    simp only [makeIAAddr, List.append_assoc]
  have e2 : makeIAAddr ip p v opts = (copyInto (List.replicate 16 0) (To16 ip).bytes
      ++ putUint32 p) ++ (putUint32 v ++ optionsToBytes opts) := by
    simp only [makeIAAddr, List.append_assoc]
  have h20 : (copyInto (List.replicate 16 0) (To16 ip).bytes ++ putUint32 p).length = 20 := by
    rw [List.length_append, h16, putUint32_length]
  constructor
  · rw [e1, List.drop_left' h16, List.take_left' (putUint32_length p)]
    exact beUint32_putUint32 p hp
  · rw [e2, List.drop_left' h20, List.take_left' (putUint32_length v)]
    exact beUint32_putUint32 v hv

theorem responseIANA_head (buf : Bytes) (opts : List Option6) :
    ∃ head, head.length = 12 ∧ responseIANA buf opts = head ++ optionsToBytes opts := by
  unfold responseIANA
  dsimp only
  split
  · next h =>
    exact ⟨_, by rw [List.length_append, List.length_replicate]; omega, rfl⟩
  · split
    · next h1 h2 =>
      exact ⟨_, by rw [List.length_take]; omega, rfl⟩
    · next h1 h2 =>
      exact ⟨_, by omega, rfl⟩

/-- Every reply of `MakeDHCP6Reply` is a 4-byte header followed by the echoed
CLIENTID, a SERVERID, the IA_NA option built from the request's, and further
options. -/
theorem MakeDHCP6Reply_inv (pkt : Packet) (conf : ResponseConfig) (reply : Packet)
    (h : MakeDHCP6Reply pkt conf = .ok reply) :
    ∃ m tid cli sid iana rest,
      reply = NewPacket6 m tid ++ optionsToBytes
        ([⟨DHCPV6_OPTION_CLIENTID, cli⟩, ⟨DHCPV6_OPTION_SERVERID, sid⟩, ianaOption conf iana]
          ++ rest) := by
  have hmk : ∃ m, makeDHCPReplyPacket6 pkt conf m = .ok reply := by
    simp only [MakeDHCP6Reply, bind, Except.bind] at h
    cases ht : Type6 pkt with
    | error e => simp [ht] at h
    | ok t =>
      simp only [ht] at h
      split at h
      · exact ⟨_, h⟩
      · split at h
        · exact ⟨_, h⟩
        · split at h
          · exact ⟨_, h⟩
          · split at h
            · exact ⟨_, h⟩
            · split at h
              · exact ⟨_, h⟩
              · split at h
                · exact ⟨_, h⟩
                · exact absurd h (by simp)
  obtain ⟨m, hm⟩ := hmk
  simp only [makeDHCPReplyPacket6, bind, Except.bind, pure, Except.pure] at hm
  cases htid : TID6 pkt with
  | error e => simp [htid] at hm
  | ok tid =>
    simp only [htid] at hm
    cases hro : replyOptions6 pkt conf m with
    | error e => simp [hro] at hm
    | ok res =>
      simp only [hro, Except.ok.injEq] at hm
      obtain ⟨t, opts, cli, iana, sid, ht, hopts, hlog, hcli, hsid, hiana⟩ :=
        replyOptions6_inv pkt conf m res hro
      have hro2 := replyOptions6_ok pkt conf m t opts cli iana sid ht hopts hlog hcli hsid hiana
      rw [hro] at hro2
      have hres := Except.ok.inj hro2
      rw [← hm, hres]
      split
      · exact ⟨_, tid, cli.Value, sid, iana.Value, _, by
          dsimp only
          rw [List.append_assoc]⟩
      · exact ⟨_, tid, cli.Value, sid, iana.Value, _, rfl⟩

/-- C7 (amended): for every config whose `LeaseTime` is a whole number `L`
of seconds with `L < 2^32`, and every request for which `MakeDHCP6Reply`
succeeds, the reply is a 4-byte header followed by CLIENTID, SERVERID and an
IA_NA option whose value is a 12-byte head followed by one IAADDR option
(code 5); the IAADDR value carries, as big-endian 32-bit fields at offsets 16
and 20, the preferred lifetime `floor(L/2)` and the valid lifetime `L`. -/
theorem C7_iaaddr_lifetimes (pkt : Packet) (conf : ResponseConfig) (reply : Packet) (L : Nat)
    (hL : L < 4294967296) (hlease : conf.LeaseTime = (L : Int) * 1000000000)
    (hok : MakeDHCP6Reply pkt conf = .ok reply) :
    ∃ hdr cli sid head iaaddr rest,
      reply = hdr ++ optionsToBytes
        ([⟨DHCPV6_OPTION_CLIENTID, cli⟩, ⟨DHCPV6_OPTION_SERVERID, sid⟩,
          ⟨DHCPV6_OPTION_IA_NA, head ++ optionToBytes ⟨DHCPV6_OPTION_IAADDR, iaaddr⟩⟩] ++ rest) ∧
      hdr.length = 4 ∧ head.length = 12 ∧
      beUint32 ((iaaddr.drop 16).take 4) = L / 2 ∧
      beUint32 ((iaaddr.drop 20).take 4) = L := by
  obtain ⟨m, tid, cli, sid, iana, rest, hr⟩ := MakeDHCP6Reply_inv pkt conf reply hok
  have hv : secondsUint32 conf.LeaseTime = L := by
    rw [hlease]
    exact secondsUint32_whole L hL
  obtain ⟨head, hhead, hresp⟩ := responseIANA_head iana
    [⟨DHCPV6_OPTION_IAADDR, makeIAAddr conf.ClientIP6 (L / 2) L
      [⟨DHCPV6_OPTION_STATUS_CODE, [0, 0, 83, 117, 99, 99, 101, 115, 115]⟩]⟩]
  have hia : ianaOption conf iana = ⟨DHCPV6_OPTION_IA_NA, head ++ optionToBytes
      ⟨DHCPV6_OPTION_IAADDR, makeIAAddr conf.ClientIP6 (L / 2) L
        [⟨DHCPV6_OPTION_STATUS_CODE, [0, 0, 83, 117, 99, 99, 101, 115, 115]⟩]⟩⟩ := by
    simp only [ianaOption, hv, hresp, optionsToBytes_cons, optionsToBytes_nil,
      List.append_nil]
  have hlt := makeIAAddr_lifetimes conf.ClientIP6 (L / 2) L
    [⟨DHCPV6_OPTION_STATUS_CODE, [0, 0, 83, 117, 99, 99, 101, 115, 115]⟩] (by omega) hL
  exact ⟨NewPacket6 m tid, cli, sid, head, _, rest, by rw [hr, hia], rfl, hhead, hlt.1, hlt.2⟩

theorem C7_iaaddr_lifetimes_witness :
    ∃ hdr cli sid head iaaddr rest,
      [2, 0, 0, 7, 0, 1, 0, 2, 5, 6, 0, 2, 0, 10, 0, 3, 0, 1, 1, 2, 3, 4, 5, 6, 0, 3, 0, 53,
        0, 0, 0, 1, 0, 0, 14, 16, 0, 0, 21, 24, 0, 5, 0, 37,
        32, 1, 13, 184, 0, 1, 0, 2, 0, 3, 0, 4, 0, 5, 0, 6, 0, 0, 7, 8, 0, 0, 14, 16,
        0, 13, 0, 9, 0, 0, 83, 117, 99, 99, 101, 115, 115]
        = hdr ++ optionsToBytes
        ([⟨DHCPV6_OPTION_CLIENTID, cli⟩, ⟨DHCPV6_OPTION_SERVERID, sid⟩,
          ⟨DHCPV6_OPTION_IA_NA, head ++ optionToBytes ⟨DHCPV6_OPTION_IAADDR, iaaddr⟩⟩] ++ rest) ∧
      hdr.length = 4 ∧ head.length = 12 ∧
      beUint32 ((iaaddr.drop 16).take 4) = 3600 / 2 ∧
      beUint32 ((iaaddr.drop 20).take 4) = 3600 :=
  C7_iaaddr_lifetimes
    ([1, 0, 0, 7] ++ optionsToBytes
      [⟨1, [5, 6]⟩, ⟨3, [0, 0, 0, 1, 0, 0, 14, 16, 0, 0, 21, 24]⟩])
    { zeroConf with InterfaceMac := [1, 2, 3, 4, 5, 6],
                    ClientIP6 := some [32, 1, 13, 184, 0, 1, 0, 2, 0, 3, 0, 4, 0, 5, 0, 6],
                    LeaseTime := 3600 * 1000000000 }
    _ 3600 (by decide) (by decide) (by decide)

/-- C7 as stated fails for a lease of 2^32 seconds: the reply is built, and
its valid-lifetime field (reply bytes 64..67, offset 20 of the IAADDR value)
is a 32-bit field, here 0, not 4294967296. -/
theorem C7_iaaddr_lifetimes_counterexample :
    MakeDHCP6Reply
      ([1, 0, 0, 7] ++ optionsToBytes
        [⟨1, [5, 6]⟩, ⟨3, [0, 0, 0, 1, 0, 0, 14, 16, 0, 0, 21, 24]⟩])
      { zeroConf with InterfaceMac := [1, 2, 3, 4, 5, 6],
                      ClientIP6 := some [32, 1, 13, 184, 0, 1, 0, 2, 0, 3, 0, 4, 0, 5, 0, 6],
                      LeaseTime := 4294967296 * 1000000000 }
      = .ok [2, 0, 0, 7, 0, 1, 0, 2, 5, 6, 0, 2, 0, 10, 0, 3, 0, 1, 1, 2, 3, 4, 5, 6, 0, 3, 0, 53,
        0, 0, 0, 1, 0, 0, 14, 16, 0, 0, 21, 24, 0, 5, 0, 37,
        32, 1, 13, 184, 0, 1, 0, 2, 0, 3, 0, 4, 0, 5, 0, 6, 0, 0, 0, 0, 0, 0, 0, 0,
        0, 13, 0, 9, 0, 0, 83, 117, 99, 99, 101, 115, 115] ∧
    (MakeDHCP6Reply
      ([1, 0, 0, 7] ++ optionsToBytes
        [⟨1, [5, 6]⟩, ⟨3, [0, 0, 0, 1, 0, 0, 14, 16, 0, 0, 21, 24]⟩])
      { zeroConf with InterfaceMac := [1, 2, 3, 4, 5, 6],
                      ClientIP6 := some [32, 1, 13, 184, 0, 1, 0, 2, 0, 3, 0, 4, 0, 5, 0, 6],
                      LeaseTime := 4294967296 * 1000000000 }).map
      (fun reply => beUint32 ((reply.drop 64).take 4)) ≠ .ok 4294967296 := by
  decide

/-- C8, the failing input: a SOLICIT whose only option is an ORO option of
one byte. Its options hold no CLIENTID, and `MakeDHCP6Reply` does not return
`InvalidFormat`: decoding the ORO value for the debug log slices
`value[0:2]` out of range. With a second byte in the ORO value the same
request is answered with `InvalidFormat`. -/
theorem C8_missing_clientid_odd_oro :
    GetOption6s [1, 0, 0, 0, 0, 6, 0, 1, 0] = .ok [⟨6, [0]⟩] ∧
    getOption [⟨6, [0]⟩] DHCPV6_OPTION_CLIENTID = none ∧
    MakeDHCP6Reply [1, 0, 0, 0, 0, 6, 0, 1, 0]
      { zeroConf with InterfaceMac := [1, 2, 3, 4, 5, 6] } = .error .Panic ∧
    MakeDHCP6Reply [1, 0, 0, 0, 0, 6, 0, 2, 0, 23]
      { zeroConf with InterfaceMac := [1, 2, 3, 4, 5, 6] } = .error .InvalidFormat := by
  decide

theorem TID6_nonrelay (pkt : Packet) (t : MessageType) (ht : Type6 pkt = .ok t)
    (hnr : t ≠ DHCPV6_RELAY_FORW ∧ t ≠ DHCPV6_RELAY_REPL) :
    TID6 pkt = if pkt.length < 4 then .error .InvalidFormat
      else .ok (beUint32 [0, pkt.getD 1 0, pkt.getD 2 0, pkt.getD 3 0]) := by
  have hb : (t == DHCPV6_RELAY_FORW || t == DHCPV6_RELAY_REPL) = false := by
    simpa using hnr
  simp only [TID6, TID6Aux, IsRelayMsg, ht, bind, Except.bind, pure, Except.pure, hb]
  simp

/-- With an ORO option that decodes (or none), a request of a supported type
without CLIENTID is answered with `InvalidFormat`. -/
theorem MakeDHCP6Reply_no_clientid (pkt : Packet) (conf : ResponseConfig) (t : MessageType)
    (opts : List Option6) (ht : Type6 pkt = .ok t)
    (hsup : t = DHCPV6_SOLICIT ∨ t = DHCPV6_REQUEST ∨ t = DHCPV6_CONFIRM ∨ t = DHCPV6_RENEW ∨
      t = DHCPV6_REBIND ∨ t = DHCPV6_INFORMATION_REQUEST)
    (hopts : GetOption6s pkt = .ok opts) (hlog : logRequestOptions opts = .ok ())
    (hcli : getOption opts DHCPV6_OPTION_CLIENTID = none) :
    MakeDHCP6Reply pkt conf = .error .InvalidFormat := by
  have hnr : t ≠ DHCPV6_RELAY_FORW ∧ t ≠ DHCPV6_RELAY_REPL := by
    rcases hsup with h | h | h | h | h | h <;> subst h <;> decide
  have hmk : ∀ m, makeDHCPReplyPacket6 pkt conf m = .error .InvalidFormat := by
    intro m
    simp only [makeDHCPReplyPacket6, replyOptions6, TID6_nonrelay pkt t ht hnr, hopts, hlog,
      hcli, bind, Except.bind]
    by_cases h4 : pkt.length < 4
    · rw [if_pos h4]
    · rw [if_neg h4]
  have hs := MakeDHCP6Reply_supported pkt conf t ht
  rcases hsup with h | h
  · rw [hs.1 h, hmk]
  · rw [hs.2.1 h, hmk]

/-- C10 (amended): for every non-empty request carrying CLIENTID and IA_NA
and no RAPID_COMMIT, whose ORO option (if there is one) has an even length,
and every config whose `InterfaceMac` has at least 6 bytes, `MakeDHCP6Reply`
returns a reply whose type is ADVERTISE (2) for SOLICIT (1) and REPLY (7) for
REQUEST (3), CONFIRM (4), RENEW (5), REBIND (6) and INFORMATION-REQUEST (11);
for every request whose type byte is any other value, RELAY-FORW and
RELAY-REPL included, it fails with `NotSupported` whatever its options and
the config. -/
theorem C10_reply_type :
    (∀ (pkt : Packet) (conf : ResponseConfig) (t : MessageType) (opts : List Option6)
        (cli iana : Option6),
      Type6 pkt = .ok t → GetOption6s pkt = .ok opts →
      getOption opts DHCPV6_OPTION_CLIENTID = some cli →
      getOption opts DHCPV6_OPTION_IA_NA = some iana →
      getOption opts DHCPV6_OPTION_RAPID_COMMIT = none →
      (∀ o, getOption opts DHCPV6_OPTION_ORO = some o → o.Value.length % 2 = 0) →
      6 ≤ conf.InterfaceMac.length →
      (t = DHCPV6_SOLICIT →
        ∃ reply, MakeDHCP6Reply pkt conf = .ok reply ∧ Type6 reply = .ok DHCPV6_ADVERTISE) ∧
      (t = DHCPV6_REQUEST ∨ t = DHCPV6_CONFIRM ∨ t = DHCPV6_RENEW ∨ t = DHCPV6_REBIND ∨
          t = DHCPV6_INFORMATION_REQUEST →
        ∃ reply, MakeDHCP6Reply pkt conf = .ok reply ∧ Type6 reply = .ok DHCPV6_REPLY)) ∧
    (∀ (pkt : Packet) (conf : ResponseConfig) (t : MessageType),
      Type6 pkt = .ok t →
      t ≠ DHCPV6_SOLICIT ∧ t ≠ DHCPV6_REQUEST ∧ t ≠ DHCPV6_CONFIRM ∧ t ≠ DHCPV6_RENEW ∧
        t ≠ DHCPV6_REBIND ∧ t ≠ DHCPV6_INFORMATION_REQUEST →
      MakeDHCP6Reply pkt conf = .error .NotSupported) := by
  constructor
  · intro pkt conf t opts cli iana ht hopts hcli hiana hrc horo hmac
    have hs := MakeDHCP6Reply_supported pkt conf t ht
    have hno : ¬ (t = DHCPV6_SOLICIT ∧ getOption opts DHCPV6_OPTION_RAPID_COMMIT ≠ none) :=
      fun h => h.2 hrc
    constructor
    · intro h
      obtain ⟨tid, _, hr⟩ := makeDHCPReplyPacket6_ok pkt conf DHCPV6_ADVERTISE t opts cli iana
        ht (by subst h; decide) hopts hcli hiana horo hmac
      rw [if_neg hno, ← hs.1 h] at hr
      exact ⟨_, hr, rfl⟩
    · intro h
      obtain ⟨tid, _, hr⟩ := makeDHCPReplyPacket6_ok pkt conf DHCPV6_REPLY t opts cli iana
        ht (by rcases h with h | h | h | h | h <;> subst h <;> decide) hopts hcli hiana horo hmac
      rw [if_neg hno, ← hs.2.1 h] at hr
      exact ⟨_, hr, rfl⟩
  · intro pkt conf t ht hns
    exact (MakeDHCP6Reply_supported pkt conf t ht).2.2 hns

theorem C10_reply_type_witness :
    (∃ reply, MakeDHCP6Reply ([5, 0, 0, 7] ++ optionsToBytes [⟨1, [5, 6]⟩, ⟨3, [1, 2, 3]⟩])
        { zeroConf with InterfaceMac := [1, 2, 3, 4, 5, 6] } = .ok reply ∧
      Type6 reply = .ok DHCPV6_REPLY) ∧
    MakeDHCP6Reply ([12, 0] ++ List.replicate 32 0 ++ optionsToBytes [⟨9, [1, 0, 0, 7]⟩])
        zeroConf = .error .NotSupported :=
  ⟨(C10_reply_type.1 ([5, 0, 0, 7] ++ optionsToBytes [⟨1, [5, 6]⟩, ⟨3, [1, 2, 3]⟩])
      { zeroConf with InterfaceMac := [1, 2, 3, 4, 5, 6] } 5
      [⟨1, [5, 6]⟩, ⟨3, [1, 2, 3]⟩] ⟨1, [5, 6]⟩ ⟨3, [1, 2, 3]⟩
      (by decide) (by decide) (by decide) (by decide) (by decide)
      (by
        intro o ho
        have hn : getOption [⟨1, [5, 6]⟩, ⟨3, [1, 2, 3]⟩] DHCPV6_OPTION_ORO = none := by decide
        rw [hn] at ho
        exact absurd ho (by simp))
      (by decide)).2 (by decide),
    C10_reply_type.2 _ zeroConf 12 (by decide) (by decide)⟩

/-- C10 as stated fails under a config without a server MAC: the REQUEST
carries CLIENTID and IA_NA and no RAPID_COMMIT, and no reply is built,
`makeServerId` slicing `serverMac[:6]` out of range. -/
theorem C10_reply_type_counterexample :
    GetOption6s ([3, 0, 0, 7] ++ optionsToBytes [⟨1, [5, 6]⟩, ⟨3, [1, 2, 3]⟩])
      = .ok [⟨1, [5, 6]⟩, ⟨3, [1, 2, 3]⟩] ∧
    MakeDHCP6Reply ([3, 0, 0, 7] ++ optionsToBytes [⟨1, [5, 6]⟩, ⟨3, [1, 2, 3]⟩])
      zeroConf = .error .Panic := by
  decide

/-! ## Fuel -/

theorem slice_error (p : Bytes) (a b : Nat) (e : Err) (h : slice p a b = .error e) :
    e = .Panic := by
  unfold slice at h
  split at h
  · exact absurd h (by simp)
  · exact (Except.error.inj h).symm

theorem slice_ok_le (p : Bytes) (a b : Nat) (v : Bytes) (h : slice p a b = .ok v) :
    a ≤ b ∧ b ≤ p.length := by
  unfold slice at h
  split at h
  · next hc => exact hc
  · exact absurd h (by simp)

/-- The parsing loop does not run out of fuel: every turn moves the index by
at least 4, so `fuel` turns are enough once `len(p) < i + 4 * fuel`. -/
theorem getOption6sLoop_fuel (p : Packet) (fuel i : Nat) (acc : List Option6)
    (h1 : 1 ≤ fuel) (h2 : p.length < i + 4 * fuel) :
    getOption6sLoop p fuel i acc ≠ .error .OutOfFuel := by
  induction fuel generalizing i acc with
  | zero => omega
  | succ f ih =>
    rw [getOption6sLoop]
    by_cases hlt : i < p.length
    · rw [if_pos hlt]
      simp only [bind, Except.bind]
      cases ha : slice p i (i + 2) with
      | error e => rw [slice_error _ _ _ _ ha]; simp
      | ok c =>
        dsimp only
        cases hb : slice p (i + 2) (i + 4) with
        | error e => rw [slice_error _ _ _ _ hb]; simp
        | ok l =>
          dsimp only
          cases hc : slice p (i + 4) (i + 4 + beUint16 l) with
          | error e => rw [slice_error _ _ _ _ hc]; simp
          | ok v =>
            dsimp only
            have hle := slice_ok_le _ _ _ _ hc
            exact ih _ _ (by omega) (by omega)
    · rw [if_neg hlt]
      simp

/-- `GetOption6s` never reports exhausted fuel: it returns options or panics. -/
theorem GetOption6s_fuel (p : Packet) : GetOption6s p ≠ .error .OutOfFuel := by
  cases p with
  | nil => simp [GetOption6s, IsRelayMsg, Type6, index, bind, Except.bind]
  | cons t rest =>
    simp only [GetOption6s, IsRelayMsg, Type6, index, List.get?_cons_zero, bind, Except.bind,
      pure, Except.pure]
    apply getOption6sLoop_fuel
    · omega
    · split <;> omega

/-! ## Relay nesting -/

theorem slice_ok_length (p : Bytes) (a b : Nat) (v : Bytes) (h : slice p a b = .ok v) :
    v.length = b - a := by
  have hle := slice_ok_le p a b v h
  unfold slice at h
  rw [if_pos hle] at h
  rw [← Except.ok.inj h, List.length_take, List.length_drop]
  omega

/-- Every option the parsing loop returns beyond those it started with has a
value at least 4 bytes shorter than the packet. -/
theorem getOption6sLoop_value_length (p : Packet) (fuel i : Nat) (acc opts : List Option6)
    (h : getOption6sLoop p fuel i acc = .ok opts)
    (hacc : ∀ o ∈ acc, o.Value.length + 4 ≤ p.length) :
    ∀ o ∈ opts, o.Value.length + 4 ≤ p.length := by
  induction fuel generalizing i acc with
  | zero => simp [getOption6sLoop] at h
  | succ f ih =>
    rw [getOption6sLoop] at h
    by_cases hlt : i < p.length
    · rw [if_pos hlt] at h
      simp only [bind, Except.bind] at h
      cases ha : slice p i (i + 2) with
      | error e => simp [ha] at h
      | ok c =>
        simp only [ha] at h
        cases hb : slice p (i + 2) (i + 4) with
        | error e => simp [hb] at h
        | ok l =>
          simp only [hb] at h
          cases hc : slice p (i + 4) (i + 4 + beUint16 l) with
          | error e => simp [hc] at h
          | ok v =>
            simp only [hc] at h
            have hle := slice_ok_le _ _ _ _ hc
            have hlen := slice_ok_length _ _ _ _ hc
            apply ih _ _ h
            intro o ho
            rcases List.mem_append.mp ho with h1 | h1
            · exact hacc o h1
            · rw [List.mem_singleton] at h1
              subst h1
              dsimp only
              omega
    · rw [if_neg hlt] at h
      rw [← Except.ok.inj h]
      exact hacc

/-- Every option of a packet has a value at least 4 bytes shorter than the
packet. -/
theorem GetOption6s_value_length (p : Packet) (opts : List Option6)
    (h : GetOption6s p = .ok opts) : ∀ o ∈ opts, o.Value.length + 4 ≤ p.length := by
  simp only [GetOption6s, bind, Except.bind] at h
  cases hr : IsRelayMsg p with
  | error e => simp [hr] at h
  | ok r =>
    simp only [hr] at h
    exact getOption6sLoop_value_length p _ _ [] opts h (by simp)

/-- The result of `TID6Aux` does not depend on the fuel once the fuel exceeds
the length of the packet. -/
theorem TID6Aux_fuel (f1 f2 : Nat) (p : Packet) (h1 : p.length < f1) (h2 : p.length < f2) :
    TID6Aux f1 p = TID6Aux f2 p := by
  induction f1 generalizing f2 p with
  | zero => omega
  | succ n ih =>
    obtain ⟨m, rfl⟩ : ∃ m, f2 = m + 1 := ⟨f2 - 1, by omega⟩
    simp only [TID6Aux, bind, Except.bind]
    cases hr : IsRelayMsg p with
    | error e => rfl
    | ok r =>
      dsimp only
      cases r with
      | false => rfl
      | true =>
        cases ho : GetOption6s p with
        | error e => rfl
        | ok opts =>
          dsimp only
          cases hf : opts.find? (fun o => o.Code == DHCPV6_OPTION_RELAY_MSG) with
          | none => rfl
          | some o =>
            dsimp only
            have hlen := GetOption6s_value_length p opts ho o (List.mem_of_find?_eq_some hf)
            exact ih m o.Value (by omega) (by omega)

/-- `TID6` of a packet, computed with any fuel above its length. -/
theorem TID6Aux_eq_TID6 (f : Nat) (p : Packet) (h : p.length < f) : TID6Aux f p = TID6 p :=
  TID6Aux_fuel f (p.length + 1) p h (Nat.lt_succ_self _)

/-- `TID6` of a relay message is `TID6` of the value of its first RELAY_MSG
option. -/
theorem TID6_relay (p : Packet) (opts : List Option6) (o : Option6)
    (hr : IsRelayMsg p = .ok true) (ho : GetOption6s p = .ok opts)
    (hf : opts.find? (fun o => o.Code == DHCPV6_OPTION_RELAY_MSG) = some o) :
    TID6 p = TID6 o.Value := by
  have hlen := GetOption6s_value_length p opts ho o (List.mem_of_find?_eq_some hf)
  simp only [TID6, TID6Aux, hr, ho, hf, bind, Except.bind]
  exact TID6Aux_eq_TID6 _ _ (by omega)

/-- `TID6` never reports exhausted fuel. -/
theorem TID6Aux_ne_OutOfFuel (f : Nat) (p : Packet) (h : p.length < f) :
    TID6Aux f p ≠ .error .OutOfFuel := by
  induction f generalizing p with
  | zero => omega
  | succ n ih =>
    simp only [TID6Aux, bind, Except.bind]
    cases hr : IsRelayMsg p with
    | error e =>
      dsimp only
      cases p with
      | nil =>
        simp only [IsRelayMsg, Type6, index, bind, Except.bind] at hr
        simp at hr
        rw [← hr]
        simp
      | cons t rest => simp [IsRelayMsg, Type6, index, bind, Except.bind, pure, Except.pure] at hr
    | ok r =>
      dsimp only
      cases r with
      | false =>
        simp only [Bool.not_false, if_true]
        split <;> simp
      | true =>
        simp only [Bool.not_true, Bool.false_eq_true, if_false]
        cases ho : GetOption6s p with
        | error e =>
          dsimp only
          intro he
          exact GetOption6s_fuel p (by rw [ho, Except.error.inj he])
        | ok opts =>
          dsimp only
          cases hf : opts.find? (fun o => o.Code == DHCPV6_OPTION_RELAY_MSG) with
          | none => simp
          | some o =>
            dsimp only
            have hlen := GetOption6s_value_length p opts ho o (List.mem_of_find?_eq_some hf)
            exact ih o.Value (by omega)

/-! ## Relay encapsulation -/

theorem Encap_eq (p : Packet) :
    EncapDHCP6RelayMsg p = DHCPV6_RELAY_FORW :: List.replicate 33 0
      ++ optionsToBytes [⟨DHCPV6_OPTION_RELAY_MSG, p⟩] := by
  simp only [EncapDHCP6RelayMsg, NewRelayPacket6_eq]

theorem GetOption6s_Encap (p : Packet) (hp : p.length ≤ 65535) :
    GetOption6s (EncapDHCP6RelayMsg p) = .ok [⟨DHCPV6_OPTION_RELAY_MSG, p⟩] := by
  rw [Encap_eq]
  apply GetOption6s_header DHCPV6_RELAY_FORW (List.replicate 33 0) _ (by decide)
  intro o ho
  rw [List.mem_singleton] at ho
  subst ho
  exact ⟨(by decide : (9 : Nat) < 65536), hp⟩

theorem IsRelayMsg_Encap (p : Packet) : IsRelayMsg (EncapDHCP6RelayMsg p) = .ok true := by
  rw [Encap_eq]
  rfl

/-- C16: for every packet `p` of at most 65535 bytes, `EncapDHCP6RelayMsg(p)`
is byte 0 = RELAY-FORW (12), 33 zero bytes (hop count, link-address,
peer-address), the option header `[0, 9, len(p) high byte, len(p) low byte]`
and then `p` unchanged, `38 + len(p)` bytes in all, and it holds exactly one
option, the RELAY_MSG option with value `p`. -/
theorem C16_Encap_layout (p : Packet) (hp : p.length ≤ 65535) :
    EncapDHCP6RelayMsg p = DHCPV6_RELAY_FORW :: List.replicate 33 0
        ++ [0, 9, p.length / 256, p.length % 256] ++ p ∧
    (EncapDHCP6RelayMsg p).length = 38 + p.length ∧
    GetOption6s (EncapDHCP6RelayMsg p) = .ok [⟨DHCPV6_OPTION_RELAY_MSG, p⟩] := by
  have hhi : p.length / 256 % 256 = p.length / 256 := by omega
  have e : EncapDHCP6RelayMsg p = DHCPV6_RELAY_FORW :: List.replicate 33 0
      ++ [0, 9, p.length / 256, p.length % 256] ++ p := by
    rw [Encap_eq, optionsToBytes_cons, optionsToBytes_nil, List.append_nil]
    simp only [optionToBytes, putUint16, hhi, List.append_assoc]
    rfl
  refine ⟨e, ?_, GetOption6s_Encap p hp⟩
  rw [e]
  simp only [List.length_append, List.length_cons, List.length_replicate, List.length_nil]

theorem C16_Encap_layout_witness :
    EncapDHCP6RelayMsg [1, 0, 0, 7, 0, 14, 0, 0] = DHCPV6_RELAY_FORW :: List.replicate 33 0
        ++ [0, 9, 0, 8] ++ [1, 0, 0, 7, 0, 14, 0, 0] ∧
    (EncapDHCP6RelayMsg [1, 0, 0, 7, 0, 14, 0, 0]).length = 46 ∧
    GetOption6s (EncapDHCP6RelayMsg [1, 0, 0, 7, 0, 14, 0, 0])
      = .ok [⟨DHCPV6_OPTION_RELAY_MSG, [1, 0, 0, 7, 0, 14, 0, 0]⟩] :=
  C16_Encap_layout [1, 0, 0, 7, 0, 14, 0, 0] (by decide)

theorem find?_first (q : Option6 → Bool) (before after : List Option6) (o : Option6)
    (hb : ∀ x ∈ before, q x = false) (ho : q o = true) :
    (before ++ o :: after).find? q = some o := by
  induction before with
  | nil => simp [List.find?_cons, ho]
  | cons x xs ih =>
    rw [List.cons_append, List.find?_cons, hb x (List.mem_cons_self x xs)]
    exact ih (fun y hy => hb y (List.mem_cons_of_mem x hy))

/-- C17: for every packet whose options can be read, `DecapDHCP6RelayMsg`
returns the value of the first top-level option with code RELAY_MSG (9) when
there is one, and fails with `InvalidFormat` if and only if no top-level
option has code 9. -/
theorem C17_Decap (pkt : Packet) (opts : List Option6) (h : GetOption6s pkt = .ok opts) :
    (∀ before o after, opts = before ++ o :: after →
      (∀ x ∈ before, x.Code ≠ DHCPV6_OPTION_RELAY_MSG) → o.Code = DHCPV6_OPTION_RELAY_MSG →
      DecapDHCP6RelayMsg pkt = .ok o.Value) ∧
    (DecapDHCP6RelayMsg pkt = .error .InvalidFormat ↔
      ∀ o ∈ opts, o.Code ≠ DHCPV6_OPTION_RELAY_MSG) := by
  constructor
  · intro before o after he hb ho
    have hf := find?_first (fun o => o.Code == DHCPV6_OPTION_RELAY_MSG) before after o
      (fun x hx => by simpa using hb x hx) (by simpa using ho)
    simp only [DecapDHCP6RelayMsg, h, he, hf, bind, Except.bind]
  · simp only [DecapDHCP6RelayMsg, h, bind, Except.bind]
    cases hf : opts.find? (fun o => o.Code == DHCPV6_OPTION_RELAY_MSG) with
    | none =>
      simp only [true_iff]
      intro o ho
      have := List.find?_eq_none.mp hf o ho
      simpa using this
    | some o =>
      simp only [false_iff, reduceCtorEq]
      intro hall
      have hm := List.mem_of_find?_eq_some hf
      have hc := List.find?_some hf
      exact hall o hm (by simpa using hc)

theorem C17_Decap_witness :
    DecapDHCP6RelayMsg [1, 0, 0, 7, 0, 1, 0, 2, 5, 6, 0, 9, 0, 1, 5, 0, 9, 0, 1, 6]
      = .ok [5] :=
  (C17_Decap [1, 0, 0, 7, 0, 1, 0, 2, 5, 6, 0, 9, 0, 1, 5, 0, 9, 0, 1, 6]
    [⟨1, [5, 6]⟩, ⟨9, [5]⟩, ⟨9, [6]⟩] (by decide)).1
    [⟨1, [5, 6]⟩] ⟨9, [5]⟩ [⟨9, [6]⟩] rfl (by decide) rfl

/-! ## Transaction id -/

/-- C18: for every non-relay message type `t` and every `tid`,
`TID6(NewPacket6(t, tid))` succeeds and returns `tid mod 2^24`, and `Type6`
of that packet is `t`; for every packet of at least 4 bytes whose type is not
a relay type, `TID6` returns `p[1]*65536 + p[2]*256 + p[3]`. -/
theorem C18_TID6_leaf :
    (∀ t tid : Nat, t ≠ DHCPV6_RELAY_FORW → t ≠ DHCPV6_RELAY_REPL →
      TID6 (NewPacket6 t tid) = .ok (tid % 16777216) ∧ Type6 (NewPacket6 t tid) = .ok t) ∧
    (∀ (t a b c : Nat) (rest : Bytes), t ≠ DHCPV6_RELAY_FORW → t ≠ DHCPV6_RELAY_REPL →
      TID6 (t :: a :: b :: c :: rest) = .ok (a * 65536 + b * 256 + c)) := by
  constructor
  · intro t tid h1 h2
    refine ⟨?_, rfl⟩
    rw [NewPacket6_eq, TID6_leaf t _ _ _ [] ⟨h1, h2⟩]
    simp only [beUint32, List.getD_cons_zero, List.getD_cons_succ]
    exact congrArg Except.ok (by omega)
  · intro t a b c rest h1 h2
    rw [TID6_leaf t a b c rest ⟨h1, h2⟩]
    simp only [beUint32, List.getD_cons_zero, List.getD_cons_succ]
    exact congrArg Except.ok (by omega)

theorem C18_TID6_leaf_witness :
    (TID6 (NewPacket6 DHCPV6_REPLY 4294967295) = .ok (4294967295 % 16777216) ∧
      Type6 (NewPacket6 DHCPV6_REPLY 4294967295) = .ok DHCPV6_REPLY) ∧
    TID6 [1, 18, 52, 86, 0, 14, 0, 0] = .ok (18 * 65536 + 52 * 256 + 86) :=
  ⟨C18_TID6_leaf.1 DHCPV6_REPLY 4294967295 (by decide) (by decide),
    C18_TID6_leaf.2 1 18 52 86 [0, 14, 0, 0] (by decide) (by decide)⟩

/-- C19: on the empty packet `TID6` does not return `InvalidFormat`: before
it compares the length with 4 it calls `IsRelayMsg`, which reads `p[0]`, and
the index is out of range. On every packet of 1 to 3 bytes whose type is not
a relay type it fails with `InvalidFormat`. -/
theorem C19_TID6_short :
    TID6 [] = .error .Panic ∧
    (∀ (t : Nat) (rest : Bytes), t ≠ DHCPV6_RELAY_FORW → t ≠ DHCPV6_RELAY_REPL →
      (t :: rest).length < 4 → TID6 (t :: rest) = .error .InvalidFormat) := by
  refine ⟨by decide, ?_⟩
  intro t rest h1 h2 hlen
  rw [TID6_nonrelay (t :: rest) t rfl ⟨h1, h2⟩, if_pos hlen]

/-- `TID6` sees through one relay envelope. -/
theorem TID6_Encap (q : Packet) (hq : q.length ≤ 65535) :
    TID6 (EncapDHCP6RelayMsg q) = TID6 q :=
  TID6_relay (EncapDHCP6RelayMsg q) [⟨DHCPV6_OPTION_RELAY_MSG, q⟩] ⟨DHCPV6_OPTION_RELAY_MSG, q⟩
    (IsRelayMsg_Encap q) (GetOption6s_Encap q hq) (by simp [List.find?_cons])

/-- C20: for every leaf packet `p` of at least 4 bytes and every depth `n`
such that each packet that gets encapsulated has at most 65535 bytes, `TID6`
of `p` wrapped `n` times by `EncapDHCP6RelayMsg` equals `TID6(p)`, the
transaction id held in bytes 1..3 of `p`. -/
theorem C20_TID6_relay_chain (p : Packet) (t n : Nat) (ht : Type6 p = .ok t)
    (hnr : t ≠ DHCPV6_RELAY_FORW ∧ t ≠ DHCPV6_RELAY_REPL) (hlen : 4 ≤ p.length)
    (hsz : ∀ k, k < n → (Nat.iterate EncapDHCP6RelayMsg k p).length ≤ 65535) :
    TID6 (Nat.iterate EncapDHCP6RelayMsg n p) = TID6 p ∧
    TID6 p = .ok (p.getD 1 0 * 65536 + p.getD 2 0 * 256 + p.getD 3 0) := by
  constructor
  · induction n with
    | zero => rfl
    | succ m ih =>
      rw [Function.iterate_succ_apply', TID6_Encap _ (hsz m (Nat.lt_succ_self m))]
      exact ih (fun k hk => hsz k (Nat.lt_succ_of_lt hk))
  · rw [TID6_nonrelay p t ht hnr, if_neg (by omega)]
    simp only [beUint32, List.getD_cons_zero, List.getD_cons_succ]
    exact congrArg Except.ok (by omega)

theorem C20_TID6_relay_chain_witness :
    TID6 (Nat.iterate EncapDHCP6RelayMsg 2 [3, 18, 52, 86, 0, 14, 0, 0])
        = TID6 [3, 18, 52, 86, 0, 14, 0, 0] ∧
    TID6 [3, 18, 52, 86, 0, 14, 0, 0] = .ok (18 * 65536 + 52 * 256 + 86) :=
  C20_TID6_relay_chain [3, 18, 52, 86, 0, 14, 0, 0] 3 2 (by decide) (by decide) (by decide)
    (by
      intro k hk
      have hk2 : k = 0 ∨ k = 1 := by omega
      rcases hk2 with h | h <;> subst h <;> decide)

/-! ## Shape of the v6 reply -/

theorem makeServerId_inv (mac sid : Bytes) (h : makeServerId mac = .ok sid) :
    6 ≤ mac.length ∧ sid = [0, 3, 0, 1] ++ mac.take 6 := by
  by_cases hm : 6 ≤ mac.length
  · rw [makeServerId_ok mac hm] at h
    exact ⟨hm, (Except.ok.inj h).symm⟩
  · rw [makeServerId_short mac (by omega)] at h
    exact absurd h (by simp)

/-- Every reply of `MakeDHCP6Reply`, in full: the request has a supported
type `t`, a transaction id, a CLIENTID and an IA_NA option, the server MAC has
at least 6 bytes, and the reply is the header followed by CLIENTID, SERVERID,
IA_NA and the server options; for a SOLICIT with RAPID_COMMIT the type is
REPLY and RAPID_COMMIT is appended, otherwise the type is ADVERTISE for a
SOLICIT and REPLY for the other types. -/
theorem MakeDHCP6Reply_shape (pkt : Packet) (conf : ResponseConfig) (reply : Packet)
    (h : MakeDHCP6Reply pkt conf = .ok reply) :
    ∃ t tid opts cli iana,
      Type6 pkt = .ok t ∧ TID6 pkt = .ok tid ∧ GetOption6s pkt = .ok opts ∧
      getOption opts DHCPV6_OPTION_CLIENTID = some cli ∧
      getOption opts DHCPV6_OPTION_IA_NA = some iana ∧
      6 ≤ conf.InterfaceMac.length ∧
      ((t = DHCPV6_SOLICIT ∧ getOption opts DHCPV6_OPTION_RAPID_COMMIT ≠ none ∧
          reply = NewPacket6 DHCPV6_REPLY tid ++ optionsToBytes
            ([⟨DHCPV6_OPTION_CLIENTID, cli.Value⟩,
              ⟨DHCPV6_OPTION_SERVERID, [0, 3, 0, 1] ++ conf.InterfaceMac.take 6⟩,
              ianaOption conf iana.Value] ++ serverOptions6 conf
              ++ [⟨DHCPV6_OPTION_RAPID_COMMIT, []⟩])) ∨
        (¬ (t = DHCPV6_SOLICIT ∧ getOption opts DHCPV6_OPTION_RAPID_COMMIT ≠ none) ∧
          reply = NewPacket6 (if t = DHCPV6_SOLICIT then DHCPV6_ADVERTISE else DHCPV6_REPLY) tid
            ++ optionsToBytes
            ([⟨DHCPV6_OPTION_CLIENTID, cli.Value⟩,
              ⟨DHCPV6_OPTION_SERVERID, [0, 3, 0, 1] ++ conf.InterfaceMac.take 6⟩,
              ianaOption conf iana.Value] ++ serverOptions6 conf))) := by
  cases ht : Type6 pkt with
  | error e => simp [MakeDHCP6Reply, ht, bind, Except.bind] at h
  | ok t =>
    have hs := MakeDHCP6Reply_supported pkt conf t ht
    have hmk : makeDHCPReplyPacket6 pkt conf
        (if t = DHCPV6_SOLICIT then DHCPV6_ADVERTISE else DHCPV6_REPLY) = .ok reply := by
      by_cases h1 : t = DHCPV6_SOLICIT
      · rw [if_pos h1, ← hs.1 h1]
        exact h
      · rw [if_neg h1]
        by_cases h2 : t = DHCPV6_REQUEST ∨ t = DHCPV6_CONFIRM ∨ t = DHCPV6_RENEW ∨
            t = DHCPV6_REBIND ∨ t = DHCPV6_INFORMATION_REQUEST
        · rw [← hs.2.1 h2]
          exact h
        · simp only [not_or] at h2
          rw [hs.2.2 ⟨h1, h2.1, h2.2.1, h2.2.2.1, h2.2.2.2.1, h2.2.2.2.2⟩] at h
          exact absurd h (by simp)
    simp only [makeDHCPReplyPacket6, bind, Except.bind, pure, Except.pure] at hmk
    cases htid : TID6 pkt with
    | error e => simp [htid] at hmk
    | ok tid =>
      simp only [htid] at hmk
      cases hro : replyOptions6 pkt conf
          (if t = DHCPV6_SOLICIT then DHCPV6_ADVERTISE else DHCPV6_REPLY) with
      | error e => simp [hro] at hmk
      | ok res =>
        simp only [hro, Except.ok.injEq] at hmk
        obtain ⟨t', opts, cli, iana, sid, ht', hopts, hlog, hcli, hsid, hiana⟩ :=
          replyOptions6_inv pkt conf _ res hro
        have htt : t' = t := by
          rw [ht] at ht'
          exact (Except.ok.inj ht').symm
        subst htt
        obtain ⟨hmac, hsidv⟩ := makeServerId_inv _ _ hsid
        subst hsidv
        have hro2 := replyOptions6_ok pkt conf
          (if t' = DHCPV6_SOLICIT then DHCPV6_ADVERTISE else DHCPV6_REPLY) t' opts cli iana _
          ht' hopts hlog hcli hsid hiana
        rw [hro] at hro2
        have hres := Except.ok.inj hro2
        refine ⟨t', tid, opts, cli, iana, rfl, rfl, hopts, hcli, hiana, hmac, ?_⟩
        by_cases hr : t' = DHCPV6_SOLICIT ∧ getOption opts DHCPV6_OPTION_RAPID_COMMIT ≠ none
        · rw [if_pos hr] at hres
          refine Or.inl ⟨hr.1, hr.2, ?_⟩
          rw [← hmk, hres]
        · rw [if_neg hr] at hres
          refine Or.inr ⟨hr, ?_⟩
          rw [← hmk, hres]

/-- C11 (amended): for every request of a supported type that carries a
CLIENTID option but no IA_NA option, whose ORO option (if there is one) has
an even length, and every config whose `InterfaceMac` has at least 6 bytes,
`MakeDHCP6Reply` returns no packet and fails with `InvalidFormat`. -/
theorem C11_missing_iana (pkt : Packet) (conf : ResponseConfig) (t : MessageType)
    (opts : List Option6) (cli : Option6) (ht : Type6 pkt = .ok t)
    (hsup : t = DHCPV6_SOLICIT ∨ t = DHCPV6_REQUEST ∨ t = DHCPV6_CONFIRM ∨ t = DHCPV6_RENEW ∨
      t = DHCPV6_REBIND ∨ t = DHCPV6_INFORMATION_REQUEST)
    (hopts : GetOption6s pkt = .ok opts)
    (hcli : getOption opts DHCPV6_OPTION_CLIENTID = some cli)
    (hiana : getOption opts DHCPV6_OPTION_IA_NA = none)
    (horo : ∀ o, getOption opts DHCPV6_OPTION_ORO = some o → o.Value.length % 2 = 0)
    (hmac : 6 ≤ conf.InterfaceMac.length) :
    MakeDHCP6Reply pkt conf = .error .InvalidFormat := by
  have hnr : t ≠ DHCPV6_RELAY_FORW ∧ t ≠ DHCPV6_RELAY_REPL := by
    rcases hsup with h | h | h | h | h | h <;> subst h <;> decide
  obtain ⟨tid, htid⟩ := TID6_of_options pkt t opts ht hnr hopts
    (getOption_some_ne_nil opts _ cli hcli)
  have hmk : ∀ m, makeDHCPReplyPacket6 pkt conf m = .error .InvalidFormat := by
    intro m
    simp only [makeDHCPReplyPacket6, replyOptions6, htid, hopts, logRequestOptions_ok opts horo,
      hcli, makeServerId_ok _ hmac, hiana, bind, Except.bind]
  have hs := MakeDHCP6Reply_supported pkt conf t ht
  rcases hsup with h | h
  · rw [hs.1 h, hmk]
  · rw [hs.2.1 h, hmk]

theorem C11_missing_iana_witness :
    MakeDHCP6Reply ([4, 0, 0, 9] ++ optionsToBytes [⟨1, [5, 6]⟩, ⟨6, [0, 23]⟩])
      { zeroConf with InterfaceMac := [1, 2, 3, 4, 5, 6] } = .error .InvalidFormat :=
  C11_missing_iana ([4, 0, 0, 9] ++ optionsToBytes [⟨1, [5, 6]⟩, ⟨6, [0, 23]⟩])
    { zeroConf with InterfaceMac := [1, 2, 3, 4, 5, 6] } 4
    [⟨1, [5, 6]⟩, ⟨6, [0, 23]⟩] ⟨1, [5, 6]⟩ (by decide) (by decide) (by decide) (by decide)
    (by decide)
    (by
      intro o ho
      have hn : getOption [⟨1, [5, 6]⟩, ⟨6, [0, 23]⟩] DHCPV6_OPTION_ORO = some ⟨6, [0, 23]⟩ := by
        decide
      rw [hn] at ho
      rw [← Option.some.inj ho]
      decide)
    (by decide)

/-- C11 as stated fails under a config without a server MAC: the CONFIRM
carries CLIENTID and no IA_NA, and `makeServerId`, which runs before the
IA_NA option is looked for, slices `serverMac[:6]` out of range. -/
theorem C11_missing_iana_counterexample :
    GetOption6s ([4, 0, 0, 9] ++ optionsToBytes [⟨1, [5, 6]⟩]) = .ok [⟨1, [5, 6]⟩] ∧
    MakeDHCP6Reply ([4, 0, 0, 9] ++ optionsToBytes [⟨1, [5, 6]⟩]) zeroConf = .error .Panic := by
  decide

/-- C12: for every successful `MakeDHCP6Reply` under a config whose
`InterfaceMac` has 6 bytes, the reply is a 4-byte header followed by options
of which the first is CLIENTID (1) with the value of the request's first
CLIENTID option, and the second is SERVERID (2) with the 10-byte value
`[0, 3, 0, 1]` followed by the 6 MAC bytes. -/
theorem C12_clientid_serverid (pkt : Packet) (conf : ResponseConfig) (reply : Packet)
    (hmac : conf.InterfaceMac.length = 6) (hok : MakeDHCP6Reply pkt conf = .ok reply) :
    ∃ opts cli hdr rest,
      GetOption6s pkt = .ok opts ∧
      opts.find? (fun o => o.Code == DHCPV6_OPTION_CLIENTID) = some cli ∧
      hdr.length = 4 ∧
      reply = hdr ++ optionsToBytes
        (⟨DHCPV6_OPTION_CLIENTID, cli.Value⟩
          :: ⟨DHCPV6_OPTION_SERVERID, [0, 3, 0, 1] ++ conf.InterfaceMac⟩ :: rest) ∧
      ([0, 3, 0, 1] ++ conf.InterfaceMac).length = 10 := by
  obtain ⟨t, tid, opts, cli, iana, _, _, hopts, hcli, _, _, hr⟩ :=
    MakeDHCP6Reply_shape pkt conf reply hok
  have htake : conf.InterfaceMac.take 6 = conf.InterfaceMac :=
    List.take_of_length_le (by omega)
  rw [htake] at hr
  have h10 : ([0, 3, 0, 1] ++ conf.InterfaceMac).length = 10 := by
    rw [List.length_append, hmac]
    rfl
  rcases hr with ⟨_, _, hr⟩ | ⟨_, hr⟩
  · exact ⟨opts, cli, NewPacket6 _ tid, _, hopts, hcli, rfl, by rw [hr]; rfl, h10⟩
  · exact ⟨opts, cli, NewPacket6 _ tid, _, hopts, hcli, rfl, by rw [hr]; rfl, h10⟩

theorem C12_clientid_serverid_witness :
    ∃ opts cli hdr rest,
      GetOption6s ([5, 0, 0, 9] ++ optionsToBytes
        [⟨3, [1, 2]⟩, ⟨1, [5, 6]⟩, ⟨1, [7]⟩]) = .ok opts ∧
      opts.find? (fun o => o.Code == DHCPV6_OPTION_CLIENTID) = some cli ∧
      hdr.length = 4 ∧
      [7, 0, 0, 9, 0, 1, 0, 2, 5, 6, 0, 2, 0, 10, 0, 3, 0, 1, 11, 12, 13, 14, 15, 16,
        0, 3, 0, 53, 1, 2, 0, 0, 0, 0, 0, 0, 0, 0, 0, 0, 0, 5, 0, 37,
        32, 1, 13, 184, 0, 1, 0, 2, 0, 3, 0, 4, 0, 5, 0, 6, 0, 0, 7, 8, 0, 0, 14, 16,
        0, 13, 0, 9, 0, 0, 83, 117, 99, 99, 101, 115, 115]
        = hdr ++ optionsToBytes
        (⟨DHCPV6_OPTION_CLIENTID, cli.Value⟩
          :: ⟨DHCPV6_OPTION_SERVERID, [0, 3, 0, 1] ++ [11, 12, 13, 14, 15, 16]⟩ :: rest) ∧
      ([0, 3, 0, 1] ++ [11, 12, 13, 14, 15, 16]).length = 10 :=
  C12_clientid_serverid
    ([5, 0, 0, 9] ++ optionsToBytes [⟨3, [1, 2]⟩, ⟨1, [5, 6]⟩, ⟨1, [7]⟩])
    { zeroConf with InterfaceMac := [11, 12, 13, 14, 15, 16],
                    ClientIP6 := some [32, 1, 13, 184, 0, 1, 0, 2, 0, 3, 0, 4, 0, 5, 0, 6],
                    LeaseTime := 3600 * 1000000000 }
    _ (by decide) (by decide)

/-- C13: `responseIANA(buf, opts)` is a 12-byte head followed by
`optionsToBytes(opts)`; the head is the first 12 bytes of `buf` when `buf`
has at least 12 bytes, and otherwise `buf` followed by `12 - len(buf)` zero
bytes; the result has length `12 + len(optionsToBytes(opts))`. -/
theorem C13_responseIANA (buf : Bytes) (opts : List Option6) :
    responseIANA buf opts
      = (if 12 ≤ buf.length then buf.take 12
          else buf ++ List.replicate (12 - buf.length) 0) ++ optionsToBytes opts ∧
    (if 12 ≤ buf.length then buf.take 12
      else buf ++ List.replicate (12 - buf.length) 0).length = 12 ∧
    (responseIANA buf opts).length = 12 + (optionsToBytes opts).length := by
  have e : responseIANA buf opts
      = (if 12 ≤ buf.length then buf.take 12
          else buf ++ List.replicate (12 - buf.length) 0) ++ optionsToBytes opts := by
    unfold responseIANA
    dsimp only
    by_cases h1 : buf.length < 12
    · have h12 : ¬ 12 ≤ buf.length := by omega
      simp only [h1, h12, if_true, if_false]
    · have h12 : 12 ≤ buf.length := by omega
      by_cases h2 : buf.length > 12
      · simp only [h1, h12, h2, if_true, if_false]
      · simp only [h1, h12, h2, if_true, if_false]
        rw [List.take_of_length_le (by omega)]
  have hl : (if 12 ≤ buf.length then buf.take 12
      else buf ++ List.replicate (12 - buf.length) 0).length = 12 := by
    split
    · rw [List.length_take]
      omega
    · rw [List.length_append, List.length_replicate]
      omega
  refine ⟨e, hl, ?_⟩
  rw [e, List.length_append, hl]

theorem To16_length (ip : IP) (b : Bytes) (h : To16 ip = some b) : b.length = 16 := by
  unfold To16 at h
  split at h
  · next h4 =>
    rw [← Option.some.inj h, List.length_append]
    have : ip.bytes.length = 4 := h4
    rw [this]
    rfl
  · split at h
    · next h16 =>
      subst h
      exact h16
    · exact absurd h (by simp)

theorem copyInto_full (dst src : Bytes) (h : src.length = dst.length) :
    copyInto dst src = src := by
  unfold copyInto
  rw [List.take_of_length_le (by omega), List.drop_of_length_le (by omega), List.append_nil]

theorem makeIPv6s_foldl (ips : List IP) (buf : Bytes) :
    ips.foldl (fun buf ip =>
      match To16 ip with
      | none => buf
      | some ip6 => buf ++ ip6) buf = buf ++ makeIPv6s ips := by
  induction ips generalizing buf with
  | nil => simp [makeIPv6s]
  | cons ip ips ih =>
    simp only [makeIPv6s, List.foldl_cons]
    rw [ih, ih (match To16 ip with | none => [] | some ip6 => [] ++ ip6)]
    cases To16 ip with
    | none => simp
    | some b => simp

theorem makeIPv6s_nil : makeIPv6s [] = [] := rfl

theorem makeIPv6s_cons (ip : IP) (ips : List IP) :
    makeIPv6s (ip :: ips) = (To16 ip).bytes ++ makeIPv6s ips := by
  simp only [makeIPv6s, List.foldl_cons]
  rw [makeIPv6s_foldl]
  cases To16 ip with
  | none => rfl
  | some b => rfl

/-- `makeIPv6s` appends, in list order, the 16-byte form of each address, and
nothing for an address that has none. -/
theorem makeIPv6s_eq (ips : List IP) :
    makeIPv6s ips = (ips.map (fun ip => (To16 ip).bytes)).flatten := by
  induction ips with
  | nil => rfl
  | cons ip ips ih => rw [makeIPv6s_cons, ih, List.map_cons, List.flatten_cons]

theorem makeIPv6s_length (ips : List IP) :
    (makeIPv6s ips).length = 16 * (ips.filter (fun ip => (To16 ip).isSome)).length := by
  induction ips with
  | nil => rfl
  | cons ip ips ih =>
    rw [makeIPv6s_cons, List.length_append, ih, List.filter_cons]
    cases h : To16 ip with
    | none =>
      simp [IP.bytes]
    | some b =>
      have := To16_length ip b h
      simp only [IP.bytes, Option.getD_some, this, Option.isSome_some, if_true,
        List.length_cons]
      omega

theorem serverOptions6_mem (conf : ResponseConfig) (o : Option6) :
    o ∈ serverOptions6 conf ↔
      (conf.DNSServers6 ≠ [] ∧ o = ⟨OPTION_DNS_SERVERS, makeIPv6s conf.DNSServers6⟩) ∨
      (conf.NTPServers6 ≠ [] ∧ o = ⟨OPTION_SNTP_SERVERS, makeIPv6s conf.NTPServers6⟩) := by
  unfold serverOptions6
  rw [List.mem_append]
  have hd : conf.DNSServers6.length > 0 ↔ conf.DNSServers6 ≠ [] := by
    rw [gt_iff_lt, List.length_pos]
  have hn : conf.NTPServers6.length > 0 ↔ conf.NTPServers6 ≠ [] := by
    rw [gt_iff_lt, List.length_pos]
  apply or_congr
  · by_cases h : conf.DNSServers6.length > 0
    · rw [if_pos h, List.mem_singleton]
      exact ⟨fun e => ⟨hd.mp h, e⟩, fun e => e.2⟩
    · rw [if_neg h]
      exact ⟨fun e => absurd e (List.not_mem_nil _), fun e => absurd (hd.mpr e.1) h⟩
  · by_cases h : conf.NTPServers6.length > 0
    · rw [if_pos h, List.mem_singleton]
      exact ⟨fun e => ⟨hn.mp h, e⟩, fun e => e.2⟩
    · rw [if_neg h]
      exact ⟨fun e => absurd e (List.not_mem_nil _), fun e => absurd (hn.mpr e.1) h⟩

/-- The options of every reply of `MakeDHCP6Reply`: three options with codes
1, 2 and 3, the server options, and possibly RAPID_COMMIT. -/
theorem MakeDHCP6Reply_options (pkt : Packet) (conf : ResponseConfig) (reply : Packet)
    (hok : MakeDHCP6Reply pkt conf = .ok reply) :
    ∃ hdr first last, hdr.length = 4 ∧
      reply = hdr ++ optionsToBytes (first ++ serverOptions6 conf ++ last) ∧
      (∀ o ∈ first ++ last, o.Code = DHCPV6_OPTION_CLIENTID ∨ o.Code = DHCPV6_OPTION_SERVERID ∨
        o.Code = DHCPV6_OPTION_IA_NA ∨ o.Code = DHCPV6_OPTION_RAPID_COMMIT) := by
  obtain ⟨t, tid, opts, cli, iana, _, _, _, _, _, _, hr⟩ :=
    MakeDHCP6Reply_shape pkt conf reply hok
  have hfirst : ∀ o ∈ [(⟨DHCPV6_OPTION_CLIENTID, cli.Value⟩ : Option6),
      ⟨DHCPV6_OPTION_SERVERID, [0, 3, 0, 1] ++ conf.InterfaceMac.take 6⟩,
      ianaOption conf iana.Value],
      o.Code = DHCPV6_OPTION_CLIENTID ∨ o.Code = DHCPV6_OPTION_SERVERID ∨
        o.Code = DHCPV6_OPTION_IA_NA ∨ o.Code = DHCPV6_OPTION_RAPID_COMMIT := by
    intro o ho
    simp only [List.mem_cons, List.mem_singleton, List.not_mem_nil, or_false] at ho
    rcases ho with h | h | h
    · exact Or.inl (by rw [h])
    · exact Or.inr (Or.inl (by rw [h]))
    · exact Or.inr (Or.inr (Or.inl (by rw [h]; rfl)))
  rcases hr with ⟨_, _, hr⟩ | ⟨_, hr⟩
  · refine ⟨NewPacket6 _ tid, _, [⟨DHCPV6_OPTION_RAPID_COMMIT, []⟩], rfl, hr, ?_⟩
    intro o ho
    rcases List.mem_append.mp ho with h | h
    · exact hfirst o h
    · rw [List.mem_singleton] at h
      exact Or.inr (Or.inr (Or.inr (by rw [h])))
  · refine ⟨NewPacket6 _ tid, _, [], rfl, by rw [hr, List.append_nil], ?_⟩
    intro o ho
    rw [List.append_nil] at ho
    exact hfirst o ho

/-- C15 as stated fails when a server list holds an address without a 16-byte
form: with `DNSServers6 = [nil]` the DNS_SERVERS option is present and its
value is empty, not 16 bytes for the one address of the list. -/
theorem C15_server_options_counterexample :
    MakeDHCP6Reply
      ([6, 0, 0, 9] ++ optionsToBytes
        [⟨1, [5]⟩, ⟨3, [0, 0, 0, 1, 0, 0, 14, 16, 0, 0, 21, 24]⟩])
      { zeroConf with InterfaceMac := [11, 12, 13, 14, 15, 16],
                      ClientIP6 := some [32, 1, 13, 184, 0, 1, 0, 2, 0, 3, 0, 4, 0, 5, 0, 6],
                      LeaseTime := 7200 * 1000000000,
                      DNSServers6 := [none] }
      = .ok ([7, 0, 0, 9] ++ optionsToBytes
        [⟨1, [5]⟩, ⟨2, [0, 3, 0, 1, 11, 12, 13, 14, 15, 16]⟩,
          ⟨3, [0, 0, 0, 1, 0, 0, 14, 16, 0, 0, 21, 24, 0, 5, 0, 37,
            32, 1, 13, 184, 0, 1, 0, 2, 0, 3, 0, 4, 0, 5, 0, 6, 0, 0, 14, 16, 0, 0, 28, 32,
            0, 13, 0, 9, 0, 0, 83, 117, 99, 99, 101, 115, 115]⟩,
          ⟨OPTION_DNS_SERVERS, []⟩]) ∧
    makeIPv6s [none] = [] ∧ ([none] : List IP).length = 1 := by
  decide

/-- The result of `ClientIDAux` does not depend on the fuel once the fuel
exceeds the length of the packet. -/
theorem ClientIDAux_fuel (f1 f2 : Nat) (p : Packet) (h1 : p.length < f1) (h2 : p.length < f2) :
    ClientIDAux f1 p = ClientIDAux f2 p := by
  induction f1 generalizing f2 p with
  | zero => omega
  | succ n ih =>
    obtain ⟨m, rfl⟩ : ∃ m, f2 = m + 1 := ⟨f2 - 1, by omega⟩
    simp only [ClientIDAux, bind, Except.bind]
    cases hr : IsRelayMsg p with
    | error e => rfl
    | ok r =>
      dsimp only
      cases r with
      | false => rfl
      | true =>
        simp only [Bool.not_true, Bool.false_eq_true, if_false]
        cases ho : GetOption6s p with
        | error e => rfl
        | ok opts =>
          dsimp only
          cases hf : opts.find? (fun o => o.Code == DHCPV6_OPTION_RELAY_MSG) with
          | none => rfl
          | some o =>
            dsimp only
            have hlen := GetOption6s_value_length p opts ho o (List.mem_of_find?_eq_some hf)
            exact ih m o.Value (by omega) (by omega)

/-- `ClientID` of a packet, computed with any fuel above its length. -/
theorem ClientIDAux_eq_ClientID (f : Nat) (p : Packet) (h : p.length < f) :
    ClientIDAux f p = ClientID p :=
  ClientIDAux_fuel f (p.length + 1) p h (Nat.lt_succ_self _)

/-- `ClientID` of a relay message is `ClientID` of the value of its first
RELAY_MSG option. -/
theorem ClientID_relay (p : Packet) (opts : List Option6) (o : Option6)
    (hr : IsRelayMsg p = .ok true) (ho : GetOption6s p = .ok opts)
    (hf : opts.find? (fun o => o.Code == DHCPV6_OPTION_RELAY_MSG) = some o) :
    ClientID p = ClientID o.Value := by
  have hlen := GetOption6s_value_length p opts ho o (List.mem_of_find?_eq_some hf)
  simp only [ClientID, ClientIDAux, hr, ho, hf, bind, Except.bind, Bool.not_true,
    Bool.false_eq_true, if_false]
  exact ClientIDAux_eq_ClientID _ _ (by omega)

/-- `ClientID` of a relay message without a RELAY_MSG option. -/
theorem ClientID_relay_none (p : Packet) (opts : List Option6)
    (hr : IsRelayMsg p = .ok true) (ho : GetOption6s p = .ok opts)
    (hf : opts.find? (fun o => o.Code == DHCPV6_OPTION_RELAY_MSG) = none) :
    ClientID p = .error .InvalidFormat := by
  simp only [ClientID, ClientIDAux, hr, ho, hf, bind, Except.bind, Bool.not_true,
    Bool.false_eq_true, if_false]

/-- `ClientID` of a message that is not a relay message. -/
theorem ClientID_nonrelay (p : Packet) (opts : List Option6)
    (hr : IsRelayMsg p = .ok false) (ho : GetOption6s p = .ok opts) :
    ClientID p = match opts.find? (fun o => o.Code == DHCPV6_OPTION_CLIENTID) with
      | some o => .ok o.Value
      | none => .error .InvalidFormat := by
  simp only [ClientID, ClientIDAux, hr, ho, bind, Except.bind, Bool.not_false, if_true]

/-- `ClientID` never reports exhausted fuel. -/
theorem ClientIDAux_ne_OutOfFuel (f : Nat) (p : Packet) (h : p.length < f) :
    ClientIDAux f p ≠ .error .OutOfFuel := by
  induction f generalizing p with
  | zero => omega
  | succ n ih =>
    simp only [ClientIDAux, bind, Except.bind]
    cases hr : IsRelayMsg p with
    | error e =>
      dsimp only
      cases p with
      | nil =>
        simp only [IsRelayMsg, Type6, index, bind, Except.bind] at hr
        simp at hr
        rw [← hr]
        simp
      | cons t rest => simp [IsRelayMsg, Type6, index, bind, Except.bind, pure, Except.pure] at hr
    | ok r =>
      dsimp only
      cases ho : GetOption6s p with
      | error e =>
        cases r <;>
        · simp only [Bool.not_false, Bool.not_true, Bool.false_eq_true, if_true, if_false]
          intro he
          exact GetOption6s_fuel p (by rw [ho, Except.error.inj he])
      | ok opts =>
        cases r with
        | false =>
          simp only [Bool.not_false, if_true]
          split <;> simp
        | true =>
          simp only [Bool.not_true, Bool.false_eq_true, if_false]
          cases hf : opts.find? (fun o => o.Code == DHCPV6_OPTION_RELAY_MSG) with
          | none => simp
          | some o =>
            dsimp only
            have hlen := GetOption6s_value_length p opts ho o (List.mem_of_find?_eq_some hf)
            exact ih o.Value (by omega)

/-- A message type decides `IsRelayMsg`. -/
theorem IsRelayMsg_of_Type6 (p : Packet) (t : MessageType) (ht : Type6 p = .ok t) :
    IsRelayMsg p = .ok (t == DHCPV6_RELAY_FORW || t == DHCPV6_RELAY_REPL) := by
  simp only [IsRelayMsg, ht, bind, Except.bind, pure, Except.pure]

/-- `ClientID` sees through one relay envelope. -/
theorem ClientID_Encap (q : Packet) (hq : q.length ≤ 65535) :
    ClientID (EncapDHCP6RelayMsg q) = ClientID q :=
  ClientID_relay (EncapDHCP6RelayMsg q) [⟨DHCPV6_OPTION_RELAY_MSG, q⟩]
    ⟨DHCPV6_OPTION_RELAY_MSG, q⟩
    (IsRelayMsg_Encap q) (GetOption6s_Encap q hq) (by simp [List.find?_cons])

/-! ## Relay recursion and client identifier -/

/-- C22: for every packet whose options can be read, whose message type is
RELAY-FORW (12) or RELAY-REPL (13) and whose top-level options contain no
RELAY_MSG (code 9), `TID6` fails with `InvalidFormat`; the bare 34-byte relay
header is such a packet. -/
theorem C22_relay_without_relay_msg (p : Packet) (t : MessageType) (opts : List Option6)
    (ht : Type6 p = .ok t) (hr : t = DHCPV6_RELAY_FORW ∨ t = DHCPV6_RELAY_REPL)
    (ho : GetOption6s p = .ok opts) (hn : ∀ o ∈ opts, o.Code ≠ DHCPV6_OPTION_RELAY_MSG) :
    TID6 p = .error .InvalidFormat := by
  have hrel : IsRelayMsg p = .ok true := by
    rw [IsRelayMsg_of_Type6 p t ht]
    rcases hr with h | h <;> subst h <;> rfl
  have hf : opts.find? (fun o => o.Code == DHCPV6_OPTION_RELAY_MSG) = none := by
    rw [List.find?_eq_none]
    intro o hm
    simpa using hn o hm
  simp only [TID6, TID6Aux, hrel, ho, hf, bind, Except.bind, Bool.not_true,
    Bool.false_eq_true, if_false]

theorem C22_relay_without_relay_msg_witness :
    NewRelayPacket6.length = 34 ∧ TID6 NewRelayPacket6 = .error .InvalidFormat :=
  ⟨by decide,
    C22_relay_without_relay_msg NewRelayPacket6 DHCPV6_RELAY_FORW [] (by decide)
      (Or.inl rfl) (by decide) (by simp)⟩

/-- C23: for every packet whose options can be read and whose message type
is not a relay type, `ClientID` returns the value of the first option with
code CLIENTID (1) when there is one, and fails with `InvalidFormat` if and
only if no option of the packet has code 1. -/
theorem C23_ClientID_leaf (p : Packet) (t : MessageType) (opts : List Option6)
    (ht : Type6 p = .ok t) (hnr : t ≠ DHCPV6_RELAY_FORW ∧ t ≠ DHCPV6_RELAY_REPL)
    (h : GetOption6s p = .ok opts) :
    (∀ before o after, opts = before ++ o :: after →
      (∀ x ∈ before, x.Code ≠ DHCPV6_OPTION_CLIENTID) → o.Code = DHCPV6_OPTION_CLIENTID →
      ClientID p = .ok o.Value) ∧
    (ClientID p = .error .InvalidFormat ↔
      ∀ o ∈ opts, o.Code ≠ DHCPV6_OPTION_CLIENTID) := by
  have hrel : IsRelayMsg p = .ok false := by
    rw [IsRelayMsg_of_Type6 p t ht]
    have hb : (t == DHCPV6_RELAY_FORW || t == DHCPV6_RELAY_REPL) = false := by
      simpa using hnr
    rw [hb]
  rw [ClientID_nonrelay p opts hrel h]
  constructor
  · intro before o after he hb ho
    have hf := find?_first (fun o => o.Code == DHCPV6_OPTION_CLIENTID) before after o
      (fun x hx => by simpa using hb x hx) (by simpa using ho)
    simp only [he, hf]
  · cases hf : opts.find? (fun o => o.Code == DHCPV6_OPTION_CLIENTID) with
    | none =>
      simp only [true_iff]
      intro o ho
      have := List.find?_eq_none.mp hf o ho
      simpa using this
    | some o =>
      simp only [false_iff, reduceCtorEq]
      intro hall
      have hm := List.mem_of_find?_eq_some hf
      have hc := List.find?_some hf
      exact hall o hm (by simpa using hc)

theorem C23_ClientID_leaf_witness :
    ClientID [3, 0, 0, 9, 0, 8, 0, 2, 0, 0, 0, 1, 0, 3, 7, 8, 9, 0, 1, 0, 1, 4]
      = .ok [7, 8, 9] :=
  (C23_ClientID_leaf [3, 0, 0, 9, 0, 8, 0, 2, 0, 0, 0, 1, 0, 3, 7, 8, 9, 0, 1, 0, 1, 4] 3
    [⟨8, [0, 0]⟩, ⟨1, [7, 8, 9]⟩, ⟨1, [4]⟩] (by decide) (by decide) (by decide)).1
    [⟨8, [0, 0]⟩] ⟨1, [7, 8, 9]⟩ [⟨1, [4]⟩] rfl (by decide) rfl

/-- C24: for every packet `p` of at most 65535 bytes whose options can be
read and whose message type is not a relay type,
`ClientID(EncapDHCP6RelayMsg(p))` has the outcome of `ClientID(p)`, which is
the value of the first CLIENTID option of `p` or `InvalidFormat`; and for
every relay message whose options can be read, `ClientID` is decided by the
first RELAY_MSG option alone (`InvalidFormat` when there is none), whatever
CLIENTID options stand at the top level of the envelope. -/
theorem C24_ClientID_Encap (p : Packet) (t : MessageType) (opts : List Option6)
    (ht : Type6 p = .ok t) (hnr : t ≠ DHCPV6_RELAY_FORW ∧ t ≠ DHCPV6_RELAY_REPL)
    (h : GetOption6s p = .ok opts) (hlen : p.length ≤ 65535) :
    ClientID (EncapDHCP6RelayMsg p) = ClientID p ∧
    (ClientID p = match opts.find? (fun o => o.Code == DHCPV6_OPTION_CLIENTID) with
      | some o => .ok o.Value
      | none => .error .InvalidFormat) ∧
    (∀ (q : Packet) (qopts : List Option6), IsRelayMsg q = .ok true →
      GetOption6s q = .ok qopts →
      ClientID q = match qopts.find? (fun o => o.Code == DHCPV6_OPTION_RELAY_MSG) with
        | some o => ClientID o.Value
        | none => .error .InvalidFormat) := by
  refine ⟨ClientID_Encap p hlen, ?_, ?_⟩
  · apply ClientID_nonrelay p opts _ h
    rw [IsRelayMsg_of_Type6 p t ht]
    have hb : (t == DHCPV6_RELAY_FORW || t == DHCPV6_RELAY_REPL) = false := by
      simpa using hnr
    rw [hb]
  · intro q qopts hq hqo
    cases hf : qopts.find? (fun o => o.Code == DHCPV6_OPTION_RELAY_MSG) with
    | none => exact ClientID_relay_none q qopts hq hqo hf
    | some o => exact ClientID_relay q qopts o hq hqo hf

theorem C24_ClientID_Encap_witness :
    ClientID (EncapDHCP6RelayMsg [1, 0, 0, 5, 0, 1, 0, 2, 10, 11]) = .ok [10, 11] ∧
    ClientID (12 :: List.replicate 33 0 ++ [0, 1, 0, 1, 77]) = .error .InvalidFormat ∧
    ClientID (12 :: List.replicate 33 0 ++ [0, 1, 0, 1, 77, 0, 9, 0, 9, 1, 0, 0, 5, 0, 1, 0, 1, 20])
      = .ok [20] := by
  have w := C24_ClientID_Encap [1, 0, 0, 5, 0, 1, 0, 2, 10, 11] 1 [⟨1, [10, 11]⟩]
    (by decide) (by decide) (by decide) (by decide)
  refine ⟨w.1.trans (w.2.1.trans (by decide)), ?_, ?_⟩
  · exact (w.2.2 (12 :: List.replicate 33 0 ++ [0, 1, 0, 1, 77]) [⟨1, [77]⟩]
      (by decide) (by decide)).trans (by decide)
  · exact (w.2.2
      (12 :: List.replicate 33 0 ++ [0, 1, 0, 1, 77, 0, 9, 0, 9, 1, 0, 0, 5, 0, 1, 0, 1, 20])
      [⟨1, [77]⟩, ⟨9, [1, 0, 0, 5, 0, 1, 0, 1, 20]⟩] (by decide) (by decide)).trans (by decide)

/-! ## Option value encoders -/

theorem putUint16_inj (v v2 : Nat) (hv : v < 65536) (hv2 : v2 < 65536)
    (h : putUint16 v2 = putUint16 v) : v2 = v := by
  rw [← beUint16_putUint16 v2 hv2, h, beUint16_putUint16 v hv]

theorem putUint32_inj (w w2 : Nat) (hw : w < 4294967296) (hw2 : w2 < 4294967296)
    (h : putUint32 w2 = putUint32 w) : w2 = w := by
  rw [← beUint32_putUint32 w2 hw2, h, beUint32_putUint32 w hw]

/-- C25: for every 16-bit `v`, `GetOptUint16(v)` is the 2 bytes
`[v / 256, v mod 256]`, and for every 32-bit `w`, `GetOptUint32(w)` is the 4
bytes of `w`, most significant first; reading either result back big-endian
returns the original value, so both encodings are injective, and their widths
are 2 and 4. -/
theorem C25_GetOptUint (v w : Nat) (hv : v < 65536) (hw : w < 4294967296) :
    GetOptUint16 v = [v / 256, v % 256] ∧
    GetOptUint32 w = [w / 16777216, w / 65536 % 256, w / 256 % 256, w % 256] ∧
    beUint16 (GetOptUint16 v) = v ∧ beUint32 (GetOptUint32 w) = w ∧
    (GetOptUint16 v).length = 2 ∧ (GetOptUint32 w).length = 4 ∧
    (∀ v2, v2 < 65536 → GetOptUint16 v2 = GetOptUint16 v → v2 = v) ∧
    (∀ w2, w2 < 4294967296 → GetOptUint32 w2 = GetOptUint32 w → w2 = w) := by
  refine ⟨?_, ?_, beUint16_putUint16 v hv, beUint32_putUint32 w hw, rfl, rfl, ?_, ?_⟩
  · have h : v / 256 % 256 = v / 256 := by omega
    simp only [GetOptUint16, putUint16, h]
  · have h : w / 16777216 % 256 = w / 16777216 := by omega
    simp only [GetOptUint32, putUint32, h]
  · intro v2 hv2 h
    exact putUint16_inj v v2 hv hv2 h
  · intro w2 hw2 h
    exact putUint32_inj w w2 hw hw2 h

theorem C25_GetOptUint_witness :
    GetOptUint16 1500 = [5, 220] ∧ GetOptUint32 86400 = [0, 1, 81, 128] ∧
    beUint16 (GetOptUint16 1500) = 1500 ∧ beUint32 (GetOptUint32 86400) = 86400 :=
  have w := C25_GetOptUint 1500 86400 (by decide) (by decide)
  ⟨w.1, w.2.1, w.2.2.1, w.2.2.2.1⟩

/-- The test `To4` makes on a 16-byte address compares its first 12 bytes
with `v4InV6Prefix`. -/
theorem take12_v4InV6Prefix (b : Bytes) (h : 12 ≤ b.length) :
    b.take 12 = v4InV6Prefix ↔
      b.take 10 = List.replicate 10 0 ∧ b.getD 10 0 = 255 ∧ b.getD 11 0 = 255 := by
  rcases b with _ | ⟨a0, _ | ⟨a1, _ | ⟨a2, _ | ⟨a3, _ | ⟨a4, _ | ⟨a5, _ | ⟨a6, _ | ⟨a7,
    _ | ⟨a8, _ | ⟨a9, _ | ⟨a10, _ | ⟨a11, rest⟩⟩⟩⟩⟩⟩⟩⟩⟩⟩⟩⟩ <;>
    first
    | (simp at h; done)
    | (simp only [List.take_succ_cons, List.take_zero, v4InV6Prefix, List.replicate,
        List.getD_cons_zero, List.getD_cons_succ, List.cons.injEq, and_true]
       tauto)

theorem GetOptIP_four (ip : IP) (h : ip.len = 4) : GetOptIP ip = ip.bytes := by
  simp only [GetOptIP, To4, h, if_true]

theorem GetOptIP_mapped (ip : IP) (h : ip.len = 16) (hp : ip.bytes.take 12 = v4InV6Prefix) :
    GetOptIP ip = ip.bytes.drop 12 := by
  have hl : ip.bytes.length = 16 := h
  have hc := (take12_v4InV6Prefix ip.bytes (by omega)).mp hp
  have h4 : ¬ ip.len = 4 := by omega
  have hc2 : ip.len = 16 ∧ ip.bytes.take 10 = List.replicate 10 0
      ∧ ip.bytes.getD 10 0 = 255 ∧ ip.bytes.getD 11 0 = 255 := ⟨h, hc⟩
  unfold GetOptIP To4
  rw [if_neg h4, if_pos hc2]
  show (ip.bytes.drop 12).take 4 = ip.bytes.drop 12
  apply List.take_of_length_le
  simp only [List.length_drop]
  omega

theorem GetOptIP_other (ip : IP) (h4 : ip.len ≠ 4)
    (h16 : ¬ (ip.len = 16 ∧ ip.bytes.take 12 = v4InV6Prefix)) : GetOptIP ip = [] := by
  have hc2 : ¬ (ip.len = 16 ∧ ip.bytes.take 10 = List.replicate 10 0
      ∧ ip.bytes.getD 10 0 = 255 ∧ ip.bytes.getD 11 0 = 255) := by
    intro hc
    have hl : ip.bytes.length = 16 := hc.1
    exact h16 ⟨hc.1, (take12_v4InV6Prefix ip.bytes (by omega)).mpr hc.2⟩
  unfold GetOptIP To4
  rw [if_neg h4, if_neg hc2]
  rfl

/-- C26: `GetOptIP(ip)` is the address itself when `ip` has 4 bytes, the last
4 bytes of `ip` when `ip` is a 16-byte IPv4-mapped address (first 12 bytes
`v4InV6Prefix`), and the empty byte sequence for every other address, an
absent one and one of 16 bytes that is not IPv4-mapped included. The function
has no error result. -/
theorem C26_GetOptIP (ip : IP) :
    (ip.len = 4 → GetOptIP ip = ip.bytes ∧ (GetOptIP ip).length = 4) ∧
    (ip.len = 16 → ip.bytes.take 12 = v4InV6Prefix →
      GetOptIP ip = ip.bytes.drop 12 ∧ (GetOptIP ip).length = 4) ∧
    (ip.len ≠ 4 → ¬ (ip.len = 16 ∧ ip.bytes.take 12 = v4InV6Prefix) →
      GetOptIP ip = [] ∧ (GetOptIP ip).length = 0) ∧
    GetOptIP none = [] := by
  refine ⟨?_, ?_, ?_, by decide⟩
  · intro h
    rw [GetOptIP_four ip h]
    exact ⟨rfl, h⟩
  · intro h hp
    rw [GetOptIP_mapped ip h hp]
    refine ⟨rfl, ?_⟩
    have : ip.bytes.length = 16 := h
    simp only [List.length_drop, this]
  · intro h4 h16
    rw [GetOptIP_other ip h4 h16]
    exact ⟨rfl, rfl⟩

theorem C26_GetOptIP_witness :
    GetOptIP (some [192, 168, 1, 7]) = [192, 168, 1, 7] ∧
    GetOptIP (some [0, 0, 0, 0, 0, 0, 0, 0, 0, 0, 255, 255, 10, 0, 0, 9]) = [10, 0, 0, 9] ∧
    GetOptIP (some [32, 1, 13, 184, 0, 0, 0, 0, 0, 0, 0, 0, 0, 0, 0, 1]) = [] :=
  ⟨((C26_GetOptIP (some [192, 168, 1, 7])).1 (by decide)).1,
    ((C26_GetOptIP (some [0, 0, 0, 0, 0, 0, 0, 0, 0, 0, 255, 255, 10, 0, 0, 9])).2.1
      (by decide) (by decide)).1,
    ((C26_GetOptIP (some [32, 1, 13, 184, 0, 0, 0, 0, 0, 0, 0, 0, 0, 0, 0, 1])).2.2.1
      (by decide) (by decide)).1⟩

theorem GetOptIPs_foldl (ips : List IP) (buf : Bytes) :
    ips.foldl (fun buf ip => buf ++ (To4 ip).bytes) buf = buf ++ GetOptIPs ips := by
  induction ips generalizing buf with
  | nil => simp [GetOptIPs]
  | cons ip rest ih =>
    simp only [GetOptIPs, List.foldl_cons, List.nil_append]
    rw [ih, ih (To4 ip).bytes, List.append_assoc]

theorem GetOptIPs_cons (ip : IP) (rest : List IP) :
    GetOptIPs (ip :: rest) = GetOptIP ip ++ GetOptIPs rest := by
  simp only [GetOptIPs, List.foldl_cons, List.nil_append, GetOptIP]
  exact GetOptIPs_foldl rest (To4 ip).bytes

theorem GetOptIPs_append (a b : List IP) :
    GetOptIPs (a ++ b) = GetOptIPs a ++ GetOptIPs b := by
  induction a with
  | nil => rfl
  | cons ip rest ih => rw [List.cons_append, GetOptIPs_cons, GetOptIPs_cons, ih, List.append_assoc]

theorem GetOptIP_length (ip : IP) (h : To4 ip ≠ none) : (GetOptIP ip).length = 4 := by
  cases h4 : To4 ip with
  | none => exact absurd h4 h
  | some b =>
    simp only [GetOptIP, h4, IP.bytes, Option.getD_some]
    exact To4_length ip b h4

theorem GetOptIPs_group (a : List IP) (h : ∀ ip ∈ a, To4 ip ≠ none) :
    (GetOptIPs a).length = 4 * a.length ∧
    ∀ k, k < a.length → ((GetOptIPs a).drop (4 * k)).take 4 = GetOptIP (a.getD k none) := by
  induction a with
  | nil => exact ⟨rfl, fun k hk => absurd hk (by simp)⟩
  | cons ip rest ih =>
    have hip := GetOptIP_length ip (h ip (List.mem_cons_self ip rest))
    have ih2 := ih (fun x hx => h x (List.mem_cons_of_mem ip hx))
    rw [GetOptIPs_cons]
    constructor
    · rw [List.length_append, hip, ih2.1, List.length_cons]
      omega
    · intro k hk
      cases k with
      | zero =>
        simp only [Nat.mul_zero, List.drop_zero, List.getD_cons_zero]
        rw [List.take_append_of_le_length (by omega)]
        exact List.take_of_length_le (by omega)
      | succ j =>
        have e : 4 * (j + 1) = (GetOptIP ip).length + 4 * j := by omega
        rw [e, List.drop_append, List.getD_cons_succ]
        exact ih2.2 j (by simpa using hk)

/-- C27: `GetOptIPs(ips)` is the concatenation of `GetOptIP(ip)` over `ips`
in input order, and `GetOptIPs(a ++ b) = GetOptIPs(a) ++ GetOptIPs(b)`; when
every address of the list has an IPv4 form the result has length
`4 * len(ips)` and its `k`-th group of 4 bytes is the IPv4 form of the `k`-th
address. -/
theorem C27_GetOptIPs (a b : List IP) :
    GetOptIPs a = (a.map GetOptIP).flatten ∧
    GetOptIPs (a ++ b) = GetOptIPs a ++ GetOptIPs b ∧
    ((∀ ip ∈ a, To4 ip ≠ none) →
      (GetOptIPs a).length = 4 * a.length ∧
      ∀ k, k < a.length →
        ((GetOptIPs a).drop (4 * k)).take 4 = GetOptIP (a.getD k none)) := by
  refine ⟨?_, GetOptIPs_append a b, GetOptIPs_group a⟩
  induction a with
  | nil => rfl
  | cons ip rest ih => rw [GetOptIPs_cons, List.map_cons, List.flatten_cons, ih]

theorem C27_GetOptIPs_witness :
    GetOptIPs [some [8, 8, 8, 8],
        some [0, 0, 0, 0, 0, 0, 0, 0, 0, 0, 255, 255, 1, 1, 1, 1], some [9, 9, 9, 9]]
      = [8, 8, 8, 8, 1, 1, 1, 1, 9, 9, 9, 9] ∧
    (GetOptIPs [some [8, 8, 8, 8],
        some [0, 0, 0, 0, 0, 0, 0, 0, 0, 0, 255, 255, 1, 1, 1, 1], some [9, 9, 9, 9]]).length
      = 4 * 3 :=
  ⟨(C27_GetOptIPs [some [8, 8, 8, 8],
        some [0, 0, 0, 0, 0, 0, 0, 0, 0, 0, 255, 255, 1, 1, 1, 1], some [9, 9, 9, 9]] []).1.trans
      (by decide),
    ((C27_GetOptIPs [some [8, 8, 8, 8],
        some [0, 0, 0, 0, 0, 0, 0, 0, 0, 0, 255, 255, 1, 1, 1, 1], some [9, 9, 9, 9]] []).2.2
      (by decide)).1⟩

/-- The whole seconds of a non-negative duration, as `GetOptTime` converts
them. -/
theorem GetOptTime_nonneg (d : Int) (hd : 0 ≤ d) :
    GetOptTime d = putUint32 (d.toNat / 1000000000 % 4294967296) := by
  obtain ⟨n, rfl⟩ := Int.eq_ofNat_of_zero_le hd
  unfold GetOptTime
  rw [@Int.tdiv_eq_ediv (↑n) 1000000000 (by omega) (by decide)]
  exact congrArg putUint32 (by omega)

/-- C28: for every non-negative duration `d` in nanoseconds, `GetOptTime(d)`
is the 4-byte big-endian encoding of `floor(d / 10^9) mod 2^32`: reading it
back gives that number, a part below one second changes nothing, and adding
`2^32` whole seconds changes nothing. -/
theorem C28_GetOptTime (d : Int) (hd : 0 ≤ d) :
    GetOptTime d = putUint32 (d.toNat / 1000000000 % 4294967296) ∧
    (GetOptTime d).length = 4 ∧
    beUint32 (GetOptTime d) = d.toNat / 1000000000 % 4294967296 ∧
    (∀ r : Int, 0 ≤ r → d % 1000000000 + r < 1000000000 → GetOptTime (d + r) = GetOptTime d) ∧
    GetOptTime (d + 4294967296 * 1000000000) = GetOptTime d := by
  have e := GetOptTime_nonneg d hd
  refine ⟨e, ?_, ?_, ?_, ?_⟩
  · rw [e]
    rfl
  · rw [e]
    exact beUint32_putUint32 _ (Nat.mod_lt _ (by decide))
  · intro r hr hlt
    rw [e, GetOptTime_nonneg (d + r) (by omega)]
    congr 2
    omega
  · rw [e, GetOptTime_nonneg _ (by omega)]
    congr 1
    omega

theorem C28_GetOptTime_witness :
    GetOptTime 1999999999 = [0, 0, 0, 1] ∧
    GetOptTime (4294967297 * 1000000000) = [0, 0, 0, 1] ∧
    beUint32 (GetOptTime (3600 * 1000000000)) = 3600 :=
  ⟨(C28_GetOptTime 1999999999 (by decide)).1.trans (by decide),
    (C28_GetOptTime (4294967297 * 1000000000) (by decide)).1.trans (by decide),
    (C28_GetOptTime (3600 * 1000000000) (by decide)).2.2.1.trans (by decide)⟩

/-- C29: for every option `o`, `optionToBytes(o)` has length
`4 + len(o.Value)` and is the code as 2 big-endian bytes, then
`len(o.Value)` as 2 big-endian bytes, then the bytes of the value unchanged;
the code field reads back as the code, and for every value of at most 65535
bytes the length field reads back as exactly `len(o.Value)`. -/
theorem C29_optionToBytes (o : Option6) :
    (optionToBytes o).length = 4 + o.Value.length ∧
    optionToBytes o = [o.Code / 256 % 256, o.Code % 256,
      o.Value.length / 256 % 256, o.Value.length % 256] ++ o.Value ∧
    (optionToBytes o).drop 4 = o.Value ∧
    (o.Code < 65536 → beUint16 ((optionToBytes o).take 2) = o.Code) ∧
    (o.Value.length ≤ 65535 →
      beUint16 (((optionToBytes o).drop 2).take 2) = o.Value.length) := by
  have e : optionToBytes o = [o.Code / 256 % 256, o.Code % 256,
      o.Value.length / 256 % 256, o.Value.length % 256] ++ o.Value := by
    simp only [optionToBytes, putUint16, List.cons_append, List.nil_append]
  refine ⟨optionToBytes_length o, e, ?_, ?_, ?_⟩
  · rw [e]
    rfl
  · intro hc
    exact beUint16_putUint16 o.Code hc
  · intro hl
    rw [e]
    simp only [List.cons_append, List.drop_succ_cons, List.drop_zero, List.take_succ_cons,
      List.take_zero, beUint16, List.getD_cons_zero, List.getD_cons_succ]
    omega

theorem C29_optionToBytes_witness :
    optionToBytes ⟨23, List.replicate 300 7⟩ = [0, 23, 1, 44] ++ List.replicate 300 7 ∧
    beUint16 (((optionToBytes ⟨23, List.replicate 300 7⟩).drop 2).take 2) = 300 :=
  ⟨(C29_optionToBytes ⟨23, List.replicate 300 7⟩).2.1.trans
      (by simp only [List.length_replicate]),
    ((C29_optionToBytes ⟨23, List.replicate 300 7⟩).2.2.2.2
      (by simp only [List.length_replicate]; decide)).trans
      (by simp only [List.length_replicate])⟩

theorem optionsToBytes_append (a b : List Option6) :
    optionsToBytes (a ++ b) = optionsToBytes a ++ optionsToBytes b := by
  induction a with
  | nil => rfl
  | cons o os ih =>
    rw [List.cons_append, optionsToBytes_cons, optionsToBytes_cons, ih, List.append_assoc]

theorem optionsToBytes_length (a : List Option6) :
    (optionsToBytes a).length = (a.map (fun o => 4 + o.Value.length)).sum := by
  induction a with
  | nil => rfl
  | cons o os ih =>
    rw [optionsToBytes_cons, List.length_append, optionToBytes_length, ih, List.map_cons,
      List.sum_cons]

/-- C30: `optionsToBytes` concatenates the encodings in list order:
`optionsToBytes([])` is empty, `optionsToBytes([o]) = optionToBytes(o)`,
`optionsToBytes(a ++ b) = optionsToBytes(a) ++ optionsToBytes(b)` for all
lists, the result is the concatenation of `optionToBytes` over the list, and
its length is the sum over the list of `4 + len(Value)`. -/
theorem C30_optionsToBytes (a b : List Option6) (o : Option6) :
    optionsToBytes [] = [] ∧
    optionsToBytes [o] = optionToBytes o ∧
    optionsToBytes (a ++ b) = optionsToBytes a ++ optionsToBytes b ∧
    optionsToBytes a = (a.map optionToBytes).flatten ∧
    (optionsToBytes a).length = (a.map (fun o => 4 + o.Value.length)).sum := by
  refine ⟨rfl, ?_, optionsToBytes_append a b, ?_, optionsToBytes_length a⟩
  · rw [optionsToBytes_cons, optionsToBytes_nil, List.append_nil]
  · induction a with
    | nil => rfl
    | cons x xs ih => rw [optionsToBytes_cons, List.map_cons, List.flatten_cons, ih]

theorem C30_optionsToBytes_witness :
    optionsToBytes ([⟨1, [5, 6]⟩, ⟨3, []⟩] ++ [⟨2, [9]⟩])
      = [0, 1, 0, 2, 5, 6, 0, 3, 0, 0] ++ [0, 2, 0, 1, 9] ∧
    (optionsToBytes [⟨1, [5, 6]⟩, ⟨3, []⟩]).length = 6 + 4 :=
  have w := C30_optionsToBytes [⟨1, [5, 6]⟩, ⟨3, []⟩] [⟨2, [9]⟩] ⟨0, []⟩
  ⟨w.2.2.1.trans (by decide), w.2.2.2.2.trans (by decide)⟩

/-! ## Parsing offsets and out-of-range input -/

/-- C31: for every option list whose codes fit 16 bits and whose values have
at most 65535 bytes, `GetOption6s` reads the options back from offset 4 after
`NewPacket6(t, tid)` for every non-relay type `t` and every `tid`, and from
offset 34 after every 34-byte header whose first byte is RELAY-FORW or
RELAY-REPL, whatever the other 33 bytes of that header. -/
theorem C31_GetOption6s_offset (opts : List Option6) (hv : ValidOptions opts) :
    (∀ t tid : Nat, t ≠ DHCPV6_RELAY_FORW → t ≠ DHCPV6_RELAY_REPL →
      (NewPacket6 t tid).length = 4 ∧
      GetOption6s (NewPacket6 t tid ++ optionsToBytes opts) = .ok opts) ∧
    (∀ h : Bytes, h.length = 34 →
      h.getD 0 0 = DHCPV6_RELAY_FORW ∨ h.getD 0 0 = DHCPV6_RELAY_REPL →
      GetOption6s (h ++ optionsToBytes opts) = .ok opts) := by
  constructor
  · intro t tid h1 h2
    refine ⟨rfl, ?_⟩
    rw [NewPacket6_eq]
    apply GetOption6s_header t _ opts _ hv
    rw [if_neg (by simp only [not_or]; exact ⟨h1, h2⟩)]
    rfl
  · intro h hlen ht
    match h, hlen with
    | t :: rest, hlen =>
      apply GetOption6s_header t rest opts _ hv
      rw [if_pos (by simpa using ht)]
      exact hlen

theorem C31_GetOption6s_offset_witness :
    GetOption6s (NewPacket6 7 66051 ++ optionsToBytes [⟨2, [4, 4]⟩, ⟨14, []⟩])
      = .ok [⟨2, [4, 4]⟩, ⟨14, []⟩] ∧
    GetOption6s (13 :: List.replicate 33 255 ++ optionsToBytes [⟨2, [4, 4]⟩, ⟨14, []⟩])
      = .ok [⟨2, [4, 4]⟩, ⟨14, []⟩] :=
  have w := C31_GetOption6s_offset [⟨2, [4, 4]⟩, ⟨14, []⟩] (by decide)
  ⟨(w.1 7 66051 (by decide) (by decide)).2,
    w.2 (13 :: List.replicate 33 255) (by decide) (Or.inr (by decide))⟩

/-- C32, the failing input: a SOLICIT whose second and last option (code 3)
declares 5 value bytes while 2 bytes follow its header. `GetOption6s` does
not return the options read so far with a shortened value: the slice
`p[i+4 : i+4+length]` is out of range. With the 3 missing bytes appended the
same packet is read as two options. -/
theorem C32_declared_length_overrun :
    GetOption6s [1, 0, 0, 7, 0, 1, 0, 2, 5, 6, 0, 3, 0, 5, 9, 9] = .error .Panic ∧
    slice [1, 0, 0, 7, 0, 1, 0, 2, 5, 6, 0, 3, 0, 5, 9, 9] 14 19 = .error .Panic ∧
    GetOption6s [1, 0, 0, 7, 0, 1, 0, 2, 5, 6, 0, 3, 0, 5, 9, 9, 8, 8, 8]
      = .ok [⟨1, [5, 6]⟩, ⟨3, [9, 9, 8, 8, 8]⟩] := by
  decide

/-- C33, the failing input: a 34-byte RELAY-FORW header followed by 3 bytes,
the start of an option header. Each of the four parse functions reads the
2-byte length field at `p[36:38]`, out of range, and none of them returns a
value or one of its errors; the empty packet fails the same way at `p[0]`. -/
theorem C33_partial_option_header :
    GetOption6s (12 :: List.replicate 33 0 ++ [0, 9, 0]) = .error .Panic ∧
    TID6 (12 :: List.replicate 33 0 ++ [0, 9, 0]) = .error .Panic ∧
    ClientID (12 :: List.replicate 33 0 ++ [0, 9, 0]) = .error .Panic ∧
    DecapDHCP6RelayMsg (12 :: List.replicate 33 0 ++ [0, 9, 0]) = .error .Panic ∧
    GetOption6s [] = .error .Panic ∧ ClientID [] = .error .Panic ∧
    DecapDHCP6RelayMsg [] = .error .Panic := by
  decide

/-- C34, the failing input: a REQUEST of 33 bytes, every option of which
fits the buffer, carrying CLIENTID, IA_NA and an ORO option of 3 bytes, under
a config with a 6-byte `InterfaceMac`. `MakeDHCP6Reply` returns neither a
reply nor `InvalidFormat` nor `NotSupported`: decoding the ORO value slices
`value[2:4]` out of range. With a fourth ORO byte the request is answered. -/
theorem C34_odd_oro_request :
    GetOption6s ([3, 0, 0, 9] ++ optionsToBytes
        [⟨1, [5, 6]⟩, ⟨3, [0, 0, 0, 1, 0, 0, 14, 16, 0, 0, 21, 24]⟩, ⟨6, [0, 23, 0]⟩])
      = .ok [⟨1, [5, 6]⟩, ⟨3, [0, 0, 0, 1, 0, 0, 14, 16, 0, 0, 21, 24]⟩, ⟨6, [0, 23, 0]⟩] ∧
    MakeDHCP6Reply ([3, 0, 0, 9] ++ optionsToBytes
        [⟨1, [5, 6]⟩, ⟨3, [0, 0, 0, 1, 0, 0, 14, 16, 0, 0, 21, 24]⟩, ⟨6, [0, 23, 0]⟩])
      { zeroConf with InterfaceMac := [2, 4, 6, 8, 10, 12] } = .error .Panic ∧
    decodeRequestOptions [0, 23, 0] = .error .Panic ∧
    (MakeDHCP6Reply ([3, 0, 0, 9] ++ optionsToBytes
        [⟨1, [5, 6]⟩, ⟨3, [0, 0, 0, 1, 0, 0, 14, 16, 0, 0, 21, 24]⟩, ⟨6, [0, 23, 0, 31]⟩])
      { zeroConf with InterfaceMac := [2, 4, 6, 8, 10, 12] }).toBool = true := by
  decide

/-! ## Classless routes, every mask length -/

/-- `getClasslessRoutePack` on a route whose prefix and gateway have an IPv4
form, for every 8-bit mask length. -/
theorem getClasslessRoutePack_ipv4 (route : SRouteInfo) (net gw : Bytes)
    (hnet : To4 route.Prefix = some net) (hm : route.PrefixLen < 256)
    (hgw : To4 route.Gateway = some gw) :
    getClasslessRoutePack route
      = .ok ([route.PrefixLen] ++ net.take (min ((route.PrefixLen + 7) / 8) 4) ++ gw) := by
  have hnl := To4_length _ _ hnet
  have hp : route.Prefix ≠ none := by
    intro h
    rw [h, To4_none] at hnet
    exact absurd hnet (by simp)
  have hg : route.Gateway ≠ none := by
    intro h
    rw [h, To4_none] at hgw
    exact absurd hgw (by simp)
  have hnetlen : (if route.PrefixLen % 8 > 0 then (route.PrefixLen / 8 + 1) % 256
      else route.PrefixLen / 8) = (route.PrefixLen + 7) / 8 := by
    split <;> omega
  simp only [getClasslessRoutePack, hp, hg, hnet, hgw, ne_eq, not_false_eq_true, if_true,
    hnetlen, IP.bytes, Option.getD_some, bind, Except.bind, pure, Except.pure]
  by_cases h4 : (route.PrefixLen + 7) / 8 < 4
  · rw [if_pos h4, slice_zero _ _ (by omega), Nat.min_eq_left (by omega)]
  · rw [if_neg h4, Nat.min_eq_right (by omega), List.take_of_length_le (by omega)]

/-- C40: for every route whose prefix and gateway have an IPv4 form and every
mask length `m` in 0..255, `getClasslessRoutePack` returns a result: the
8-bit count `ceil(m/8)` is at most 32, the slice of the prefix is in range,
and the result is the byte `m`, the first `min(ceil(m/8), 4)` bytes of the
4-byte prefix and the 4 gateway bytes, `1 + min(ceil(m/8), 4) + 4` bytes in
all; for `m > 32` all 4 prefix bytes are there. -/
theorem C40_getClasslessRoutePack_total (route : SRouteInfo) (net gw : Bytes)
    (hnet : To4 route.Prefix = some net) (hm : route.PrefixLen < 256)
    (hgw : To4 route.Gateway = some gw) :
    ∃ res, getClasslessRoutePack route = .ok res ∧
      res = [route.PrefixLen] ++ net.take (min ((route.PrefixLen + 7) / 8) 4) ++ gw ∧
      res.length = 1 + min ((route.PrefixLen + 7) / 8) 4 + 4 ∧
      res.head? = some route.PrefixLen ∧
      (route.PrefixLen + 7) / 8 ≤ 32 ∧
      (32 < route.PrefixLen → res = [route.PrefixLen] ++ net ++ gw) := by
  have hnl := To4_length _ _ hnet
  have hgl := To4_length _ _ hgw
  refine ⟨_, getClasslessRoutePack_ipv4 route net gw hnet hm hgw, rfl, ?_, rfl, by omega, ?_⟩
  · simp only [List.length_append, List.length_cons, List.length_nil, List.length_take, hnl,
      hgl]
    omega
  · intro h32
    rw [Nat.min_eq_right (by omega), List.take_of_length_le (by omega)]

theorem C40_getClasslessRoutePack_total_witness :
    getClasslessRoutePack ⟨some [172, 16, 5, 9], 255, some [10, 1, 1, 1]⟩
      = .ok [255, 172, 16, 5, 9, 10, 1, 1, 1] ∧
    getClasslessRoutePack ⟨some [172, 16, 5, 9], 12, some [10, 1, 1, 1]⟩
      = .ok [12, 172, 16, 10, 1, 1, 1] := by
  obtain ⟨res, h1, h2, _⟩ := C40_getClasslessRoutePack_total
    ⟨some [172, 16, 5, 9], 255, some [10, 1, 1, 1]⟩ [172, 16, 5, 9] [10, 1, 1, 1]
    (by decide) (by decide) (by decide)
  obtain ⟨res2, h3, h4, _⟩ := C40_getClasslessRoutePack_total
    ⟨some [172, 16, 5, 9], 12, some [10, 1, 1, 1]⟩ [172, 16, 5, 9] [10, 1, 1, 1]
    (by decide) (by decide) (by decide)
  exact ⟨h1.trans (by rw [h2]; decide), h3.trans (by rw [h4]; decide)⟩

/-! ## The option list of the v4 reply -/

/-- The assignment of lines 152-156 touches `OsName` only. -/
theorem setOsName_eq (req : Packet4) (conf : ResponseConfig) :
    setOsName req conf = { conf with OsName :=
      if conf.OsName = [] ∧ HasPrefix (getPacketVendorClassId req) strMSFT = true then strWin
      else conf.OsName } := by
  unfold setOsName
  by_cases h0 : conf.OsName = []
  · rw [if_pos h0]
    dsimp only
    by_cases hv : HasPrefix (getPacketVendorClassId req) strMSFT = true
    · have hne : getPacketVendorClassId req ≠ [] := by
        intro h
        rw [h] at hv
        exact absurd hv (by decide)
      rw [if_pos ⟨hne, hv⟩, if_pos ⟨h0, hv⟩]
    · rw [if_neg (fun h => hv h.2), if_neg (fun h => hv h.2)]
  · rw [if_neg h0, if_neg (fun h => h0 h.1)]

theorem replyOptions4_setOsName (req : Packet4) (conf : ResponseConfig) :
    replyOptions4 (setOsName req conf) = replyOptions4 conf := by
  rw [setOsName_eq]
  rfl

theorem replyClientIP_setOsName (req : Packet4) (conf : ResponseConfig) :
    replyClientIP (setOsName req conf) = replyClientIP conf := by
  rw [setOsName_eq]
  rfl

theorem replyBeforeRoutes_ClientIP (req : Packet4) (conf : ResponseConfig) (m : MessageType) :
    (replyBeforeRoutes req conf m).ClientIP = replyClientIP conf := by
  unfold replyBeforeRoutes
  simp only []
  split <;> split <;> split <;> rfl

/-- The options `AddOption` has put on the reply before the routes carry the
codes 66, 67, 13 and 58. -/
theorem replyBeforeRoutes_Added_mem (req : Packet4) (conf : ResponseConfig)
    (m : MessageType) (o : Option4) (ho : o ∈ (replyBeforeRoutes req conf m).Added) :
    o.Code = OptionTFTPServerName ∨ o.Code = OptionBootFileName ∨
      o.Code = OptionBootFileSize ∨ o.Code = OptionRenewalTimeValue := by
  unfold replyBeforeRoutes at ho
  simp only [] at ho
  split at ho <;> split at ho <;> split at ho <;>
    simp only [AddOption, SetSIAddr, ReplyPacket, List.nil_append, List.cons_append,
      List.mem_cons, List.mem_singleton, List.not_mem_nil, or_false] at ho
  all_goals first
    | exact absurd ho id
    | (rcases ho with h | h | h | h <;> subst h <;> dsimp only <;> decide)
    | (rcases ho with h | h | h <;> subst h <;> dsimp only <;> decide)
    | (rcases ho with h | h <;> subst h <;> dsimp only <;> decide)
    | (subst ho; dsimp only; decide)

/-- What every reply of `MakeReplyPacket` is made of. -/
theorem MakeReplyPacket_parts (pkt : Packet4) (conf : ResponseConfig) (r : Reply4)
    (c : ResponseConfig) (h : MakeReplyPacket pkt conf = .ok (r, c)) :
    c = setOsName pkt conf ∧ r.Opts = replyOptions4 conf ∧ r.ClientIP = replyClientIP conf ∧
    ∀ o ∈ r.Added, o.Code = OptionTFTPServerName ∨ o.Code = OptionBootFileName ∨
      o.Code = OptionBootFileSize ∨ o.Code = OptionRenewalTimeValue ∨
      o.Code = OptClasslessRouteLin ∨ o.Code = OptClasslessRouteWin := by
  obtain ⟨hc, packs, _, hr⟩ := (makeDHCPReplyPacket_ok pkt conf _).1 r c h
  refine ⟨hc, ?_, ?_, ?_⟩
  · rw [hr]
    dsimp only
    rw [replyBeforeRoutes_Opts, hc, replyOptions4_setOsName]
  · rw [hr]
    dsimp only
    rw [replyBeforeRoutes_ClientIP, hc, replyClientIP_setOsName]
  · intro o ho
    rw [hr] at ho
    dsimp only at ho
    rcases List.mem_append.mp ho with h1 | h1
    · rcases replyBeforeRoutes_Added_mem _ _ _ o h1 with h2 | h2 | h2 | h2
      · exact Or.inl h2
      · exact Or.inr (Or.inl h2)
      · exact Or.inr (Or.inr (Or.inl h2))
      · exact Or.inr (Or.inr (Or.inr (Or.inl h2)))
    · obtain ⟨b, _, hb⟩ := List.mem_map.mp h1
      rw [← hb]
      dsimp only
      unfold routeOptCode
      split
      · exact Or.inr (Or.inr (Or.inr (Or.inr (Or.inr rfl))))
      · exact Or.inr (Or.inr (Or.inr (Or.inr (Or.inl rfl))))

theorem mem_ite_singleton (p : Prop) (inst : Decidable p) (x o : Option4) :
    o ∈ (if p then [x] else []) ↔ p ∧ o = x := by
  by_cases h : p
  · rw [if_pos h, List.mem_singleton]
    exact ⟨fun e => ⟨h, e⟩, fun e => e.2⟩
  · rw [if_neg h]
    exact ⟨fun e => absurd e (List.not_mem_nil _), fun e => absurd e.1 h⟩

theorem codes_ite_singleton (p : Prop) (inst : Decidable p) (x : Option4) :
    List.Sublist ((if p then [x] else []).map (fun o => o.Code)) [x.Code] := by
  by_cases h : p
  · rw [if_pos h]
    exact List.Sublist.refl _
  · rw [if_neg h]
    exact List.nil_sublist _

/-- Membership in the option list handed to `ReplyPacket`. -/
theorem replyOptions4_mem (conf : ResponseConfig) (o : Option4) :
    o ∈ replyOptions4 conf ↔
      (conf.SubnetMask ≠ none ∧ o = ⟨OptionSubnetMask, GetOptIP conf.SubnetMask⟩) ∨
      (conf.Gateway ≠ none ∧ o = ⟨OptionRouter, GetOptIP conf.Gateway⟩) ∨
      (conf.Domain ≠ [] ∧ o = ⟨OptionDomainName, conf.Domain⟩) ∨
      (conf.BroadcastAddr ≠ none ∧
        o = ⟨OptionBroadcastAddress, GetOptIP conf.BroadcastAddr⟩) ∨
      (conf.Hostname ≠ [] ∧ o = ⟨OptionHostName, conf.Hostname⟩) ∨
      (conf.DNSServers ≠ [] ∧ o = ⟨OptionDomainNameServer, GetOptIPs conf.DNSServers⟩) ∨
      (conf.NTPServers ≠ [] ∧
        o = ⟨OptionNetworkTimeProtocolServers, GetOptIPs conf.NTPServers⟩) ∨
      (conf.MTU > 0 ∧ o = ⟨OptionInterfaceMTU, GetOptUint16 conf.MTU⟩) ∨
      (∃ relayInfo, conf.RelayInfo = some relayInfo ∧
        o = ⟨OptionRelayAgentInformation, relayInfo⟩) ∨
      (conf.ClientIP = none ∧ o = ⟨OptionIPv6Only, GetOptUint32 60⟩) := by
  have hd : conf.DNSServers.length > 0 ↔ conf.DNSServers ≠ [] := by
    rw [gt_iff_lt, List.length_pos]
  have hn : conf.NTPServers.length > 0 ↔ conf.NTPServers ≠ [] := by
    rw [gt_iff_lt, List.length_pos]
  have hrelay : o ∈ (match conf.RelayInfo with
      | some relayInfo => [(⟨OptionRelayAgentInformation, relayInfo⟩ : Option4)]
      | none => []) ↔
      ∃ relayInfo, conf.RelayInfo = some relayInfo ∧
        o = ⟨OptionRelayAgentInformation, relayInfo⟩ := by
    cases conf.RelayInfo with
    | none => simp
    | some ri => simp
  have hcli : o ∈ (if conf.ClientIP ≠ none then []
      else [(⟨OptionIPv6Only, GetOptUint32 60⟩ : Option4)]) ↔
      conf.ClientIP = none ∧ o = ⟨OptionIPv6Only, GetOptUint32 60⟩ := by
    by_cases h : conf.ClientIP = none
    · simp [h]
    · simp [h]
  unfold replyOptions4
  simp only [List.mem_append, mem_ite_singleton, hrelay, hcli, hd, hn, or_assoc]

/-- The codes of the option list handed to `ReplyPacket`, in order. -/
theorem replyOptions4_order (conf : ResponseConfig) :
    List.Sublist ((replyOptions4 conf).map (fun o => o.Code))
      [OptionSubnetMask, OptionRouter, OptionDomainName, OptionBroadcastAddress,
        OptionHostName, OptionDomainNameServer, OptionNetworkTimeProtocolServers,
        OptionInterfaceMTU, OptionRelayAgentInformation, OptionIPv6Only] := by
  have hrelay : List.Sublist ((match conf.RelayInfo with
      | some relayInfo => [(⟨OptionRelayAgentInformation, relayInfo⟩ : Option4)]
      | none => []).map (fun o : Option4 => o.Code)) [OptionRelayAgentInformation] := by
    cases conf.RelayInfo with
    | none => exact List.nil_sublist _
    | some ri => exact List.Sublist.refl _
  have hcli : List.Sublist ((if conf.ClientIP ≠ none then []
      else [(⟨OptionIPv6Only, GetOptUint32 60⟩ : Option4)]).map (fun o : Option4 => o.Code))
      [OptionIPv6Only] := by
    by_cases h : conf.ClientIP ≠ none
    · rw [if_pos h]
      exact List.nil_sublist _
    · rw [if_neg h]
      exact List.Sublist.refl _
  unfold replyOptions4
  simp only [List.map_append]
  exact ((((((((((codes_ite_singleton _ _ _).append (codes_ite_singleton _ _ _)).append
    (codes_ite_singleton _ _ _)).append (codes_ite_singleton _ _ _)).append
    (codes_ite_singleton _ _ _)).append (codes_ite_singleton _ _ _)).append
    (codes_ite_singleton _ _ _)).append (codes_ite_singleton _ _ _)).append hrelay).append
    hcli)

/-- C35: the option list every reply of `MakeReplyPacket` was handed to
`ReplyPacket` with is the list of lines 158-193: its codes appear in the
order 1, 3, 15, 28, 12, 6, 42, 26, 82, 108, each at most once; an option is
in the list exactly when it is SubnetMask(1) = `GetOptIP(conf.SubnetMask)`
with a mask set, Router(3) = `GetOptIP(conf.Gateway)` with a gateway set,
DomainName(15) = `conf.Domain` non-empty, BroadcastAddress(28), HostName(12),
DomainNameServer(6) = `GetOptIPs(conf.DNSServers)` with a non-empty list,
NTP(42) likewise, MTU(26) = `GetOptUint16(conf.MTU)` with `MTU > 0`,
RelayAgentInformation(82) = `conf.RelayInfo` when set, or the option 108 of
an unset `ClientIP`. The mask and the gateway are written as 4 bytes when
they have an IPv4 form. So a reply built from a config with mask, gateway and
DNS servers holds options 1, 3 and 6 with the values of the config; a reply
is returned whenever every configured route packs. -/
theorem C35_reply_options (pkt : Packet4) (conf : ResponseConfig) :
    (∀ r c, MakeReplyPacket pkt conf = .ok (r, c) →
      r.MsgType = replyMsgType pkt conf ∧
      r.Opts = replyOptions4 conf ∧
      List.Sublist (r.Opts.map (fun o => o.Code)) [1, 3, 15, 28, 12, 6, 42, 26, 82, 108] ∧
      (∀ o, o ∈ r.Opts ↔
        (conf.SubnetMask ≠ none ∧ o = ⟨1, GetOptIP conf.SubnetMask⟩) ∨
        (conf.Gateway ≠ none ∧ o = ⟨3, GetOptIP conf.Gateway⟩) ∨
        (conf.Domain ≠ [] ∧ o = ⟨15, conf.Domain⟩) ∨
        (conf.BroadcastAddr ≠ none ∧ o = ⟨28, GetOptIP conf.BroadcastAddr⟩) ∨
        (conf.Hostname ≠ [] ∧ o = ⟨12, conf.Hostname⟩) ∨
        (conf.DNSServers ≠ [] ∧ o = ⟨6, GetOptIPs conf.DNSServers⟩) ∨
        (conf.NTPServers ≠ [] ∧ o = ⟨42, GetOptIPs conf.NTPServers⟩) ∨
        (conf.MTU > 0 ∧ o = ⟨26, GetOptUint16 conf.MTU⟩) ∨
        (∃ relayInfo, conf.RelayInfo = some relayInfo ∧ o = ⟨82, relayInfo⟩) ∨
        (conf.ClientIP = none ∧ o = ⟨108, GetOptUint32 60⟩)) ∧
      (To4 conf.SubnetMask ≠ none → (GetOptIP conf.SubnetMask).length = 4) ∧
      (To4 conf.Gateway ≠ none → (GetOptIP conf.Gateway).length = 4) ∧
      (conf.SubnetMask ≠ none → conf.Gateway ≠ none → conf.DNSServers ≠ [] →
        (⟨1, GetOptIP conf.SubnetMask⟩ : Option4) ∈ r.Opts ∧
        (⟨3, GetOptIP conf.Gateway⟩ : Option4) ∈ r.Opts ∧
        (⟨6, GetOptIPs conf.DNSServers⟩ : Option4) ∈ r.Opts)) ∧
    ((∀ rt ∈ conf.Routes.getD [], ∃ b, getClasslessRoutePack rt = .ok b) →
      ∃ r c, MakeReplyPacket pkt conf = .ok (r, c)) := by
  constructor
  · intro r c h
    obtain ⟨_, hopts, _, _⟩ := MakeReplyPacket_parts pkt conf r c h
    have hmsg : r.MsgType = replyMsgType pkt conf := by
      obtain ⟨_, packs, _, hr⟩ := (makeDHCPReplyPacket_ok pkt conf _).1 r c h
      rw [hr]
      exact replyBeforeRoutes_MsgType pkt c _
    refine ⟨hmsg, hopts, ?_, ?_, GetOptIP_length _, GetOptIP_length _, ?_⟩
    · rw [hopts]
      exact replyOptions4_order conf
    · intro o
      rw [hopts]
      exact replyOptions4_mem conf o
    · intro h1 h3 h6
      rw [hopts]
      exact ⟨(replyOptions4_mem conf _).mpr (Or.inl ⟨h1, rfl⟩),
        (replyOptions4_mem conf _).mpr (Or.inr (Or.inl ⟨h3, rfl⟩)),
        (replyOptions4_mem conf _).mpr
          (Or.inr (Or.inr (Or.inr (Or.inr (Or.inr (Or.inl ⟨h6, rfl⟩))))))⟩
  · intro hall
    obtain ⟨r, hr⟩ := (makeDHCPReplyPacket_ok pkt conf (replyMsgType pkt conf)).2 hall
    exact ⟨r, _, hr⟩

/-- The ACK scenario: option 50 = 10.0.0.5 = `ClientIP`, with a mask, a
gateway and two DNS servers. -/
theorem C35_reply_options_witness :
    ∃ r c, MakeReplyPacket (request4 Request [(OptionRequestedIPAddress, [10, 0, 0, 5])])
        { zeroConf with
          ClientIP := some [10, 0, 0, 5],
          SubnetMask := some [255, 255, 255, 0],
          Gateway := some [10, 0, 0, 1],
          DNSServers := [some [8, 8, 8, 8], some [8, 8, 4, 4]] } = .ok (r, c) ∧
      r.MsgType = ACK ∧
      r.Opts = [⟨1, [255, 255, 255, 0]⟩, ⟨3, [10, 0, 0, 1]⟩, ⟨6, [8, 8, 8, 8, 8, 8, 4, 4]⟩] := by
  have h := C35_reply_options
    (request4 Request [(OptionRequestedIPAddress, [10, 0, 0, 5])])
    { zeroConf with
      ClientIP := some [10, 0, 0, 5],
      SubnetMask := some [255, 255, 255, 0],
      Gateway := some [10, 0, 0, 1],
      DNSServers := [some [8, 8, 8, 8], some [8, 8, 4, 4]] }
  obtain ⟨r, c, hrc⟩ := h.2 (by
    intro rt hrt
    exact absurd hrt (List.not_mem_nil rt))
  obtain ⟨hm, ho, _⟩ := h.1 r c hrc
  exact ⟨r, c, hrc, hm.trans (by decide), ho.trans (by decide)⟩

/-- C36: every reply `MakeReplyPacket` returns under a config whose
`ClientIP` is unset was built with the client address `net.ParseIP("0.0.0.0")`
and an option list that ends with option 108 holding `[0, 0, 0, 60]`, the
only option 108 of the list; every reply returned under a config whose
`ClientIP` is set was built with that address and holds no option 108, in
the list handed to `ReplyPacket` or among the options added later. A reply
is returned whenever every configured route packs. -/
theorem C36_ipv6_only_option (pkt : Packet4) (conf : ResponseConfig) :
    (∀ r c, MakeReplyPacket pkt conf = .ok (r, c) →
      (conf.ClientIP = none →
        r.ClientIP = parseIPZero ∧ To4 r.ClientIP = some [0, 0, 0, 0] ∧
        ∃ init, r.Opts = init ++ [⟨108, [0, 0, 0, 60]⟩] ∧ (∀ o ∈ init, o.Code ≠ 108) ∧
          ∀ o ∈ r.Added, o.Code ≠ 108) ∧
      (conf.ClientIP ≠ none →
        r.ClientIP = conf.ClientIP ∧ ∀ o ∈ r.Opts ++ r.Added, o.Code ≠ 108)) ∧
    ((∀ rt ∈ conf.Routes.getD [], ∃ b, getClasslessRoutePack rt = .ok b) →
      ∃ r c, MakeReplyPacket pkt conf = .ok (r, c)) := by
  constructor
  · intro r c h
    obtain ⟨_, hopts, hcli, hadd⟩ := MakeReplyPacket_parts pkt conf r c h
    have hadded : ∀ o ∈ r.Added, o.Code ≠ 108 := by
      intro o ho
      rcases hadd o ho with h1 | h1 | h1 | h1 | h1 | h1 <;> rw [h1] <;> decide
    constructor
    · intro hn
      have hci : r.ClientIP = parseIPZero := by
        rw [hcli]
        unfold replyClientIP
        rw [if_neg (by simp [hn])]
      refine ⟨hci, by rw [hci]; decide, ?_⟩
      have hlast : (if conf.ClientIP ≠ none then []
          else [(⟨OptionIPv6Only, GetOptUint32 60⟩ : Option4)])
          = [⟨108, [0, 0, 0, 60]⟩] := by
        rw [if_neg (by simp [hn])]
        rfl
      refine ⟨_, by rw [hopts]; unfold replyOptions4; rw [hlast], ?_, hadded⟩
      intro o ho
      have hnd : ((replyOptions4 conf).map (fun o => o.Code)).Nodup :=
        List.Nodup.sublist (replyOptions4_order conf) (by decide)
      unfold replyOptions4 at hnd
      rw [hlast, List.map_append] at hnd
      intro hc
      exact (List.nodup_append.mp hnd).2.2 (List.mem_map_of_mem (fun o => o.Code) ho)
        (by rw [hc]; exact List.mem_singleton.mpr rfl)
    · intro hs
      refine ⟨by rw [hcli]; unfold replyClientIP; rw [if_pos hs], ?_⟩
      intro o ho
      rcases List.mem_append.mp ho with h1 | h1
      · rw [hopts] at h1
        rcases (replyOptions4_mem conf o).mp h1 with
          h2 | h2 | h2 | h2 | h2 | h2 | h2 | h2 | h2 | h2
        · rw [h2.2]; dsimp only; decide
        · rw [h2.2]; dsimp only; decide
        · rw [h2.2]; dsimp only; decide
        · rw [h2.2]; dsimp only; decide
        · rw [h2.2]; dsimp only; decide
        · rw [h2.2]; dsimp only; decide
        · rw [h2.2]; dsimp only; decide
        · rw [h2.2]; dsimp only; decide
        · obtain ⟨ri, _, h3⟩ := h2
          rw [h3]; dsimp only; decide
        · exact absurd h2.1 hs
      · exact hadded o h1
  · intro hall
    obtain ⟨r, hr⟩ := (makeDHCPReplyPacket_ok pkt conf (replyMsgType pkt conf)).2 hall
    exact ⟨r, _, hr⟩

theorem C36_ipv6_only_option_witness :
    (∃ r c, MakeReplyPacket (request4 Discover []) { zeroConf with Gateway := some [10, 9, 8, 1] }
        = .ok (r, c) ∧
      r.ClientIP = parseIPZero ∧
      ∃ init, r.Opts = init ++ [⟨108, [0, 0, 0, 60]⟩] ∧ ∀ o ∈ init, o.Code ≠ 108) ∧
    (∃ r c, MakeReplyPacket (request4 Discover [])
        { zeroConf with ClientIP := some [10, 9, 8, 7] } = .ok (r, c) ∧
      r.ClientIP = some [10, 9, 8, 7] ∧ ∀ o ∈ r.Opts ++ r.Added, o.Code ≠ 108) := by
  have h1 := C36_ipv6_only_option (request4 Discover [])
    { zeroConf with Gateway := some [10, 9, 8, 1] }
  have h2 := C36_ipv6_only_option (request4 Discover [])
    { zeroConf with ClientIP := some [10, 9, 8, 7] }
  obtain ⟨r1, c1, e1⟩ := h1.2 (fun rt hrt => absurd hrt (List.not_mem_nil rt))
  obtain ⟨r2, c2, e2⟩ := h2.2 (fun rt hrt => absurd hrt (List.not_mem_nil rt))
  obtain ⟨ha, _, init, hb, hc, _⟩ := (h1.1 r1 c1 e1).1 rfl
  obtain ⟨hd, he⟩ := (h2.1 r2 c2 e2).2 (by decide)
  exact ⟨⟨r1, c1, e1, ha, init, hb, hc⟩, ⟨r2, c2, e2, hd, he⟩⟩

/-! ## The configuration after a v4 reply -/

/-- C37 (amended): `MakeReplyPacket` changes no field of the config other
than `OsName`: the config a call leaves is the one it was given with `OsName`
set to `"win"` when `OsName` was empty and the Vendor Class Identifier of the
request starts with `"MSFT "`, and with `OsName` as it was otherwise. For a
config whose `OsName` is not empty, or a request whose vendor class does not
start with `"MSFT "`, the config is left as it was and a later call, with any
request, gives what it gives on a fresh copy of the config. -/
theorem C37_config_after_call (pkt : Packet4) (conf : ResponseConfig) :
    (∀ r c, MakeReplyPacket pkt conf = .ok (r, c) →
      c = { conf with OsName :=
        if conf.OsName = [] ∧ HasPrefix (getPacketVendorClassId pkt) strMSFT = true
        then strWin else conf.OsName } ∧
      (conf.OsName ≠ [] ∨ HasPrefix (getPacketVendorClassId pkt) strMSFT = false →
        c = conf ∧ ∀ pkt2, MakeReplyPacket pkt2 c = MakeReplyPacket pkt2 conf) ∧
      (conf.OsName = [] → HasPrefix (getPacketVendorClassId pkt) strMSFT = true →
        c.OsName = strWin ∧ c ≠ conf)) ∧
    ((∀ rt ∈ conf.Routes.getD [], ∃ b, getClasslessRoutePack rt = .ok b) →
      ∃ r c, MakeReplyPacket pkt conf = .ok (r, c)) := by
  constructor
  · intro r c h
    obtain ⟨hc, _⟩ := MakeReplyPacket_parts pkt conf r c h
    rw [setOsName_eq] at hc
    refine ⟨hc, ?_, ?_⟩
    · intro hcond
      have e : c = conf := by
        rw [hc, if_neg]
        rintro ⟨h0, hv⟩
        rcases hcond with h1 | h1
        · exact h1 h0
        · rw [hv] at h1
          exact absurd h1 (by decide)
      exact ⟨e, fun pkt2 => by rw [e]⟩
    · intro h0 hv
      have e : c.OsName = strWin := by
        rw [hc, if_pos ⟨h0, hv⟩]
      refine ⟨e, ?_⟩
      intro hcc
      rw [hcc, h0] at e
      exact absurd e (by decide)
  · intro hall
    obtain ⟨r, hr⟩ := (makeDHCPReplyPacket_ok pkt conf (replyMsgType pkt conf)).2 hall
    exact ⟨r, _, hr⟩

theorem C37_config_after_call_witness :
    ∃ r c, MakeReplyPacket (request4 Discover [(OptionVendorClassIdentifier,
          [77, 83, 70, 84, 32, 57, 56])])
        { zeroConf with OsName := [76, 105, 110, 117, 120] } = .ok (r, c) ∧
      c = { zeroConf with OsName := [76, 105, 110, 117, 120] } := by
  have h := C37_config_after_call
    (request4 Discover [(OptionVendorClassIdentifier, [77, 83, 70, 84, 32, 57, 56])])
    { zeroConf with OsName := [76, 105, 110, 117, 120] }
  obtain ⟨r, c, hrc⟩ := h.2 (fun rt hrt => absurd hrt (List.not_mem_nil rt))
  exact ⟨r, c, hrc, ((h.1 r c hrc).2.1 (Or.inl (by decide))).1⟩

/-- C37 as stated fails: a request whose vendor class starts with `"MSFT "`
leaves `OsName = "win"` in a config whose `OsName` was empty, and a later
request without a vendor class then gets its route under code 249, while on a
fresh copy of the config it gets it under code 121. -/
theorem C37_config_after_call_counterexample :
    (MakeReplyPacket (request4 Discover [(OptionVendorClassIdentifier,
          [77, 83, 70, 84, 32, 57, 56])])
        { zeroConf with
          Routes := some [⟨some [172, 16, 0, 0], 12, some [10, 1, 1, 1]⟩] }).map
      (fun x => x.2)
      = .ok { zeroConf with
          OsName := strWin,
          Routes := some [⟨some [172, 16, 0, 0], 12, some [10, 1, 1, 1]⟩] } ∧
    (MakeReplyPacket (request4 Discover [])
        { zeroConf with
          OsName := strWin,
          Routes := some [⟨some [172, 16, 0, 0], 12, some [10, 1, 1, 1]⟩] }).map
      (fun x => x.1.Added) = .ok [⟨249, [12, 172, 16, 10, 1, 1, 1]⟩] ∧
    (MakeReplyPacket (request4 Discover [])
        { zeroConf with
          Routes := some [⟨some [172, 16, 0, 0], 12, some [10, 1, 1, 1]⟩] }).map
      (fun x => x.1.Added) = .ok [⟨121, [12, 172, 16, 10, 1, 1, 1]⟩] := by
  decide

/-! ## Failure of the v4 reply builder -/

/-- A route whose prefix has an IPv4 form packs, whatever its mask length. -/
theorem getClasslessRoutePack_of_prefix (route : SRouteInfo) (h : To4 route.Prefix ≠ none) :
    ∃ b, getClasslessRoutePack route = .ok b := by
  obtain ⟨net, hnet⟩ := Option.ne_none_iff_exists'.mp h
  have hnl := To4_length _ _ hnet
  have hp : route.Prefix ≠ none := by
    intro h0
    rw [h0, To4_none] at hnet
    exact absurd hnet (by simp)
  simp only [getClasslessRoutePack, hp, hnet, ne_eq, not_false_eq_true, if_true, IP.bytes,
    Option.getD_some, bind, Except.bind, pure, Except.pure]
  generalize (if route.PrefixLen % 8 > 0 then (route.PrefixLen / 8 + 1) % 256
    else route.PrefixLen / 8) = n
  by_cases h4 : n < 4
  · rw [if_pos h4, slice_zero _ _ (by omega)]
    exact ⟨_, rfl⟩
  · rw [if_neg h4]
    exact ⟨_, rfl⟩

/-- The only failure of `getClasslessRoutePack` is the slice out of range. -/
theorem getClasslessRoutePack_error (route : SRouteInfo) (e : Err)
    (h : getClasslessRoutePack route = .error e) : e = .Panic := by
  simp only [getClasslessRoutePack, bind, Except.bind, pure, Except.pure] at h
  generalize (if route.PrefixLen % 8 > 0 then (route.PrefixLen / 8 + 1) % 256
    else route.PrefixLen / 8) = n at h
  generalize (if route.Prefix ≠ none then To4 route.Prefix else route.Prefix).bytes = na at h
  by_cases h4 : n < 4
  · rw [if_pos h4] at h
    cases hs : slice na 0 n with
    | error e2 =>
      rw [hs] at h
      rw [← Except.error.inj h]
      exact slice_error _ _ _ _ hs
    | ok v =>
      rw [hs] at h
      exact absurd h (by simp)
  · rw [if_neg h4] at h
    exact absurd h (by simp)

theorem foldlM_routes_error (code : OptionCode) (routes : List SRouteInfo) (resp : Reply4)
    (e : Err)
    (h : routes.foldlM (fun resp route => do
          let routeBytes ← getClasslessRoutePack route
          pure (AddOption resp code routeBytes)) resp = .error e) : e = .Panic := by
  induction routes generalizing resp with
  | nil => simp [List.foldlM, pure, Except.pure] at h
  | cons rt rts ih =>
    rw [List.foldlM_cons] at h
    cases hp : getClasslessRoutePack rt with
    | error e2 =>
      simp only [hp, bind, Except.bind] at h
      rw [← Except.error.inj h]
      exact getClasslessRoutePack_error rt e2 hp
    | ok b =>
      simp only [hp, bind, Except.bind, pure, Except.pure] at h
      exact ih _ h

/-- `MakeReplyPacket` has no error of its own: when it does not return a
reply, a route slice was out of range. -/
theorem MakeReplyPacket_error (pkt : Packet4) (conf : ResponseConfig) (e : Err)
    (h : MakeReplyPacket pkt conf = .error e) : e = .Panic := by
  simp only [MakeReplyPacket, makeDHCPReplyPacket, bind, Except.bind, pure, Except.pure] at h
  split at h
  · next e2 heq =>
    rw [← Except.error.inj h]
    unfold addRoutes at heq
    split at heq
    · exact absurd heq (by simp [pure, Except.pure])
    · exact foldlM_routes_error _ _ _ _ heq
  · exact absurd h (by simp)

/-- With an ORO option that decodes (or none) and a server MAC of at least 6
bytes, a request of a supported type with CLIENTID and without IA_NA is
answered with `InvalidFormat`. -/
theorem MakeDHCP6Reply_no_iana (pkt : Packet) (conf : ResponseConfig) (t : MessageType)
    (opts : List Option6) (cli : Option6) (ht : Type6 pkt = .ok t)
    (hsup : t = DHCPV6_SOLICIT ∨ t = DHCPV6_REQUEST ∨ t = DHCPV6_CONFIRM ∨ t = DHCPV6_RENEW ∨
      t = DHCPV6_REBIND ∨ t = DHCPV6_INFORMATION_REQUEST)
    (hopts : GetOption6s pkt = .ok opts) (hlog : logRequestOptions opts = .ok ())
    (hcli : getOption opts DHCPV6_OPTION_CLIENTID = some cli)
    (hiana : getOption opts DHCPV6_OPTION_IA_NA = none)
    (hmac : 6 ≤ conf.InterfaceMac.length) :
    MakeDHCP6Reply pkt conf = .error .InvalidFormat := by
  have hnr : t ≠ DHCPV6_RELAY_FORW ∧ t ≠ DHCPV6_RELAY_REPL := by
    rcases hsup with h | h | h | h | h | h <;> subst h <;> decide
  obtain ⟨tid, htid⟩ := TID6_of_options pkt t opts ht hnr hopts
    (getOption_some_ne_nil opts _ cli hcli)
  have hmk : ∀ m, makeDHCPReplyPacket6 pkt conf m = .error .InvalidFormat := by
    intro m
    simp only [makeDHCPReplyPacket6, replyOptions6, htid, hopts, hlog,
      hcli, makeServerId_ok _ hmac, hiana, bind, Except.bind]
  have hs := MakeDHCP6Reply_supported pkt conf t ht
  rcases hsup with h | h
  · rw [hs.1 h, hmk]
  · rw [hs.2.1 h, hmk]

/-- C38 (amended): for every request, whatever options it holds, and every
config each of whose routes has a prefix with an IPv4 form, `MakeReplyPacket`
returns a reply with a nil error; under any config it has no error of its
own. `MakeDHCP6Reply`, in contrast, fails with `InvalidFormat` on a request
of a supported type, whose options can be read and whose ORO option (if any)
has an even length, that lacks CLIENTID or, under a server MAC of at least 6
bytes, lacks IA_NA. -/
theorem C38_no_error_path (pkt : Packet4) (conf : ResponseConfig)
    (hroutes : ∀ rt ∈ conf.Routes.getD [], To4 rt.Prefix ≠ none) :
    (∃ r c, MakeReplyPacket pkt conf = .ok (r, c)) ∧
    (∀ (conf2 : ResponseConfig) (e : Err), MakeReplyPacket pkt conf2 = .error e → e = .Panic) ∧
    (∀ (pkt6 : Packet) (t : MessageType) (opts : List Option6),
      Type6 pkt6 = .ok t →
      (t = DHCPV6_SOLICIT ∨ t = DHCPV6_REQUEST ∨ t = DHCPV6_CONFIRM ∨ t = DHCPV6_RENEW ∨
        t = DHCPV6_REBIND ∨ t = DHCPV6_INFORMATION_REQUEST) →
      GetOption6s pkt6 = .ok opts →
      (∀ o, getOption opts DHCPV6_OPTION_ORO = some o → o.Value.length % 2 = 0) →
      (getOption opts DHCPV6_OPTION_CLIENTID = none ∨
        (6 ≤ conf.InterfaceMac.length ∧ getOption opts DHCPV6_OPTION_IA_NA = none)) →
      MakeDHCP6Reply pkt6 conf = .error .InvalidFormat) := by
  refine ⟨?_, fun conf2 e h => MakeReplyPacket_error pkt conf2 e h, ?_⟩
  · obtain ⟨r, hr⟩ := (makeDHCPReplyPacket_ok pkt conf (replyMsgType pkt conf)).2
      (fun rt hrt => getClasslessRoutePack_of_prefix rt (hroutes rt hrt))
    exact ⟨r, _, hr⟩
  · intro pkt6 t opts ht hsup hopts horo hmiss
    have hlog := logRequestOptions_ok opts horo
    cases hcli : getOption opts DHCPV6_OPTION_CLIENTID with
    | none => exact MakeDHCP6Reply_no_clientid pkt6 conf t opts ht hsup hopts hlog hcli
    | some cli =>
      rcases hmiss with h | ⟨hmac, hiana⟩
      · rw [hcli] at h
        exact absurd h (by simp)
      · exact MakeDHCP6Reply_no_iana pkt6 conf t opts cli ht hsup hopts hlog hcli hiana hmac

theorem C38_no_error_path_witness :
    ∃ r c, MakeReplyPacket (request4 0 [])
        { zeroConf with
          InterfaceMac := [2, 0, 0, 0, 0, 1],
          Routes := some [⟨some [192, 168, 0, 0], 16, none⟩] } = .ok (r, c) :=
  (C38_no_error_path (request4 0 [])
    { zeroConf with
      InterfaceMac := [2, 0, 0, 0, 0, 1],
      Routes := some [⟨some [192, 168, 0, 0], 16, none⟩] }
    (by
      intro rt hrt
      have e : rt = ⟨some [192, 168, 0, 0], 16, none⟩ := by simpa using hrt
      rw [e]
      decide)).1

/-- C38 as stated fails under a config with a route whose prefix has no IPv4
form: for the route fd00::/8 the first byte of a nil prefix is sliced and no
reply is returned. -/
theorem C38_no_error_path_counterexample :
    getClasslessRoutePack ⟨some (253 :: List.replicate 15 0), 8, some [10, 0, 0, 1]⟩
      = .error .Panic ∧
    (MakeReplyPacket (request4 Discover [])
        { zeroConf with
          Routes := some [⟨some (253 :: List.replicate 15 0), 8, some [10, 0, 0, 1]⟩] }).map
      (fun x => x.1.Added) = .error .Panic := by
  decide

/-! ## The v6 reply read back -/

theorem beUint16_lt (l : Bytes) (h : ∀ b ∈ l, b < 256) (hl : l.length = 2) :
    beUint16 l < 65536 := by
  match l, hl with
  | [a, b], _ =>
    have ha := h a (by simp)
    have hb := h b (by simp)
    simp only [beUint16, List.getD_cons_zero, List.getD_cons_succ]
    omega

theorem slice_mem (p : Bytes) (a b : Nat) (v : Bytes) (h : slice p a b = .ok v) :
    ∀ x ∈ v, x ∈ p := by
  have hle := slice_ok_le p a b v h
  unfold slice at h
  rw [if_pos hle] at h
  rw [← Except.ok.inj h]
  intro x hx
  exact List.mem_of_mem_drop (List.mem_of_mem_take hx)

/-- On a packet of bytes, every option the parsing loop returns beyond those
it started with has a 16-bit code and a value of at most 65535 bytes. -/
theorem getOption6sLoop_valid (p : Packet) (hp : ∀ b ∈ p, b < 256) (fuel i : Nat)
    (acc opts : List Option6) (h : getOption6sLoop p fuel i acc = .ok opts)
    (hacc : ValidOptions acc) : ValidOptions opts := by
  induction fuel generalizing i acc with
  | zero => simp [getOption6sLoop] at h
  | succ f ih =>
    rw [getOption6sLoop] at h
    by_cases hlt : i < p.length
    · rw [if_pos hlt] at h
      simp only [bind, Except.bind] at h
      cases ha : slice p i (i + 2) with
      | error e => simp [ha] at h
      | ok c =>
        simp only [ha] at h
        cases hb : slice p (i + 2) (i + 4) with
        | error e => simp [hb] at h
        | ok l =>
          simp only [hb] at h
          cases hc : slice p (i + 4) (i + 4 + beUint16 l) with
          | error e => simp [hc] at h
          | ok v =>
            simp only [hc] at h
            have hcl := slice_ok_length _ _ _ _ ha
            have hll := slice_ok_length _ _ _ _ hb
            have hvl := slice_ok_length _ _ _ _ hc
            have h1 := beUint16_lt c (fun x hx => hp x (slice_mem _ _ _ _ ha x hx)) (by omega)
            have h2 := beUint16_lt l (fun x hx => hp x (slice_mem _ _ _ _ hb x hx)) (by omega)
            apply ih _ _ h
            intro o ho
            rcases List.mem_append.mp ho with h3 | h3
            · exact hacc o h3
            · rw [List.mem_singleton] at h3
              subst h3
              dsimp only
              exact ⟨h1, by omega⟩
    · rw [if_neg hlt] at h
      rw [← Except.ok.inj h]
      exact hacc

theorem GetOption6s_valid (p : Packet) (hp : ∀ b ∈ p, b < 256) (opts : List Option6)
    (h : GetOption6s p = .ok opts) : ValidOptions opts := by
  simp only [GetOption6s, bind, Except.bind] at h
  cases hr : IsRelayMsg p with
  | error e => simp [hr] at h
  | ok r =>
    simp only [hr] at h
    exact getOption6sLoop_valid p hp _ _ [] opts h (fun o ho => absurd ho (List.not_mem_nil o))

/-- The IA_NA option of the reply has a value of 53 bytes: the 12-byte head,
and an IAADDR option of 24 bytes with a status code option of 9 bytes. -/
theorem ianaOption_length (conf : ResponseConfig) (v : Bytes) :
    (ianaOption conf v).Code = DHCPV6_OPTION_IA_NA ∧ (ianaOption conf v).Value.length = 53 := by
  refine ⟨rfl, ?_⟩
  unfold ianaOption
  dsimp only
  obtain ⟨head, hl, e⟩ := responseIANA_head v [⟨DHCPV6_OPTION_IAADDR,
    makeIAAddr conf.ClientIP6 (secondsUint32 conf.LeaseTime / 2) (secondsUint32 conf.LeaseTime)
      [⟨DHCPV6_OPTION_STATUS_CODE, [0, 0, 83, 117, 99, 99, 101, 115, 115]⟩]⟩]
  rw [e]
  simp only [List.length_append, hl, optionsToBytes_cons, optionsToBytes_nil,
    optionToBytes_length, makeIAAddr, copyInto_length, List.length_replicate, putUint32_length,
    List.length_cons, List.length_nil]

theorem serverOptions6_valid (conf : ResponseConfig) (hdns : conf.DNSServers6.length ≤ 4095)
    (hntp : conf.NTPServers6.length ≤ 4095) : ValidOptions (serverOptions6 conf) := by
  have hlen : ∀ ips : List IP, ips.length ≤ 4095 → (makeIPv6s ips).length ≤ 65535 := by
    intro ips h
    rw [makeIPv6s_length]
    have := List.length_filter_le (fun ip => (To16 ip).isSome) ips
    omega
  intro o ho
  rcases (serverOptions6_mem conf o).mp ho with ⟨_, h⟩ | ⟨_, h⟩
  · rw [h]
    exact ⟨(by decide : OPTION_DNS_SERVERS < 65536), hlen _ hdns⟩
  · rw [h]
    exact ⟨(by decide : OPTION_SNTP_SERVERS < 65536), hlen _ hntp⟩

theorem serverOptions6_map_codes (conf : ResponseConfig) :
    (serverOptions6 conf).map (fun o => o.Code)
      = (if conf.DNSServers6 ≠ [] then [OPTION_DNS_SERVERS] else [])
        ++ (if conf.NTPServers6 ≠ [] then [OPTION_SNTP_SERVERS] else []) := by
  have hd : conf.DNSServers6.length > 0 ↔ conf.DNSServers6 ≠ [] := by
    rw [gt_iff_lt, List.length_pos]
  have hn : conf.NTPServers6.length > 0 ↔ conf.NTPServers6 ≠ [] := by
    rw [gt_iff_lt, List.length_pos]
  unfold serverOptions6
  rw [List.map_append]
  by_cases h1 : conf.DNSServers6 ≠ [] <;> by_cases h2 : conf.NTPServers6 ≠ [] <;>
    simp only [h1, h2, hd, hn, if_true, if_false, not_false_eq_true, List.map_cons,
      List.map_nil, ne_eq, not_true_eq_false]

/-- The transaction id of a non-relay packet of bytes fits 24 bits, and a
header built from it holds it unchanged. -/
theorem TID6_nonrelay_lt (pkt : Packet) (hp : ∀ b ∈ pkt, b < 256) (t : MessageType) (tid : Nat)
    (ht : Type6 pkt = .ok t) (hnr : t ≠ DHCPV6_RELAY_FORW ∧ t ≠ DHCPV6_RELAY_REPL)
    (htid : TID6 pkt = .ok tid) : tid < 16777216 := by
  rw [TID6_nonrelay pkt t ht hnr] at htid
  split at htid
  · exact absurd htid (by simp)
  · next hlen =>
    match pkt, hp, hlen with
    | a :: b :: c :: d :: rest, hp, _ =>
      have hb := hp b (by simp)
      have hc := hp c (by simp)
      have hd := hp d (by simp)
      rw [← Except.ok.inj htid]
      simp only [beUint32, List.getD_cons_zero, List.getD_cons_succ]
      omega
    | [a, b, c], _, hlen => exact absurd hlen (by simp)
    | [a, b], _, hlen => exact absurd hlen (by simp)
    | [a], _, hlen => exact absurd hlen (by simp)
    | [], _, hlen => exact absurd hlen (by simp)

/-- A reply header followed by encoded options reads back: type, transaction
id and options. -/
theorem reply_readback (m tid : Nat) (options : List Option6)
    (hm : m ≠ DHCPV6_RELAY_FORW ∧ m ≠ DHCPV6_RELAY_REPL) (htid : tid < 16777216)
    (hv : ValidOptions options) :
    NewPacket6 m tid ++ optionsToBytes options
      = [m, tid / 65536, tid / 256 % 256, tid % 256] ++ optionsToBytes options ∧
    Type6 (NewPacket6 m tid ++ optionsToBytes options) = .ok m ∧
    TID6 (NewPacket6 m tid ++ optionsToBytes options) = .ok tid ∧
    GetOption6s (NewPacket6 m tid ++ optionsToBytes options) = .ok options := by
  have e : tid / 65536 % 256 = tid / 65536 := by omega
  refine ⟨by rw [NewPacket6_eq, e], rfl, ?_, ?_⟩
  · rw [NewPacket6_eq]
    have := TID6_leaf m (tid / 65536 % 256) (tid / 256 % 256) (tid % 256)
      (optionsToBytes options) hm
    simp only [List.cons_append, List.nil_append]
    rw [this]
    simp only [beUint32, List.getD_cons_zero, List.getD_cons_succ]
    exact congrArg Except.ok (by omega)
  · rw [NewPacket6_eq]
    apply GetOption6s_header m _ options _ hv
    rw [if_neg (by simp only [not_or]; exact hm)]
    rfl

/-- The options of a reply fit the wire format when the echoed client id
does and neither server list has more than 4095 addresses. -/
theorem replyOptions_valid (conf : ResponseConfig) (cli iana : Bytes) (last : List Option6)
    (hcli : cli.length ≤ 65535) (hdns : conf.DNSServers6.length ≤ 4095)
    (hntp : conf.NTPServers6.length ≤ 4095) (hlast : ValidOptions last) :
    ValidOptions ([⟨DHCPV6_OPTION_CLIENTID, cli⟩,
      ⟨DHCPV6_OPTION_SERVERID, [0, 3, 0, 1] ++ conf.InterfaceMac.take 6⟩,
      ianaOption conf iana] ++ serverOptions6 conf ++ last) := by
  intro o ho
  rcases List.mem_append.mp ho with h1 | h1
  · rcases List.mem_append.mp h1 with h2 | h2
    · simp only [List.mem_cons, List.mem_singleton, List.not_mem_nil, or_false] at h2
      rcases h2 with h | h | h
      · rw [h]
        exact ⟨(by decide : DHCPV6_OPTION_CLIENTID < 65536), hcli⟩
      · rw [h]
        refine ⟨(by decide : DHCPV6_OPTION_SERVERID < 65536), ?_⟩
        have := List.length_take_le 6 conf.InterfaceMac
        simp only [List.length_append, List.length_cons, List.length_nil]
        omega
      · rw [h, (ianaOption_length conf iana).1, (ianaOption_length conf iana).2]
        exact ⟨by decide, by decide⟩
    · exact serverOptions6_valid conf hdns hntp o h2
  · exact hlast o h1

/-- C39 (amended): for every request, a sequence of bytes, on which
`MakeDHCP6Reply` succeeds under a config with at most 4095 DNS and at most
4095 SNTP servers, the reply is a 4-byte header holding the chosen message
type and the 24-bit transaction id of the request, followed by options that
`GetOption6s` reads back, with type and transaction id read back as well; the
codes of the options are exactly CLIENTID(1), SERVERID(2), IA_NA(3), then
DNS_SERVERS(23) if `DNSServers6` is not empty, then SNTP_SERVERS(31) if
`NTPServers6` is not empty, then RAPID_COMMIT(14) if the request is a SOLICIT
with RAPID_COMMIT, in that order. -/
theorem C39_reply_layout (pkt : Packet) (conf : ResponseConfig) (reply : Packet)
    (hbytes : ∀ b ∈ pkt, b < 256)
    (hdns : conf.DNSServers6.length ≤ 4095) (hntp : conf.NTPServers6.length ≤ 4095)
    (hok : MakeDHCP6Reply pkt conf = .ok reply) :
    ∃ t tid reqOpts m options,
      Type6 pkt = .ok t ∧ TID6 pkt = .ok tid ∧ GetOption6s pkt = .ok reqOpts ∧
      tid < 16777216 ∧
      m = (if t = DHCPV6_SOLICIT ∧ getOption reqOpts DHCPV6_OPTION_RAPID_COMMIT = none
        then DHCPV6_ADVERTISE else DHCPV6_REPLY) ∧
      reply = [m, tid / 65536, tid / 256 % 256, tid % 256] ++ optionsToBytes options ∧
      Type6 reply = .ok m ∧ TID6 reply = .ok tid ∧
      GetOption6s reply = .ok options ∧
      options.map (fun o => o.Code) = [1, 2, 3]
        ++ (if conf.DNSServers6 ≠ [] then [23] else [])
        ++ (if conf.NTPServers6 ≠ [] then [31] else [])
        ++ (if t = DHCPV6_SOLICIT ∧ getOption reqOpts DHCPV6_OPTION_RAPID_COMMIT ≠ none
            then [14] else []) := by
  obtain ⟨t, tid, reqOpts, cli, iana, ht, htid, hopts, hcli, hiana, hmac, hr⟩ :=
    MakeDHCP6Reply_shape pkt conf reply hok
  have hnr : t ≠ DHCPV6_RELAY_FORW ∧ t ≠ DHCPV6_RELAY_REPL := by
    have hs := (MakeDHCP6Reply_supported pkt conf t ht).2.2
    constructor
    · intro h
      rw [hs (by rw [h]; decide)] at hok
      exact absurd hok (by simp)
    · intro h
      rw [hs (by rw [h]; decide)] at hok
      exact absurd hok (by simp)
  have htl := TID6_nonrelay_lt pkt hbytes t tid ht hnr htid
  have hcv : cli.Value.length ≤ 65535 :=
    (GetOption6s_valid pkt hbytes reqOpts hopts cli (List.mem_of_find?_eq_some hcli)).2
  rcases hr with ⟨h1, h2, hr⟩ | ⟨h1, hr⟩
  · have hv := replyOptions_valid conf cli.Value iana.Value [⟨DHCPV6_OPTION_RAPID_COMMIT, []⟩]
      hcv hdns hntp (by decide)
    obtain ⟨e1, e2, e3, e4⟩ := reply_readback DHCPV6_REPLY tid _ (by decide) htl hv
    refine ⟨t, tid, reqOpts, DHCPV6_REPLY, _, ht, htid, hopts, htl, ?_, by rw [hr, e1],
      by rw [hr, e2], by rw [hr, e3], by rw [hr, e4], ?_⟩
    · rw [if_neg (fun h => h2 h.2)]
    · rw [if_pos (⟨h1, h2⟩ : t = DHCPV6_SOLICIT ∧
          getOption reqOpts DHCPV6_OPTION_RAPID_COMMIT ≠ none),
        List.map_append, List.map_append, serverOptions6_map_codes]
      simp only [List.append_assoc]
      rfl
  · have hv := replyOptions_valid conf cli.Value iana.Value [] hcv hdns hntp
      (fun o ho => absurd ho (List.not_mem_nil o))
    rw [List.append_nil] at hv
    have hm : (if t = DHCPV6_SOLICIT then DHCPV6_ADVERTISE else DHCPV6_REPLY)
        ≠ DHCPV6_RELAY_FORW ∧
        (if t = DHCPV6_SOLICIT then DHCPV6_ADVERTISE else DHCPV6_REPLY)
        ≠ DHCPV6_RELAY_REPL := by
      split <;> decide
    obtain ⟨e1, e2, e3, e4⟩ := reply_readback _ tid _ hm htl hv
    refine ⟨t, tid, reqOpts, _, _, ht, htid, hopts, htl, ?_, by rw [hr, e1],
      by rw [hr, e2], by rw [hr, e3], by rw [hr, e4], ?_⟩
    · by_cases hs : t = DHCPV6_SOLICIT
      · have hn : getOption reqOpts DHCPV6_OPTION_RAPID_COMMIT = none := by
          by_contra hc
          exact h1 ⟨hs, hc⟩
        rw [if_pos hs, if_pos ⟨hs, hn⟩]
      · rw [if_neg hs, if_neg (fun h => hs h.1)]
    · rw [if_neg h1, List.append_nil, List.map_append, serverOptions6_map_codes]
      simp only [List.append_assoc]
      rfl

theorem C39_reply_layout_witness :
    ∃ options,
      GetOption6s [7, 0, 1, 2, 0, 1, 0, 2, 9, 9, 0, 2, 0, 10, 0, 3, 0, 1, 2, 4, 6, 8, 10, 12,
        0, 3, 0, 53, 0, 0, 0, 1, 0, 0, 14, 16, 0, 0, 21, 24, 0, 5, 0, 37,
        32, 1, 13, 184, 0, 1, 0, 2, 0, 3, 0, 4, 0, 5, 0, 7, 0, 0, 14, 16, 0, 0, 28, 32,
        0, 13, 0, 9, 0, 0, 83, 117, 99, 99, 101, 115, 115,
        0, 23, 0, 16, 32, 1, 13, 184, 0, 1, 0, 2, 0, 3, 0, 4, 0, 5, 0, 53, 0, 14, 0, 0]
        = .ok options ∧
      options.map (fun o => o.Code) = [1, 2, 3, 23, 14] := by
  obtain ⟨t, tid, reqOpts, m, options, ht, _, hopts, _, _, _, _, _, hget, hcodes⟩ :=
    C39_reply_layout
      ([1, 0, 1, 2] ++ optionsToBytes
        [⟨1, [9, 9]⟩, ⟨3, [0, 0, 0, 1, 0, 0, 14, 16, 0, 0, 21, 24]⟩, ⟨14, []⟩])
      { zeroConf with
        InterfaceMac := [2, 4, 6, 8, 10, 12],
        ClientIP6 := some [32, 1, 13, 184, 0, 1, 0, 2, 0, 3, 0, 4, 0, 5, 0, 7],
        LeaseTime := 7200 * 1000000000,
        DNSServers6 := [some [32, 1, 13, 184, 0, 1, 0, 2, 0, 3, 0, 4, 0, 5, 0, 53]] }
      [7, 0, 1, 2, 0, 1, 0, 2, 9, 9, 0, 2, 0, 10, 0, 3, 0, 1, 2, 4, 6, 8, 10, 12,
        0, 3, 0, 53, 0, 0, 0, 1, 0, 0, 14, 16, 0, 0, 21, 24, 0, 5, 0, 37,
        32, 1, 13, 184, 0, 1, 0, 2, 0, 3, 0, 4, 0, 5, 0, 7, 0, 0, 14, 16, 0, 0, 28, 32,
        0, 13, 0, 9, 0, 0, 83, 117, 99, 99, 101, 115, 115,
        0, 23, 0, 16, 32, 1, 13, 184, 0, 1, 0, 2, 0, 3, 0, 4, 0, 5, 0, 53, 0, 14, 0, 0]
      (by decide) (by decide) (by decide) (by decide)
  have ht2 : Type6 ([1, 0, 1, 2] ++ optionsToBytes
      [⟨1, [9, 9]⟩, ⟨3, [0, 0, 0, 1, 0, 0, 14, 16, 0, 0, 21, 24]⟩, ⟨14, []⟩]) = .ok 1 := by
    decide
  have ho2 : GetOption6s ([1, 0, 1, 2] ++ optionsToBytes
      [⟨1, [9, 9]⟩, ⟨3, [0, 0, 0, 1, 0, 0, 14, 16, 0, 0, 21, 24]⟩, ⟨14, []⟩])
      = .ok [⟨1, [9, 9]⟩, ⟨3, [0, 0, 0, 1, 0, 0, 14, 16, 0, 0, 21, 24]⟩, ⟨14, []⟩] := by
    decide
  have et : t = 1 := Except.ok.inj (ht.symm.trans ht2)
  have eo : reqOpts = [⟨1, [9, 9]⟩, ⟨3, [0, 0, 0, 1, 0, 0, 14, 16, 0, 0, 21, 24]⟩, ⟨14, []⟩] :=
    Except.ok.inj (hopts.symm.trans ho2)
  subst et eo
  exact ⟨options, hget, hcodes.trans (by decide)⟩

theorem makeIPv6s_replicate_zero (n : Nat) :
    makeIPv6s (List.replicate n (some (List.replicate 16 0))) = List.replicate (16 * n) 0 := by
  induction n with
  | zero => rfl
  | succ n ih =>
    have h16 : (To16 (some (List.replicate 16 0))).bytes = List.replicate 16 0 := by decide
    rw [List.replicate_succ, makeIPv6s_cons, ih, h16, Nat.mul_succ, Nat.add_comm (16 * n) 16,
      List.replicate_add]

theorem replyHead_valid (conf : ResponseConfig) (cli iana : Bytes) (hcli : cli.length ≤ 65535) :
    ValidOptions [⟨DHCPV6_OPTION_CLIENTID, cli⟩,
      ⟨DHCPV6_OPTION_SERVERID, [0, 3, 0, 1] ++ conf.InterfaceMac.take 6⟩,
      ianaOption conf iana] := by
  intro o ho
  simp only [List.mem_cons, List.mem_singleton, List.not_mem_nil, or_false] at ho
  rcases ho with h | h | h
  · rw [h]
    exact ⟨(by decide : DHCPV6_OPTION_CLIENTID < 65536), hcli⟩
  · rw [h]
    refine ⟨(by decide : DHCPV6_OPTION_SERVERID < 65536), ?_⟩
    have := List.length_take_le 6 conf.InterfaceMac
    simp only [List.length_append, List.length_cons, List.length_nil]
    omega
  · rw [h, (ianaOption_length conf iana).1, (ianaOption_length conf iana).2]
    exact ⟨by decide, by decide⟩

/-- With DNS servers whose 16-byte forms fill exactly 65536 zero bytes, the
length field of the DNS_SERVERS option is written as 0: the reply reads back
as the three leading options, an empty DNS_SERVERS option, and one empty
option of code 0 for every 4 bytes of the addresses. -/
theorem MakeDHCP6Reply_dns_zeros (n k : Nat) (pkt : Packet) (conf : ResponseConfig)
    (opts : List Option6) (cli iana : Option6)
    (ht : Type6 pkt = .ok DHCPV6_REQUEST) (hopts : GetOption6s pkt = .ok opts)
    (hcli : getOption opts DHCPV6_OPTION_CLIENTID = some cli)
    (hcv : cli.Value.length ≤ 65535)
    (hiana : getOption opts DHCPV6_OPTION_IA_NA = some iana)
    (horo : getOption opts DHCPV6_OPTION_ORO = none)
    (hmac : 6 ≤ conf.InterfaceMac.length)
    (hdns : conf.DNSServers6 = List.replicate n (some (List.replicate 16 0)))
    (hntp : conf.NTPServers6 = [])
    (hn : 16 * n = 65536) (hk : 4 * k = 65536) :
    ∃ reply first, MakeDHCP6Reply pkt conf = .ok reply ∧ first.length = 3 ∧
      GetOption6s reply
        = .ok (first ++ ⟨OPTION_DNS_SERVERS, []⟩ :: List.replicate k ⟨0, []⟩) := by
  obtain ⟨tid, _, hmk⟩ := makeDHCPReplyPacket6_ok pkt conf DHCPV6_REPLY DHCPV6_REQUEST opts
    cli iana ht (by decide) hopts hcli hiana
    (fun o ho => by rw [horo] at ho; exact absurd ho (by simp)) hmac
  rw [if_neg (fun h => absurd h.1 (by decide))] at hmk
  have hsup := (MakeDHCP6Reply_supported pkt conf DHCPV6_REQUEST ht).2.1 (Or.inl rfl)
  have hso : serverOptions6 conf
      = [⟨OPTION_DNS_SERVERS, List.replicate (16 * n) 0⟩] := by
    unfold serverOptions6
    rw [hdns, hntp, makeIPv6s_replicate_zero, List.length_replicate, if_pos (by omega)]
    rfl
  have hbytes : optionsToBytes [(⟨OPTION_DNS_SERVERS, List.replicate (16 * n) 0⟩ : Option6)]
      = optionsToBytes (⟨OPTION_DNS_SERVERS, []⟩ :: List.replicate k ⟨0, []⟩) := by
    rw [optionsToBytes_cons, optionsToBytes_nil, optionsToBytes_cons,
      optionsToBytes_replicate_zero, hk, List.append_nil]
    simp only [optionToBytes, List.length_replicate, hn, List.length_nil, List.append_nil]
    rfl
  refine ⟨_, [⟨DHCPV6_OPTION_CLIENTID, cli.Value⟩,
    ⟨DHCPV6_OPTION_SERVERID, [0, 3, 0, 1] ++ conf.InterfaceMac.take 6⟩,
    ianaOption conf iana.Value], by rw [hsup, hmk], rfl, ?_⟩
  · rw [hso, optionsToBytes_append, hbytes, ← optionsToBytes_append, NewPacket6_eq]
    apply GetOption6s_header
    · rw [if_neg (by decide)]
      rfl
    · intro o ho
      rcases List.mem_append.mp ho with h | h
      · exact replyHead_valid conf cli.Value iana.Value hcv o h
      · rcases List.mem_cons.mp h with h2 | h2
        · rw [h2]
          exact ⟨by decide, by decide⟩
        · rw [List.eq_of_mem_replicate h2]
          exact ⟨by decide, by decide⟩

/-- C39 as stated fails under a config with 4096 DNS servers: the REQUEST is
answered, and the reply reads back as 16388 options, not as the four options
CLIENTID, SERVERID, IA_NA, DNS_SERVERS. -/
theorem C39_reply_layout_counterexample :
    ∃ reply opts,
      MakeDHCP6Reply ([3, 0, 0, 5] ++ optionsToBytes
          [⟨1, [7, 7]⟩, ⟨3, [0, 0, 0, 2, 0, 0, 14, 16, 0, 0, 21, 24]⟩])
        { zeroConf with
          InterfaceMac := [2, 4, 6, 8, 10, 12],
          DNSServers6 := List.replicate 4096 (some (List.replicate 16 0)) } = .ok reply ∧
      GetOption6s reply = .ok opts ∧ opts.length = 16388 ∧
      opts.map (fun o => o.Code) ≠ [1, 2, 3, 23] := by
  obtain ⟨reply, first, h1, h2, h3⟩ := MakeDHCP6Reply_dns_zeros 4096 16384
    ([3, 0, 0, 5] ++ optionsToBytes
      [⟨1, [7, 7]⟩, ⟨3, [0, 0, 0, 2, 0, 0, 14, 16, 0, 0, 21, 24]⟩])
    { zeroConf with
      InterfaceMac := [2, 4, 6, 8, 10, 12],
      DNSServers6 := List.replicate 4096 (some (List.replicate 16 0)) }
    [⟨1, [7, 7]⟩, ⟨3, [0, 0, 0, 2, 0, 0, 14, 16, 0, 0, 21, 24]⟩]
    ⟨1, [7, 7]⟩ ⟨3, [0, 0, 0, 2, 0, 0, 14, 16, 0, 0, 21, 24]⟩
    (by decide) (by decide) (by decide) (by decide) (by decide) (by decide) (by decide)
    rfl rfl (by decide) (by decide)
  have hlen : (first ++ (⟨OPTION_DNS_SERVERS, []⟩ : Option6)
      :: List.replicate 16384 ⟨0, []⟩).length = 16388 := by
    rw [List.length_append, List.length_cons, List.length_replicate, h2]
  refine ⟨reply, _, h1, h3, hlen, ?_⟩
  intro hc
  have h4 := congrArg List.length hc
  rw [List.length_map, hlen] at h4
  exact absurd h4 (by decide)

/-! ## The v6 reply as its reader sees it -/

/-- Every reply of `MakeDHCP6Reply` to a request of bytes, under a config
with at most 4095 DNS and 4095 SNTP servers, read back: type, transaction id
and option list. -/
theorem MakeDHCP6Reply_parsed (pkt : Packet) (conf : ResponseConfig) (reply : Packet)
    (hbytes : ∀ b ∈ pkt, b < 256)
    (hdns : conf.DNSServers6.length ≤ 4095) (hntp : conf.NTPServers6.length ≤ 4095)
    (hok : MakeDHCP6Reply pkt conf = .ok reply) :
    ∃ t tid reqOpts cli iana,
      Type6 pkt = .ok t ∧ TID6 pkt = .ok tid ∧ GetOption6s pkt = .ok reqOpts ∧
      getOption reqOpts DHCPV6_OPTION_CLIENTID = some cli ∧
      getOption reqOpts DHCPV6_OPTION_IA_NA = some iana ∧
      6 ≤ conf.InterfaceMac.length ∧
      Type6 reply = .ok
        (if t = DHCPV6_SOLICIT ∧ getOption reqOpts DHCPV6_OPTION_RAPID_COMMIT = none
          then DHCPV6_ADVERTISE else DHCPV6_REPLY) ∧
      TID6 reply = .ok tid ∧
      GetOption6s reply = .ok
        ([⟨DHCPV6_OPTION_CLIENTID, cli.Value⟩,
          ⟨DHCPV6_OPTION_SERVERID, [0, 3, 0, 1] ++ conf.InterfaceMac.take 6⟩,
          ianaOption conf iana.Value] ++ serverOptions6 conf
          ++ (if t = DHCPV6_SOLICIT ∧ getOption reqOpts DHCPV6_OPTION_RAPID_COMMIT ≠ none
              then [⟨DHCPV6_OPTION_RAPID_COMMIT, []⟩] else [])) := by
  obtain ⟨t, tid, reqOpts, cli, iana, ht, htid, hopts, hcli, hiana, hmac, hr⟩ :=
    MakeDHCP6Reply_shape pkt conf reply hok
  have hnr : t ≠ DHCPV6_RELAY_FORW ∧ t ≠ DHCPV6_RELAY_REPL := by
    have hs := (MakeDHCP6Reply_supported pkt conf t ht).2.2
    constructor
    · intro h
      rw [hs (by rw [h]; decide)] at hok
      exact absurd hok (by simp)
    · intro h
      rw [hs (by rw [h]; decide)] at hok
      exact absurd hok (by simp)
  have htl := TID6_nonrelay_lt pkt hbytes t tid ht hnr htid
  have hcv : cli.Value.length ≤ 65535 :=
    (GetOption6s_valid pkt hbytes reqOpts hopts cli (List.mem_of_find?_eq_some hcli)).2
  refine ⟨t, tid, reqOpts, cli, iana, ht, htid, hopts, hcli, hiana, hmac, ?_⟩
  rcases hr with ⟨h1, h2, hr⟩ | ⟨h1, hr⟩
  · have hv := replyOptions_valid conf cli.Value iana.Value [⟨DHCPV6_OPTION_RAPID_COMMIT, []⟩]
      hcv hdns hntp (by decide)
    obtain ⟨_, e2, e3, e4⟩ := reply_readback DHCPV6_REPLY tid _ (by decide) htl hv
    rw [if_neg (fun h => h2 h.2), if_pos (⟨h1, h2⟩ : t = DHCPV6_SOLICIT ∧
      getOption reqOpts DHCPV6_OPTION_RAPID_COMMIT ≠ none), hr]
    exact ⟨e2, e3, e4⟩
  · have hv := replyOptions_valid conf cli.Value iana.Value [] hcv hdns hntp
      (fun o ho => absurd ho (List.not_mem_nil o))
    have hm : (if t = DHCPV6_SOLICIT then DHCPV6_ADVERTISE else DHCPV6_REPLY)
        ≠ DHCPV6_RELAY_FORW ∧
        (if t = DHCPV6_SOLICIT then DHCPV6_ADVERTISE else DHCPV6_REPLY)
        ≠ DHCPV6_RELAY_REPL := by
      split <;> decide
    have hmt : (if t = DHCPV6_SOLICIT ∧ getOption reqOpts DHCPV6_OPTION_RAPID_COMMIT = none
        then DHCPV6_ADVERTISE else DHCPV6_REPLY)
        = (if t = DHCPV6_SOLICIT then DHCPV6_ADVERTISE else DHCPV6_REPLY) := by
      by_cases hs : t = DHCPV6_SOLICIT
      · have hn : getOption reqOpts DHCPV6_OPTION_RAPID_COMMIT = none := by
          by_contra hc
          exact h1 ⟨hs, hc⟩
        rw [if_pos hs, if_pos ⟨hs, hn⟩]
      · rw [if_neg hs, if_neg (fun h => hs h.1)]
    obtain ⟨_, e2, e3, e4⟩ := reply_readback _ tid _ hm htl hv
    rw [hmt, if_neg h1, hr]
    rw [List.append_nil] at e2 e3 e4 ⊢
    exact ⟨e2, e3, e4⟩

/-- The three leading options of a reply have the codes 1, 2 and 3. -/
theorem replyHead_codes (conf : ResponseConfig) (cli iana : Bytes) (o : Option6)
    (ho : o ∈ [(⟨DHCPV6_OPTION_CLIENTID, cli⟩ : Option6),
      ⟨DHCPV6_OPTION_SERVERID, [0, 3, 0, 1] ++ conf.InterfaceMac.take 6⟩,
      ianaOption conf iana]) :
    o.Code = DHCPV6_OPTION_CLIENTID ∨ o.Code = DHCPV6_OPTION_SERVERID ∨
      o.Code = DHCPV6_OPTION_IA_NA := by
  simp only [List.mem_cons, List.mem_singleton, List.not_mem_nil, or_false] at ho
  rcases ho with h | h | h
  · exact Or.inl (by rw [h])
  · exact Or.inr (Or.inl (by rw [h]))
  · exact Or.inr (Or.inr (by rw [h]; rfl))

/-- C6 (amended): for every SOLICIT request, a sequence of bytes, that
carries CLIENTID and IA_NA and whose ORO option (if there is one) has an even
length, and every config whose `InterfaceMac` has at least 6 bytes and that
has at most 4095 DNS and 4095 SNTP servers: if the request carries
RAPID_COMMIT, `MakeDHCP6Reply` succeeds with a reply whose type reads REPLY
(7) and whose options, read with `GetOption6s`, include RAPID_COMMIT (14)
with an empty value; if it carries none, the reply reads ADVERTISE (2) and
none of its options, read with `GetOption6s`, has code 14. -/
theorem C6_rapid_commit (pkt : Packet) (conf : ResponseConfig) (opts : List Option6)
    (cli iana : Option6) (hbytes : ∀ b ∈ pkt, b < 256)
    (ht : Type6 pkt = .ok DHCPV6_SOLICIT) (hopts : GetOption6s pkt = .ok opts)
    (hcli : getOption opts DHCPV6_OPTION_CLIENTID = some cli)
    (hiana : getOption opts DHCPV6_OPTION_IA_NA = some iana)
    (horo : ∀ o, getOption opts DHCPV6_OPTION_ORO = some o → o.Value.length % 2 = 0)
    (hmac : 6 ≤ conf.InterfaceMac.length)
    (hdns : conf.DNSServers6.length ≤ 4095) (hntp : conf.NTPServers6.length ≤ 4095) :
    (getOption opts DHCPV6_OPTION_RAPID_COMMIT ≠ none →
      ∃ reply options, MakeDHCP6Reply pkt conf = .ok reply ∧
        Type6 reply = .ok DHCPV6_REPLY ∧ GetOption6s reply = .ok options ∧
        (⟨DHCPV6_OPTION_RAPID_COMMIT, []⟩ : Option6) ∈ options) ∧
    (getOption opts DHCPV6_OPTION_RAPID_COMMIT = none →
      ∃ reply options, MakeDHCP6Reply pkt conf = .ok reply ∧
        Type6 reply = .ok DHCPV6_ADVERTISE ∧ GetOption6s reply = .ok options ∧
        ∀ o ∈ options, o.Code ≠ DHCPV6_OPTION_RAPID_COMMIT) := by
  obtain ⟨tid0, _, hmk⟩ := makeDHCPReplyPacket6_ok pkt conf DHCPV6_ADVERTISE DHCPV6_SOLICIT
    opts cli iana ht (by decide) hopts hcli hiana horo hmac
  rw [← (MakeDHCP6Reply_supported pkt conf _ ht).1 rfl] at hmk
  constructor
  · intro hrc
    rw [if_pos (⟨rfl, hrc⟩ : DHCPV6_SOLICIT = DHCPV6_SOLICIT ∧
      getOption opts DHCPV6_OPTION_RAPID_COMMIT ≠ none)] at hmk
    obtain ⟨t, tid, reqOpts, cli2, iana2, ht2, _, hopts2, _, _, _, hty, _, hget⟩ :=
      MakeDHCP6Reply_parsed pkt conf _ hbytes hdns hntp hmk
    have et : t = DHCPV6_SOLICIT := Except.ok.inj (ht2.symm.trans ht)
    have eo : reqOpts = opts := Except.ok.inj (hopts2.symm.trans hopts)
    rw [et, eo] at hty hget
    rw [if_neg (fun h => hrc h.2)] at hty
    rw [if_pos (⟨rfl, hrc⟩ : DHCPV6_SOLICIT = DHCPV6_SOLICIT ∧
      getOption opts DHCPV6_OPTION_RAPID_COMMIT ≠ none)] at hget
    exact ⟨_, _, hmk, hty, hget, List.mem_append_right _ (List.mem_singleton.mpr rfl)⟩
  · intro hrc
    rw [if_neg (fun h => h.2 hrc)] at hmk
    obtain ⟨t, tid, reqOpts, cli2, iana2, ht2, _, hopts2, _, _, _, hty, _, hget⟩ :=
      MakeDHCP6Reply_parsed pkt conf _ hbytes hdns hntp hmk
    have et : t = DHCPV6_SOLICIT := Except.ok.inj (ht2.symm.trans ht)
    have eo : reqOpts = opts := Except.ok.inj (hopts2.symm.trans hopts)
    rw [et, eo] at hty hget
    rw [if_pos ⟨rfl, hrc⟩] at hty
    rw [if_neg (fun h => h.2 hrc), List.append_nil] at hget
    refine ⟨_, _, hmk, hty, hget, ?_⟩
    intro o ho
    rcases List.mem_append.mp ho with h | h
    · rcases replyHead_codes conf _ _ o h with h | h | h <;> rw [h] <;> decide
    · rcases serverOptions6_codes conf o h with h | h <;> rw [h] <;> decide

theorem C6_rapid_commit_witness :
    ∃ reply options,
      MakeDHCP6Reply ([1, 0, 0, 7] ++ optionsToBytes
          [⟨1, [5, 6]⟩, ⟨3, [1, 2, 3]⟩, ⟨14, []⟩])
          { zeroConf with InterfaceMac := [1, 2, 3, 4, 5, 6] } = .ok reply ∧
      Type6 reply = .ok DHCPV6_REPLY ∧ GetOption6s reply = .ok options ∧
      (⟨DHCPV6_OPTION_RAPID_COMMIT, []⟩ : Option6) ∈ options :=
  (C6_rapid_commit ([1, 0, 0, 7] ++ optionsToBytes [⟨1, [5, 6]⟩, ⟨3, [1, 2, 3]⟩, ⟨14, []⟩])
    { zeroConf with InterfaceMac := [1, 2, 3, 4, 5, 6] }
    [⟨1, [5, 6]⟩, ⟨3, [1, 2, 3]⟩, ⟨14, []⟩] ⟨1, [5, 6]⟩ ⟨3, [1, 2, 3]⟩
    (by decide) (by decide) (by decide) (by decide) (by decide)
    (by
      intro o ho
      have hn : getOption [⟨1, [5, 6]⟩, ⟨3, [1, 2, 3]⟩, ⟨14, []⟩] DHCPV6_OPTION_ORO = none := by
        decide
      rw [hn] at ho
      exact absurd ho (by simp))
    (by decide) (by decide) (by decide)).1 (by decide)

/-- C15 (amended): for every reply of `MakeDHCP6Reply` to a request of bytes
under a config with at most 4095 DNS and 4095 SNTP servers, among the options
read from the reply with `GetOption6s` a DNS_SERVERS option (23) is present
iff `conf.DNSServers6` is non-empty and an SNTP_SERVERS option (31) is
present iff `conf.NTPServers6` is non-empty; the value of each is the
concatenation, in list order, of the 16-byte form of every address of the
list that has one (an address without a 16-byte form is skipped), so its
length is 16 times the number of such addresses. -/
theorem C15_server_options (pkt : Packet) (conf : ResponseConfig) (reply : Packet)
    (hbytes : ∀ b ∈ pkt, b < 256)
    (hdns : conf.DNSServers6.length ≤ 4095) (hntp : conf.NTPServers6.length ≤ 4095)
    (hok : MakeDHCP6Reply pkt conf = .ok reply) :
    ∃ options, GetOption6s reply = .ok options ∧
      ((∃ o ∈ options, o.Code = OPTION_DNS_SERVERS) ↔ conf.DNSServers6 ≠ []) ∧
      ((∃ o ∈ options, o.Code = OPTION_SNTP_SERVERS) ↔ conf.NTPServers6 ≠ []) ∧
      (∀ o ∈ options, o.Code = OPTION_DNS_SERVERS →
        o.Value = (conf.DNSServers6.map (fun ip => (To16 ip).bytes)).flatten ∧
        o.Value.length
          = 16 * (conf.DNSServers6.filter (fun ip => (To16 ip).isSome)).length) ∧
      (∀ o ∈ options, o.Code = OPTION_SNTP_SERVERS →
        o.Value = (conf.NTPServers6.map (fun ip => (To16 ip).bytes)).flatten ∧
        o.Value.length
          = 16 * (conf.NTPServers6.filter (fun ip => (To16 ip).isSome)).length) := by
  obtain ⟨t, tid, reqOpts, cli, iana, _, _, _, _, _, _, _, _, hget⟩ :=
    MakeDHCP6Reply_parsed pkt conf reply hbytes hdns hntp hok
  have hmem : ∀ o, o ∈ [(⟨DHCPV6_OPTION_CLIENTID, cli.Value⟩ : Option6),
        ⟨DHCPV6_OPTION_SERVERID, [0, 3, 0, 1] ++ conf.InterfaceMac.take 6⟩,
        ianaOption conf iana.Value] ++ serverOptions6 conf
        ++ (if t = DHCPV6_SOLICIT ∧ getOption reqOpts DHCPV6_OPTION_RAPID_COMMIT ≠ none
            then [⟨DHCPV6_OPTION_RAPID_COMMIT, []⟩] else []) →
      (o.Code ≠ OPTION_DNS_SERVERS ∧ o.Code ≠ OPTION_SNTP_SERVERS) ∨
        o ∈ serverOptions6 conf := by
    intro o ho
    rcases List.mem_append.mp ho with h | h
    · rcases List.mem_append.mp h with h2 | h2
      · refine Or.inl ?_
        rcases replyHead_codes conf _ _ o h2 with h3 | h3 | h3 <;> rw [h3] <;> decide
      · exact Or.inr h2
    · refine Or.inl ?_
      split at h
      · rw [List.mem_singleton] at h
        rw [h]
        decide
      · exact absurd h (List.not_mem_nil _)
  have hin : ∀ o, o ∈ serverOptions6 conf →
      o ∈ [(⟨DHCPV6_OPTION_CLIENTID, cli.Value⟩ : Option6),
        ⟨DHCPV6_OPTION_SERVERID, [0, 3, 0, 1] ++ conf.InterfaceMac.take 6⟩,
        ianaOption conf iana.Value] ++ serverOptions6 conf
        ++ (if t = DHCPV6_SOLICIT ∧ getOption reqOpts DHCPV6_OPTION_RAPID_COMMIT ≠ none
            then [⟨DHCPV6_OPTION_RAPID_COMMIT, []⟩] else []) :=
    fun o ho => List.mem_append_left _ (List.mem_append_right _ ho)
  refine ⟨_, hget, ?_, ?_, ?_, ?_⟩
  · constructor
    · rintro ⟨o, ho, hc⟩
      rcases hmem o ho with h | h
      · exact absurd hc h.1
      · rcases (serverOptions6_mem conf o).mp h with ⟨hne, _⟩ | ⟨_, he⟩
        · exact hne
        · rw [he] at hc
          exact absurd hc (by dsimp only; decide)
    · intro hne
      exact ⟨_, hin _ ((serverOptions6_mem conf _).mpr (Or.inl ⟨hne, rfl⟩)), rfl⟩
  · constructor
    · rintro ⟨o, ho, hc⟩
      rcases hmem o ho with h | h
      · exact absurd hc h.2
      · rcases (serverOptions6_mem conf o).mp h with ⟨_, he⟩ | ⟨hne, _⟩
        · rw [he] at hc
          exact absurd hc (by dsimp only; decide)
        · exact hne
    · intro hne
      exact ⟨_, hin _ ((serverOptions6_mem conf _).mpr (Or.inr ⟨hne, rfl⟩)), rfl⟩
  · intro o ho hc
    rcases hmem o ho with h | h
    · exact absurd hc h.1
    · rcases (serverOptions6_mem conf o).mp h with ⟨_, he⟩ | ⟨_, he⟩
      · rw [he]
        exact ⟨makeIPv6s_eq _, makeIPv6s_length _⟩
      · rw [he] at hc
        exact absurd hc (by dsimp only; decide)
  · intro o ho hc
    rcases hmem o ho with h | h
    · exact absurd hc h.2
    · rcases (serverOptions6_mem conf o).mp h with ⟨_, he⟩ | ⟨_, he⟩
      · rw [he] at hc
        exact absurd hc (by dsimp only; decide)
      · rw [he]
        exact ⟨makeIPv6s_eq _, makeIPv6s_length _⟩

theorem C15_server_options_witness :
    ∃ options,
      GetOption6s [7, 0, 0, 9, 0, 1, 0, 1, 5, 0, 2, 0, 10, 0, 3, 0, 1, 11, 12, 13, 14, 15, 16,
        0, 3, 0, 53, 0, 0, 0, 1, 0, 0, 14, 16, 0, 0, 21, 24, 0, 5, 0, 37,
        32, 1, 13, 184, 0, 1, 0, 2, 0, 3, 0, 4, 0, 5, 0, 6, 0, 0, 14, 16, 0, 0, 28, 32,
        0, 13, 0, 9, 0, 0, 83, 117, 99, 99, 101, 115, 115,
        0, 23, 0, 16, 32, 1, 72, 96, 72, 96, 0, 1, 0, 2, 0, 3, 0, 4, 136, 136]
        = .ok options ∧
      ((∃ o ∈ options, o.Code = OPTION_DNS_SERVERS) ↔
        [some [32, 1, 72, 96, 72, 96, 0, 1, 0, 2, 0, 3, 0, 4, 136, 136]] ≠ ([] : List IP)) ∧
      ((∃ o ∈ options, o.Code = OPTION_SNTP_SERVERS) ↔ ([] : List IP) ≠ []) := by
  obtain ⟨options, h1, h2, h3, _, _⟩ := C15_server_options
    ([6, 0, 0, 9] ++ optionsToBytes
      [⟨1, [5]⟩, ⟨3, [0, 0, 0, 1, 0, 0, 14, 16, 0, 0, 21, 24]⟩])
    { zeroConf with InterfaceMac := [11, 12, 13, 14, 15, 16],
                    ClientIP6 := some [32, 1, 13, 184, 0, 1, 0, 2, 0, 3, 0, 4, 0, 5, 0, 6],
                    LeaseTime := 7200 * 1000000000,
                    DNSServers6 := [some [32, 1, 72, 96, 72, 96, 0, 1, 0, 2, 0, 3, 0, 4, 136, 136]] }
    [7, 0, 0, 9, 0, 1, 0, 1, 5, 0, 2, 0, 10, 0, 3, 0, 1, 11, 12, 13, 14, 15, 16,
      0, 3, 0, 53, 0, 0, 0, 1, 0, 0, 14, 16, 0, 0, 21, 24, 0, 5, 0, 37,
      32, 1, 13, 184, 0, 1, 0, 2, 0, 3, 0, 4, 0, 5, 0, 6, 0, 0, 14, 16, 0, 0, 28, 32,
      0, 13, 0, 9, 0, 0, 83, 117, 99, 99, 101, 115, 115,
      0, 23, 0, 16, 32, 1, 72, 96, 72, 96, 0, 1, 0, 2, 0, 3, 0, 4, 136, 136]
    (by decide) (by decide) (by decide) (by decide)
  exact ⟨options, h1, h2, h3⟩

/-! ## Relay recursion on a packet with spare capacity -/

theorem index_error (p : Bytes) (i : Nat) (e : Err) (h : index p i = .error e) :
    e = .Panic := by
  unfold index at h
  split at h
  · exact absurd h (by simp)
  · exact (Except.error.inj h).symm

theorem indexLen_error (buf : Bytes) (n i : Nat) (e : Err)
    (h : indexLen buf n i = .error e) : e = .Panic := by
  unfold indexLen at h
  split at h
  · exact index_error _ _ _ h
  · exact (Except.error.inj h).symm

theorem indexLen_getD (p : Bytes) (i : Nat) (h : i < p.length) :
    indexLen p p.length i = .ok (p.getD i 0) := by
  unfold indexLen index
  rw [if_pos h, List.get?_eq_get h]
  simp [List.getD_eq_getElem, h]

theorem IsRelayMsgCap_error (buf : Bytes) (n : Nat) (e : Err)
    (h : IsRelayMsgCap buf n = .error e) : e = .Panic := by
  simp only [IsRelayMsgCap, Type6Cap, bind, Except.bind, pure, Except.pure] at h
  cases hi : indexLen buf n 0 with
  | error e2 =>
    rw [hi] at h
    rw [← Except.error.inj h]
    exact indexLen_error _ _ _ _ hi
  | ok t =>
    rw [hi] at h
    exact absurd h (by simp)

theorem IsRelayMsgCap_eq (p : Packet) : IsRelayMsgCap p p.length = IsRelayMsg p := by
  cases p with
  | nil => rfl
  | cons t rest =>
    simp [IsRelayMsgCap, Type6Cap, indexLen, IsRelayMsg, Type6]

/-- The loop on `buf[:n]` does not run out of fuel: every turn needs `i < n`
and moves the index by at least 4. -/
theorem getOption6sLoopCap_fuel (buf : Bytes) (n fuel i : Nat) (acc : List Option6)
    (h1 : 1 ≤ fuel) (h2 : n + 1 ≤ i + fuel) :
    getOption6sLoopCap buf n fuel i acc ≠ .error .OutOfFuel := by
  induction fuel generalizing i acc with
  | zero => omega
  | succ f ih =>
    rw [getOption6sLoopCap]
    by_cases hlt : i < n
    · rw [if_pos hlt]
      simp only [bind, Except.bind]
      cases ha : slice buf i (i + 2) with
      | error e => rw [slice_error _ _ _ _ ha]; simp
      | ok c =>
        dsimp only
        cases hb : slice buf (i + 2) (i + 4) with
        | error e => rw [slice_error _ _ _ _ hb]; simp
        | ok l =>
          dsimp only
          cases hc : slice buf (i + 4) (i + 4 + beUint16 l) with
          | error e => rw [slice_error _ _ _ _ hc]; simp
          | ok v =>
            dsimp only
            exact ih _ _ (by omega) (by omega)
    · rw [if_neg hlt]
      simp

theorem GetOption6sCap_fuel (buf : Bytes) (n : Nat) :
    GetOption6sCap buf n ≠ .error .OutOfFuel := by
  simp only [GetOption6sCap, bind, Except.bind]
  cases hr : IsRelayMsgCap buf n with
  | error e =>
    rw [IsRelayMsgCap_error _ _ _ hr]
    simp
  | ok r =>
    dsimp only
    apply getOption6sLoopCap_fuel
    · omega
    · split <;> omega

/-- Every option read from `buf[:n]` has a value at least 4 bytes shorter
than the capacity. -/
theorem getOption6sLoopCap_value_length (buf : Bytes) (n fuel i : Nat)
    (acc opts : List Option6) (h : getOption6sLoopCap buf n fuel i acc = .ok opts)
    (hacc : ∀ o ∈ acc, o.Value.length + 4 ≤ buf.length) :
    ∀ o ∈ opts, o.Value.length + 4 ≤ buf.length := by
  induction fuel generalizing i acc with
  | zero => simp [getOption6sLoopCap] at h
  | succ f ih =>
    rw [getOption6sLoopCap] at h
    by_cases hlt : i < n
    · rw [if_pos hlt] at h
      simp only [bind, Except.bind] at h
      cases ha : slice buf i (i + 2) with
      | error e => simp [ha] at h
      | ok c =>
        simp only [ha] at h
        cases hb : slice buf (i + 2) (i + 4) with
        | error e => simp [hb] at h
        | ok l =>
          simp only [hb] at h
          cases hc : slice buf (i + 4) (i + 4 + beUint16 l) with
          | error e => simp [hc] at h
          | ok v =>
            simp only [hc] at h
            have hle := slice_ok_le _ _ _ _ hc
            have hlen := slice_ok_length _ _ _ _ hc
            apply ih _ _ h
            intro o ho
            rcases List.mem_append.mp ho with h1 | h1
            · exact hacc o h1
            · rw [List.mem_singleton] at h1
              subst h1
              dsimp only
              omega
    · rw [if_neg hlt] at h
      rw [← Except.ok.inj h]
      exact hacc

theorem GetOption6sCap_value_length (buf : Bytes) (n : Nat) (opts : List Option6)
    (h : GetOption6sCap buf n = .ok opts) : ∀ o ∈ opts, o.Value.length + 4 ≤ buf.length := by
  simp only [GetOption6sCap, bind, Except.bind] at h
  cases hr : IsRelayMsgCap buf n with
  | error e => simp [hr] at h
  | ok r =>
    simp only [hr] at h
    exact getOption6sLoopCap_value_length buf n _ _ [] opts h (by simp)

/-- Without spare capacity the loop is the one of `GetOption6s`. -/
theorem getOption6sLoopCap_eq (p : Packet) (fuel i : Nat) (acc : List Option6) :
    getOption6sLoopCap p p.length fuel i acc = getOption6sLoop p fuel i acc := by
  induction fuel generalizing i acc with
  | zero => rfl
  | succ f ih =>
    rw [getOption6sLoopCap, getOption6sLoop]
    simp only [ih]

theorem GetOption6sCap_eq (p : Packet) : GetOption6sCap p p.length = GetOption6s p := by
  simp only [GetOption6sCap, GetOption6s, IsRelayMsgCap_eq, getOption6sLoopCap_eq]

theorem TID6Cap_eq (p : Packet) : TID6Cap p p.length = TID6 p := by
  simp only [TID6Cap, TID6, TID6Aux, IsRelayMsgCap_eq, GetOption6sCap_eq, bind, Except.bind,
    pure, Except.pure]
  cases hr : IsRelayMsg p with
  | error e => rfl
  | ok r =>
    dsimp only
    cases r with
    | false =>
      simp only [Bool.not_false, if_true]
      by_cases h4 : p.length < 4
      · rw [if_pos h4, if_pos h4]
      · rw [if_neg h4, if_neg h4, indexLen_getD p 1 (by omega), indexLen_getD p 2 (by omega),
          indexLen_getD p 3 (by omega)]
    | true =>
      simp only [Bool.not_true, Bool.false_eq_true, if_false]
      cases ho : GetOption6s p with
      | error e => rfl
      | ok opts =>
        dsimp only
        cases hf : opts.find? (fun o => o.Code == DHCPV6_OPTION_RELAY_MSG) with
        | none => rfl
        | some o =>
          dsimp only
          have hlen := GetOption6s_value_length p opts ho o (List.mem_of_find?_eq_some hf)
          exact (TID6Aux_eq_TID6 _ _ (by omega)).symm

theorem ClientIDCap_eq (p : Packet) : ClientIDCap p p.length = ClientID p := by
  simp only [ClientIDCap, ClientID, ClientIDAux, IsRelayMsgCap_eq, GetOption6sCap_eq, bind,
    Except.bind]
  cases hr : IsRelayMsg p with
  | error e => rfl
  | ok r =>
    dsimp only
    cases r with
    | false => rfl
    | true =>
      simp only [Bool.not_true, Bool.false_eq_true, if_false]
      cases ho : GetOption6s p with
      | error e => rfl
      | ok opts =>
        dsimp only
        cases hf : opts.find? (fun o => o.Code == DHCPV6_OPTION_RELAY_MSG) with
        | none => rfl
        | some o =>
          dsimp only
          have hlen := GetOption6s_value_length p opts ho o (List.mem_of_find?_eq_some hf)
          exact (ClientIDAux_eq_ClientID _ _ (by omega)).symm

theorem TID6Cap_fuel (buf : Bytes) (n : Nat) : TID6Cap buf n ≠ .error .OutOfFuel := by
  simp only [TID6Cap, bind, Except.bind, pure, Except.pure]
  cases hr : IsRelayMsgCap buf n with
  | error e =>
    rw [IsRelayMsgCap_error _ _ _ hr]
    simp
  | ok r =>
    dsimp only
    cases r with
    | false =>
      simp only [Bool.not_false, if_true]
      by_cases h4 : n < 4
      · rw [if_pos h4]
        simp
      · rw [if_neg h4]
        cases h1 : indexLen buf n 1 with
        | error e => rw [indexLen_error _ _ _ _ h1]; simp
        | ok b1 =>
          dsimp only
          cases h2 : indexLen buf n 2 with
          | error e => rw [indexLen_error _ _ _ _ h2]; simp
          | ok b2 =>
            dsimp only
            cases h3 : indexLen buf n 3 with
            | error e => rw [indexLen_error _ _ _ _ h3]; simp
            | ok b3 => simp
    | true =>
      simp only [Bool.not_true, Bool.false_eq_true, if_false]
      cases ho : GetOption6sCap buf n with
      | error e =>
        dsimp only
        intro he
        exact GetOption6sCap_fuel buf n (by rw [ho, Except.error.inj he])
      | ok opts =>
        dsimp only
        cases hf : opts.find? (fun o => o.Code == DHCPV6_OPTION_RELAY_MSG) with
        | none => simp
        | some o => exact TID6Aux_ne_OutOfFuel _ o.Value (Nat.lt_succ_self _)

theorem ClientIDCap_fuel (buf : Bytes) (n : Nat) : ClientIDCap buf n ≠ .error .OutOfFuel := by
  simp only [ClientIDCap, bind, Except.bind]
  cases hr : IsRelayMsgCap buf n with
  | error e =>
    rw [IsRelayMsgCap_error _ _ _ hr]
    simp
  | ok r =>
    dsimp only
    cases ho : GetOption6sCap buf n with
    | error e =>
      cases r <;>
      · simp only [Bool.not_false, Bool.not_true, Bool.false_eq_true, if_true, if_false]
        intro he
        exact GetOption6sCap_fuel buf n (by rw [ho, Except.error.inj he])
    | ok opts =>
      cases r with
      | false =>
        simp only [Bool.not_false, if_true]
        split <;> simp
      | true =>
        simp only [Bool.not_true, Bool.false_eq_true, if_false]
        cases hf : opts.find? (fun o => o.Code == DHCPV6_OPTION_RELAY_MSG) with
        | none => simp
        | some o => exact ClientIDAux_ne_OutOfFuel _ o.Value (Nat.lt_succ_self _)

/-- C21, the failing input: a RELAY-FORW packet of 38 bytes, the header and
the 4 bytes `[0, 9, 0, 40]` of a RELAY_MSG option header, cut from a buffer
that holds 40 more bytes. `GetOption6s` slices `p[38:78]` within the capacity
and returns a RELAY_MSG value of 40 bytes, longer than the packet, and `TID6`
recurses into it and returns the transaction id 7 found there; the same 38
bytes without spare capacity make `GetOption6s` panic. On every packet,
whatever its capacity, each option value is shorter than the capacity and
`GetOption6s`, `TID6` and `ClientID` return: the recursion terminates. On
every packet without spare capacity, as every nested packet is, each option
value is shorter than the packet, a relay message is answered by the call on
the value of its first RELAY_MSG option, and following `len(p) + 1` levels
gives the result that every larger bound gives. -/
theorem C21_spare_capacity_recursion :
    IsRelayMsgCap (12 :: List.replicate 33 0 ++ [0, 9, 0, 40, 1, 0, 0, 7]
      ++ List.replicate 36 0) 38 = .ok true ∧
    (GetOption6sCap (12 :: List.replicate 33 0 ++ [0, 9, 0, 40, 1, 0, 0, 7]
      ++ List.replicate 36 0) 38).map
        (fun os => os.map (fun o => (o.Code, o.Value.length))) = .ok [(9, 40)] ∧
    TID6Cap (12 :: List.replicate 33 0 ++ [0, 9, 0, 40, 1, 0, 0, 7]
      ++ List.replicate 36 0) 38 = .ok 7 ∧
    GetOption6s (12 :: List.replicate 33 0 ++ [0, 9, 0, 40]) = .error .Panic ∧
    (∀ (buf : Bytes) (n : Nat),
      (∀ opts, GetOption6sCap buf n = .ok opts → ∀ o ∈ opts, o.Value.length < buf.length) ∧
      GetOption6sCap buf n ≠ .error .OutOfFuel ∧ TID6Cap buf n ≠ .error .OutOfFuel ∧
      ClientIDCap buf n ≠ .error .OutOfFuel) ∧
    (∀ p : Packet,
      GetOption6sCap p p.length = GetOption6s p ∧ TID6Cap p p.length = TID6 p ∧
      ClientIDCap p p.length = ClientID p ∧
      (∀ opts, GetOption6s p = .ok opts → ∀ o ∈ opts, o.Value.length < p.length) ∧
      (∀ opts o, IsRelayMsg p = .ok true → GetOption6s p = .ok opts →
        opts.find? (fun o => o.Code == DHCPV6_OPTION_RELAY_MSG) = some o →
        o.Value.length < p.length ∧ TID6 p = TID6 o.Value ∧ ClientID p = ClientID o.Value) ∧
      TID6 p ≠ .error .OutOfFuel ∧ ClientID p ≠ .error .OutOfFuel ∧
      (∀ f, p.length < f → TID6Aux f p = TID6 p ∧ ClientIDAux f p = ClientID p)) := by
  refine ⟨by decide, by decide, by decide, by decide, ?_, ?_⟩
  · intro buf n
    refine ⟨?_, GetOption6sCap_fuel buf n, TID6Cap_fuel buf n, ClientIDCap_fuel buf n⟩
    intro opts ho o hm
    have := GetOption6sCap_value_length buf n opts ho o hm
    omega
  · intro p
    refine ⟨GetOption6sCap_eq p, TID6Cap_eq p, ClientIDCap_eq p, ?_, ?_, ?_, ?_, ?_⟩
    · intro opts ho o hm
      have := GetOption6s_value_length p opts ho o hm
      omega
    · intro opts o hr ho hf
      have := GetOption6s_value_length p opts ho o (List.mem_of_find?_eq_some hf)
      exact ⟨by omega, TID6_relay p opts o hr ho hf, ClientID_relay p opts o hr ho hf⟩
    · exact TID6Aux_ne_OutOfFuel _ p (Nat.lt_succ_self _)
    · exact ClientIDAux_ne_OutOfFuel _ p (Nat.lt_succ_self _)
    · intro f hf
      exact ⟨TID6Aux_eq_TID6 f p hf, ClientIDAux_eq_ClientID f p hf⟩

/-! ## The IA_NA option of the reply -/

/-- `responseIANA`: the first 12 bytes of the client's value, or the value
padded with zeros to 12 bytes, then the nested options. -/
theorem responseIANA_eq (buf : Bytes) (opts : List Option6) :
    responseIANA buf opts
      = (if 12 ≤ buf.length then buf.take 12
          else buf ++ List.replicate (12 - buf.length) 0) ++ optionsToBytes opts ∧
    (if 12 ≤ buf.length then buf.take 12
      else buf ++ List.replicate (12 - buf.length) 0).length = 12 := by
  constructor
  · unfold responseIANA
    dsimp only
    by_cases h1 : buf.length < 12
    · have h12 : ¬ 12 ≤ buf.length := by omega
      simp only [h1, h12, if_true, if_false]
    · have h12 : 12 ≤ buf.length := by omega
      by_cases h2 : buf.length > 12
      · simp only [h1, h12, h2, if_true, if_false]
      · simp only [h1, h12, h2, if_true, if_false]
        rw [List.take_of_length_le (by omega)]
  · split
    · rw [List.length_take]
      omega
    · rw [List.length_append, List.length_replicate]
      omega

/-- The IA_NA option of the reply, spelled out. -/
theorem ianaOption_eq (conf : ResponseConfig) (v : Bytes) :
    ianaOption conf v = ⟨DHCPV6_OPTION_IA_NA,
      (if 12 ≤ v.length then v.take 12 else v ++ List.replicate (12 - v.length) 0)
        ++ optionToBytes ⟨DHCPV6_OPTION_IAADDR,
          copyInto (List.replicate 16 0) (To16 conf.ClientIP6).bytes
            ++ putUint32 (secondsUint32 conf.LeaseTime / 2)
            ++ putUint32 (secondsUint32 conf.LeaseTime)
            ++ optionToBytes ⟨DHCPV6_OPTION_STATUS_CODE,
                [0, 0, 83, 117, 99, 99, 101, 115, 115]⟩⟩⟩ := by
  unfold ianaOption
  dsimp only
  rw [(responseIANA_eq v _).1]
  simp only [makeIAAddr, optionsToBytes_cons, optionsToBytes_nil, List.append_nil]

/-- C14: for every successful `MakeDHCP6Reply`, the reply is a 4-byte header
followed by the encoded CLIENTID and SERVERID options and an IA_NA option
(code 3), then DNS, SNTP and RAPID_COMMIT options only. The value of the
IA_NA option is a 12-byte head, the first 12 bytes of the value of the
request's IA_NA option (IAID, T1, T2), zero-padded when that value is shorter,
followed by exactly one IAADDR option (code 5) whose value is the 16-byte
address field (the 16-byte form of `conf.ClientIP6` when it has one), the
preferred and the valid lifetime as 4 bytes each, and exactly one STATUS_CODE
option (code 13) with the 9-byte value `[0, 0, "Success"]`; it is 53 bytes
long. For a lease of a whole number `L < 2^32` of seconds the lifetimes are
`L / 2` and `L`. For a request of bytes under a config with at most 4095 DNS
and 4095 SNTP servers, this value is the value of the first option of code 3
that `GetOption6s` reads from the reply. -/
theorem C14_iana_value (pkt : Packet) (conf : ResponseConfig) (reply : Packet)
    (hok : MakeDHCP6Reply pkt conf = .ok reply) :
    ∃ reqOpts cli iana hdr rest pl vl value,
      GetOption6s pkt = .ok reqOpts ∧
      getOption reqOpts DHCPV6_OPTION_CLIENTID = some cli ∧
      getOption reqOpts DHCPV6_OPTION_IA_NA = some iana ∧
      value = (if 12 ≤ iana.Value.length then iana.Value.take 12
          else iana.Value ++ List.replicate (12 - iana.Value.length) 0)
        ++ optionToBytes ⟨DHCPV6_OPTION_IAADDR,
          copyInto (List.replicate 16 0) (To16 conf.ClientIP6).bytes ++ pl ++ vl
            ++ optionToBytes ⟨DHCPV6_OPTION_STATUS_CODE,
                [0, 0, 83, 117, 99, 99, 101, 115, 115]⟩⟩ ∧
      reply = hdr ++ optionsToBytes
        ([⟨DHCPV6_OPTION_CLIENTID, cli.Value⟩,
          ⟨DHCPV6_OPTION_SERVERID, [0, 3, 0, 1] ++ conf.InterfaceMac.take 6⟩,
          ⟨DHCPV6_OPTION_IA_NA, value⟩] ++ rest) ∧
      (∀ o ∈ rest, o.Code = OPTION_DNS_SERVERS ∨ o.Code = OPTION_SNTP_SERVERS ∨
        o.Code = DHCPV6_OPTION_RAPID_COMMIT) ∧
      hdr.length = 4 ∧ pl.length = 4 ∧ vl.length = 4 ∧
      (if 12 ≤ iana.Value.length then iana.Value.take 12
        else iana.Value ++ List.replicate (12 - iana.Value.length) 0).length = 12 ∧
      (copyInto (List.replicate 16 0) (To16 conf.ClientIP6).bytes).length = 16 ∧
      (∀ ip16, To16 conf.ClientIP6 = some ip16 →
        copyInto (List.replicate 16 0) (To16 conf.ClientIP6).bytes = ip16) ∧
      (∀ L : Nat, L < 4294967296 → conf.LeaseTime = (L : Int) * 1000000000 →
        pl = putUint32 (L / 2) ∧ vl = putUint32 L) ∧
      value.length = 53 ∧
      ((∀ b ∈ pkt, b < 256) → conf.DNSServers6.length ≤ 4095 →
        conf.NTPServers6.length ≤ 4095 →
        ∃ options, GetOption6s reply = .ok options ∧
          options.find? (fun o => o.Code == DHCPV6_OPTION_IA_NA)
            = some ⟨DHCPV6_OPTION_IA_NA, value⟩) := by
  obtain ⟨t, tid, reqOpts, cli, iana, _, _, hopts, hcli, hiana, _, hr⟩ :=
    MakeDHCP6Reply_shape pkt conf reply hok
  have hia := ianaOption_eq conf iana.Value
  have h12 := (responseIANA_eq iana.Value []).2
  have haddr : (copyInto (List.replicate 16 0) (To16 conf.ClientIP6).bytes).length = 16 := by
    rw [copyInto_length, List.length_replicate]
  have hlen := (ianaOption_length conf iana.Value).2
  rw [hia] at hlen
  have hreply : ∃ hdr rest, hdr.length = 4 ∧
      reply = hdr ++ optionsToBytes
        ([⟨DHCPV6_OPTION_CLIENTID, cli.Value⟩,
          ⟨DHCPV6_OPTION_SERVERID, [0, 3, 0, 1] ++ conf.InterfaceMac.take 6⟩,
          ianaOption conf iana.Value] ++ rest) ∧
      (∀ o ∈ rest, o.Code = OPTION_DNS_SERVERS ∨ o.Code = OPTION_SNTP_SERVERS ∨
        o.Code = DHCPV6_OPTION_RAPID_COMMIT) := by
    rcases hr with ⟨_, _, hr⟩ | ⟨_, hr⟩
    · refine ⟨NewPacket6 _ tid, serverOptions6 conf ++ [⟨DHCPV6_OPTION_RAPID_COMMIT, []⟩], rfl,
        by rw [hr, List.append_assoc], ?_⟩
      intro o ho
      rcases List.mem_append.mp ho with h | h
      · rcases serverOptions6_codes conf o h with h2 | h2
        · exact Or.inl h2
        · exact Or.inr (Or.inl h2)
      · rw [List.mem_singleton] at h
        exact Or.inr (Or.inr (by rw [h]))
    · refine ⟨NewPacket6 _ tid, serverOptions6 conf, rfl, hr, ?_⟩
      intro o ho
      rcases serverOptions6_codes conf o ho with h2 | h2
      · exact Or.inl h2
      · exact Or.inr (Or.inl h2)
  obtain ⟨hdr, rest, hhdr, hrep, hrest⟩ := hreply
  rw [hia] at hrep
  refine ⟨reqOpts, cli, iana, hdr, rest, putUint32 (secondsUint32 conf.LeaseTime / 2),
    putUint32 (secondsUint32 conf.LeaseTime), _, hopts, hcli, hiana, rfl, hrep, hrest, hhdr,
    rfl, rfl, h12, haddr, ?_, ?_, hlen, ?_⟩
  · intro ip16 h16
    rw [h16]
    exact copyInto_full _ _ (by
      rw [List.length_replicate]
      exact To16_length _ _ h16)
  · intro L hL hlease
    rw [hlease, secondsUint32_whole L hL]
    exact ⟨rfl, rfl⟩
  · intro hbytes hdns hntp
    obtain ⟨t2, tid2, reqOpts2, cli2, iana2, _, _, hopts2, hcli2, hiana2, _, _, _, hget⟩ :=
      MakeDHCP6Reply_parsed pkt conf reply hbytes hdns hntp hok
    have eo : reqOpts2 = reqOpts := Except.ok.inj (hopts2.symm.trans hopts)
    rw [eo] at hiana2
    have ei : iana2 = iana := Option.some.inj (hiana2.symm.trans hiana)
    rw [ei, hia] at hget
    refine ⟨_, hget, ?_⟩
    simp only [List.cons_append, List.find?_cons]
    rfl

theorem C14_iana_value_witness :
    ∃ hdr rest,
      [7, 0, 0, 9, 0, 1, 0, 1, 5, 0, 2, 0, 10, 0, 3, 0, 1, 11, 12, 13, 14, 15, 16,
        0, 3, 0, 53, 0, 0, 0, 1, 0, 0, 14, 16, 0, 0, 21, 24, 0, 5, 0, 37,
        32, 1, 13, 184, 0, 1, 0, 2, 0, 3, 0, 4, 0, 5, 0, 6, 0, 0, 14, 16, 0, 0, 28, 32,
        0, 13, 0, 9, 0, 0, 83, 117, 99, 99, 101, 115, 115]
        = hdr ++ optionsToBytes
        ([⟨DHCPV6_OPTION_CLIENTID, [5]⟩,
          ⟨DHCPV6_OPTION_SERVERID, [0, 3, 0, 1, 11, 12, 13, 14, 15, 16]⟩,
          ⟨DHCPV6_OPTION_IA_NA, [0, 0, 0, 1, 0, 0, 14, 16, 0, 0, 21, 24]
            ++ optionToBytes ⟨DHCPV6_OPTION_IAADDR,
              [32, 1, 13, 184, 0, 1, 0, 2, 0, 3, 0, 4, 0, 5, 0, 6]
                ++ putUint32 3600 ++ putUint32 7200
                ++ optionToBytes ⟨DHCPV6_OPTION_STATUS_CODE,
                    [0, 0, 83, 117, 99, 99, 101, 115, 115]⟩⟩⟩] ++ rest) ∧
      hdr.length = 4 := by
  obtain ⟨reqOpts, cli, iana, hdr, rest, pl, vl, value, hopts, hcli, hiana, hval, hrep, _,
      hhdr, _, _, _, _, haddr, hlife, _, _⟩ := C14_iana_value
    ([6, 0, 0, 9] ++ optionsToBytes
      [⟨1, [5]⟩, ⟨3, [0, 0, 0, 1, 0, 0, 14, 16, 0, 0, 21, 24]⟩])
    { zeroConf with InterfaceMac := [11, 12, 13, 14, 15, 16],
                    ClientIP6 := some [32, 1, 13, 184, 0, 1, 0, 2, 0, 3, 0, 4, 0, 5, 0, 6],
                    LeaseTime := 7200 * 1000000000 }
    [7, 0, 0, 9, 0, 1, 0, 1, 5, 0, 2, 0, 10, 0, 3, 0, 1, 11, 12, 13, 14, 15, 16,
      0, 3, 0, 53, 0, 0, 0, 1, 0, 0, 14, 16, 0, 0, 21, 24, 0, 5, 0, 37,
      32, 1, 13, 184, 0, 1, 0, 2, 0, 3, 0, 4, 0, 5, 0, 6, 0, 0, 14, 16, 0, 0, 28, 32,
      0, 13, 0, 9, 0, 0, 83, 117, 99, 99, 101, 115, 115]
    (by decide)
  have ho2 : GetOption6s ([6, 0, 0, 9] ++ optionsToBytes
      [⟨1, [5]⟩, ⟨3, [0, 0, 0, 1, 0, 0, 14, 16, 0, 0, 21, 24]⟩])
      = .ok [⟨1, [5]⟩, ⟨3, [0, 0, 0, 1, 0, 0, 14, 16, 0, 0, 21, 24]⟩] := by decide
  have eo : reqOpts = [⟨1, [5]⟩, ⟨3, [0, 0, 0, 1, 0, 0, 14, 16, 0, 0, 21, 24]⟩] :=
    Except.ok.inj (hopts.symm.trans ho2)
  subst eo
  have ec : cli = ⟨1, [5]⟩ := Option.some.inj (hcli.symm.trans (by decide))
  have ei : iana = ⟨3, [0, 0, 0, 1, 0, 0, 14, 16, 0, 0, 21, 24]⟩ :=
    Option.some.inj (hiana.symm.trans (by decide))
  subst ec ei
  obtain ⟨hp, hv⟩ := hlife 7200 (by decide) (by decide)
  subst hp hv hval
  rw [haddr [32, 1, 13, 184, 0, 1, 0, 2, 0, 3, 0, 4, 0, 5, 0, 6] (by decide)] at hrep
  exact ⟨hdr, rest, hrep, hhdr⟩

/-- With 4096 DNS servers whose 16-byte forms are `[0, 14, 0, 0]` followed by
zeros, the length field of the DNS_SERVERS option is written as 0 and the
bytes of the first address read back as an empty RAPID_COMMIT option, in the
reply to a SOLICIT that carries none. -/
theorem MakeDHCP6Reply_dns_as_option (n k : Nat) (pkt : Packet) (conf : ResponseConfig)
    (opts : List Option6) (cli iana : Option6)
    (ht : Type6 pkt = .ok DHCPV6_SOLICIT) (hopts : GetOption6s pkt = .ok opts)
    (hcli : getOption opts DHCPV6_OPTION_CLIENTID = some cli)
    (hcv : cli.Value.length ≤ 65535)
    (hiana : getOption opts DHCPV6_OPTION_IA_NA = some iana)
    (horo : getOption opts DHCPV6_OPTION_ORO = none)
    (hrc : getOption opts DHCPV6_OPTION_RAPID_COMMIT = none)
    (hmac : 6 ≤ conf.InterfaceMac.length)
    (hdns : conf.DNSServers6 = some ([0, 14, 0, 0] ++ List.replicate 12 0)
      :: List.replicate n (some (List.replicate 16 0)))
    (hntp : conf.NTPServers6 = [])
    (hn : 16 * n + 16 = 65536) (hk : 4 * k = 16 * n + 12) :
    ∃ reply first, MakeDHCP6Reply pkt conf = .ok reply ∧ first.length = 3 ∧
      GetOption6s reply = .ok (first ++ ⟨OPTION_DNS_SERVERS, []⟩
        :: ⟨DHCPV6_OPTION_RAPID_COMMIT, []⟩ :: List.replicate k ⟨0, []⟩) := by
  obtain ⟨tid, _, hmk⟩ := makeDHCPReplyPacket6_ok pkt conf DHCPV6_ADVERTISE DHCPV6_SOLICIT opts
    cli iana ht (by decide) hopts hcli hiana
    (fun o ho => by rw [horo] at ho; exact absurd ho (by simp)) hmac
  rw [if_neg (fun h => h.2 hrc)] at hmk
  have hsup := (MakeDHCP6Reply_supported pkt conf DHCPV6_SOLICIT ht).1 rfl
  have h16 : (To16 (some ([0, 14, 0, 0] ++ List.replicate 12 0))).bytes
      = [0, 14, 0, 0] ++ List.replicate 12 0 := by decide
  have hso : serverOptions6 conf = [⟨OPTION_DNS_SERVERS,
      [0, 14, 0, 0] ++ List.replicate 12 0 ++ List.replicate (16 * n) 0⟩] := by
    unfold serverOptions6
    rw [hdns, hntp, makeIPv6s_cons, makeIPv6s_replicate_zero, h16, List.length_cons,
      if_pos (by omega)]
    rfl
  have hz : List.replicate 12 0 ++ List.replicate (16 * n) 0 = List.replicate (4 * k) 0 := by
    rw [hk, Nat.add_comm (16 * n) 12, List.replicate_add]
  have hbytes : optionsToBytes [(⟨OPTION_DNS_SERVERS,
        [0, 14, 0, 0] ++ List.replicate 12 0 ++ List.replicate (16 * n) 0⟩ : Option6)]
      = optionsToBytes (⟨OPTION_DNS_SERVERS, []⟩ :: ⟨DHCPV6_OPTION_RAPID_COMMIT, []⟩
          :: List.replicate k ⟨0, []⟩) := by
    have hl : ([0, 14, 0, 0] ++ (List.replicate 12 0 ++ List.replicate (16 * n) 0)).length
        = 65536 := by
      simp only [List.length_append, List.length_cons, List.length_nil, List.length_replicate]
      omega
    rw [optionsToBytes_cons, optionsToBytes_nil, optionsToBytes_cons, optionsToBytes_cons,
      optionsToBytes_replicate_zero, ← hz, List.append_nil]
    simp only [optionToBytes, List.length_nil, List.append_nil, List.append_assoc]
    rw [hl]
    rfl
  refine ⟨_, [⟨DHCPV6_OPTION_CLIENTID, cli.Value⟩,
    ⟨DHCPV6_OPTION_SERVERID, [0, 3, 0, 1] ++ conf.InterfaceMac.take 6⟩,
    ianaOption conf iana.Value], by rw [hsup, hmk], rfl, ?_⟩
  rw [hso, optionsToBytes_append, hbytes, ← optionsToBytes_append, NewPacket6_eq]
  apply GetOption6s_header
  · rw [if_neg (by decide)]
    rfl
  · intro o ho
    rcases List.mem_append.mp ho with h | h
    · exact replyHead_valid conf cli.Value iana.Value hcv o h
    · rcases List.mem_cons.mp h with h2 | h2
      · rw [h2]
        exact ⟨by decide, by decide⟩
      · rcases List.mem_cons.mp h2 with h3 | h3
        · rw [h3]
          exact ⟨by decide, by decide⟩
        · rw [List.eq_of_mem_replicate h3]
          exact ⟨by decide, by decide⟩

/-- The reply to a SOLICIT without RAPID_COMMIT, under 4096 DNS servers the
first of which is `0:e::`, reads back with a RAPID_COMMIT option. -/
theorem dns_overflow_reads_rapid_commit :
    getOption [⟨1, [8, 8]⟩, ⟨3, [0, 0, 0, 3, 0, 0, 14, 16, 0, 0, 21, 24]⟩]
      DHCPV6_OPTION_RAPID_COMMIT = none ∧
    ∃ reply opts,
      MakeDHCP6Reply ([1, 0, 0, 6] ++ optionsToBytes
          [⟨1, [8, 8]⟩, ⟨3, [0, 0, 0, 3, 0, 0, 14, 16, 0, 0, 21, 24]⟩])
        { zeroConf with
          InterfaceMac := [2, 4, 6, 8, 10, 12],
          DNSServers6 := some ([0, 14, 0, 0] ++ List.replicate 12 0)
            :: List.replicate 4095 (some (List.replicate 16 0)) } = .ok reply ∧
      GetOption6s reply = .ok opts ∧
      (⟨DHCPV6_OPTION_RAPID_COMMIT, []⟩ : Option6) ∈ opts := by
  refine ⟨by decide, ?_⟩
  obtain ⟨reply, first, h1, _, h3⟩ := MakeDHCP6Reply_dns_as_option 4095 16383
    ([1, 0, 0, 6] ++ optionsToBytes
      [⟨1, [8, 8]⟩, ⟨3, [0, 0, 0, 3, 0, 0, 14, 16, 0, 0, 21, 24]⟩])
    { zeroConf with
      InterfaceMac := [2, 4, 6, 8, 10, 12],
      DNSServers6 := some ([0, 14, 0, 0] ++ List.replicate 12 0)
        :: List.replicate 4095 (some (List.replicate 16 0)) }
    [⟨1, [8, 8]⟩, ⟨3, [0, 0, 0, 3, 0, 0, 14, 16, 0, 0, 21, 24]⟩]
    ⟨1, [8, 8]⟩ ⟨3, [0, 0, 0, 3, 0, 0, 14, 16, 0, 0, 21, 24]⟩
    (by decide) (by decide) (by decide) (by decide) (by decide) (by decide) (by decide)
    (by decide) rfl rfl (by decide) (by decide)
  exact ⟨reply, _, h1, h3, List.mem_append_right _
    (List.mem_cons_of_mem _ (List.mem_cons_self _ _))⟩

end Dhcp
